import Mathlib

/-!
# mybot: task orchestration core

A shallow embedding of the task queue (`internal/evolution/queue.go`), the task
executor (`internal/evolution/executor.go`), the decision step of the evolution
engine (`internal/evolution/engine.go`), the skill registry and the recurring
scheduler (`internal/scheduler`) and the command dispatch of the control
protocol (`internal/server/socket.go`), followed by theorems about them.

Conventions of the embedding

* Go `string` values are Lean `String`s: a string is held by the text a reader
  of UTF-8 finds in it, a byte that is not part of a valid encoding showing as
  U+FFFD (only `reason[:200]` of `handleTaskCreate` can produce one). Go `int`
  values are `Int`s (no arithmetic is performed on them here, only comparisons).
* Instants are nanoseconds since the epoch; what the time zone makes of a date
  is supplied with the clock.
* A nil slice and an empty slice are both the empty list; a nil map and an empty
  map are both the empty association list. `len`, `range` and key lookup do not
  tell them apart.
* Everything a function obtains from outside (the clock, the random task id, the
  outcome of a file write, the answers of the memory collaborator and of the
  decision oracle) is an explicit argument.
* The mutex of the queue is not represented: calls are applied one after the
  other.
-/

namespace Mybot

/-! ## JSON documents and dynamic values -/

/-- JSON document as produced by `json.MarshalIndent` and consumed by
`json.Unmarshal`. Numbers are integer literals. Object members keep the order in
which they are listed. Strings are texts: a Go string is held by the text a
reader of UTF-8 finds in it, in which every byte that is not part of a valid
encoding shows as U+FFFD; that is the text `json.Marshal` writes for it. -/
inductive Json where
  | null
  | bool (b : Bool)
  | num (n : Int)
  | str (s : String)
  | arr (xs : List Json)
  | obj (kvs : List (String × Json))

/-- Value stored in a `map[string]interface{}` (`Params`, `Metrics`).
`int` is a Go `int` put there by the program (`len(results)`, `size`, ...).
The other constructors are the kinds `json.Unmarshal` stores in an
`interface{}`: nil, bool, float64, string, `[]interface{}` and
`map[string]interface{}`; a `float64` is given by the integer it holds, which
is one a `float64` can hold (`roundFloat64` leaves it as it is), and the
elements of decoded arrays and objects are kept as JSON values. -/
inductive GoValue where
  | null
  | bool (b : Bool)
  | int (n : Int)
  | float64 (n : Int)
  | str (s : String)
  | arr (xs : List Json)
  | obj (kvs : List (String × Json))

/-- The number of low bits a `float64` cannot hold of the natural number `m`:
zero below 2^53, and one more for every further doubling. The fuel covers every
number below 2^1024, the range of a `float64`. -/
def roundExp : Nat → Nat → Nat
  | 0, _ => 0
  | fuel + 1, m => if m < 9007199254740992 then 0 else 1 + roundExp fuel (m / 2)

/-- The integer held by the `float64` nearest to the integer `n`, as
`strconv.ParseFloat` finds it for a literal that denotes `n`: the 53 leading
bits are kept and the rest is rounded to nearest, ties to even. -/
def roundFloat64 (n : Int) : Int :=
  let m := n.natAbs
  let e := roundExp 1100 m
  let q := m / 2 ^ e
  let r := m % 2 ^ e
  let q1 := if 2 * r > 2 ^ e ∨ (2 * r = 2 ^ e ∧ q % 2 = 1) then q + 1 else q
  if n < 0 then -((q1 * 2 ^ e : Nat) : Int) else ((q1 * 2 ^ e : Nat) : Int)

/-- Encoding of an `interface{}` value by `json.Marshal`. -/
def encodeValue : GoValue → Json
  | .null => .null
  | .bool b => .bool b
  | .int n => .num n
  | .float64 n => .num n
  | .str s => .str s
  | .arr xs => .arr xs
  | .obj kvs => .obj kvs

/-- Decoding into an `interface{}` by `json.Unmarshal`: every number becomes
the `float64` nearest to it. -/
def decodeValue : Json → GoValue
  | .null => .null
  | .bool b => .bool b
  | .num n => .float64 (roundFloat64 n)
  | .str s => .str s
  | .arr xs => .arr xs
  | .obj kvs => .obj kvs

/-- What a value looks like after one trip through the file: a Go `int` has
become the `float64` nearest to it, everything else is itself. -/
def GoValue.afterJSON : GoValue → GoValue
  | .int n => .float64 (roundFloat64 n)
  | .float64 n => .float64 (roundFloat64 n)
  | v => v

/-! ## Data model (`task.go`, `queue.go`) -/

/-- Record `ActionPlan` of `task.go`. -/
structure ActionPlan where
  Action : String
  Reason : String
  Steps : List String
  ExpectedOutcome : String
  Priority : Int
deriving DecidableEq, Repr

/-- Record `TaskResult` of `task.go`. -/
structure TaskResult where
  Success : Bool
  Output : String
  Error : String
  Metrics : List (String × GoValue)
  Learning : String

/-- Record `Task` of `task.go`. `ActionPlan` is never nil on a task the program
builds: `NewTask` and `executeCustom` attach a plan they have just read from. -/
structure Task where
  ID : String
  Type_ : String
  ActionPlan : ActionPlan
  Params : List (String × GoValue)
  Priority : Int
  Status : String
  CreatedAt : String
  StartedAt : String
  CompletedAt : String
  Result : Option TaskResult

/-- Record `QueuedTask` of `queue.go`. The pointer fields `ActionPlan` and
`Result` are options (`none` is nil). -/
structure QueuedTask where
  ID : String
  Type_ : String
  ActionPlan : Option ActionPlan
  Params : List (String × GoValue)
  Priority : Int
  Status : String
  CreatedAt : String
  CreatedBy : String
  StartedAt : String
  CompletedAt : String
  Result : Option TaskResult

/-- The queue `TaskQueue`: the slice `tasks`. Its elements are never nil:
`Enqueue` appends a fresh record and the file is written by `save` only. -/
structure TaskQueue where
  tasks : List QueuedTask

/-! ## Persistence (`save`, `load`) -/

/-- Outcome of `os.WriteFile`. A failed write leaves either the old content or a
file that no longer decodes. -/
inductive WriteOutcome where
  | ok
  | failedUntouched
  | failedTruncated

/-- The queue file: `content` is the JSON document in it (`none` when the file is
missing or is not JSON), `writes` counts the calls of `os.WriteFile`. -/
structure Disk where
  content : Option Json
  writes : Nat

/-- JSON object written for an `ActionPlan`. -/
def encodePlan (p : ActionPlan) : Json :=
  .obj [("action", .str p.Action), ("reason", .str p.Reason),
    ("steps", .arr (p.Steps.map Json.str)),
    ("expected_outcome", .str p.ExpectedOutcome), ("priority", .num p.Priority)]

/-- JSON object written for a `map[string]interface{}`. -/
def encodeMap (m : List (String × GoValue)) : Json :=
  .obj (m.map fun kv => (kv.1, encodeValue kv.2))

/-- JSON object written for a `TaskResult`. -/
def encodeResult (r : TaskResult) : Json :=
  .obj [("success", .bool r.Success), ("output", .str r.Output), ("error", .str r.Error),
    ("metrics", encodeMap r.Metrics), ("learning", .str r.Learning)]

/-- JSON written for a pointer: `null` for nil. -/
def encodePtr {α : Type} (f : α → Json) : Option α → Json
  | none => .null
  | some a => f a

/-- JSON object written for a `QueuedTask`, members named by the struct tags. -/
def encodeTask (t : QueuedTask) : Json :=
  .obj [("id", .str t.ID), ("type", .str t.Type_),
    ("action_plan", encodePtr encodePlan t.ActionPlan),
    ("params", encodeMap t.Params), ("priority", .num t.Priority),
    ("status", .str t.Status), ("created_at", .str t.CreatedAt),
    ("created_by", .str t.CreatedBy), ("started_at", .str t.StartedAt),
    ("completed_at", .str t.CompletedAt), ("result", encodePtr encodeResult t.Result)]

/-- The document `json.MarshalIndent(q.tasks, "", "  ")` denotes. -/
def encodeTasks (ts : List QueuedTask) : Json :=
  .arr (ts.map encodeTask)

/-- Member of an object by name; an absent member reads as `null`, which leaves
the Go field at its zero value. Documents written by `save` list every tag once
and in lower case, so the first exact match is the member. -/
def member (kvs : List (String × Json)) (k : String) : Json :=
  (kvs.lookup k).getD .null

/-- Decoding into a `string` field. -/
def decodeString : Json → Option String
  | .null => some ""
  | .str s => some s
  | _ => none

/-- Decoding into an `int` field. -/
def decodeInt : Json → Option Int
  | .null => some 0
  | .num n => some n
  | _ => none

/-- Decoding into a `bool` field. -/
def decodeBool : Json → Option Bool
  | .null => some false
  | .bool b => some b
  | _ => none

/-- Decoding of the elements of an array one by one; an element that does not
decode makes the whole call fail. -/
def decodeAll {α : Type} (f : Json → Option α) : List Json → Option (List α)
  | [] => some []
  | j :: js =>
    match f j with
    | none => none
    | some a => (decodeAll f js).map (a :: ·)

/-- Decoding into a `[]string` field. -/
def decodeStrings : Json → Option (List String)
  | .null => some []
  | .arr xs => decodeAll decodeString xs
  | _ => none

/-- Decoding into a `map[string]interface{}` field. -/
def decodeMap : Json → Option (List (String × GoValue))
  | .null => some []
  | .obj kvs => some (kvs.map fun kv => (kv.1, decodeValue kv.2))
  | _ => none

/-- Decoding into an `ActionPlan`. -/
def decodePlan : Json → Option ActionPlan
  | .obj kvs => do
    let action ← decodeString (member kvs "action")
    let reason ← decodeString (member kvs "reason")
    let steps ← decodeStrings (member kvs "steps")
    let expected ← decodeString (member kvs "expected_outcome")
    let priority ← decodeInt (member kvs "priority")
    pure { Action := action, Reason := reason, Steps := steps,
           ExpectedOutcome := expected, Priority := priority }
  | _ => none

/-- Decoding into a `TaskResult`. -/
def decodeResult : Json → Option TaskResult
  | .obj kvs => do
    let success ← decodeBool (member kvs "success")
    let output ← decodeString (member kvs "output")
    let error ← decodeString (member kvs "error")
    let metrics ← decodeMap (member kvs "metrics")
    let learning ← decodeString (member kvs "learning")
    pure { Success := success, Output := output, Error := error,
           Metrics := metrics, Learning := learning }
  | _ => none

/-- Decoding into a pointer field: `null` gives nil. -/
def decodePtr {α : Type} (f : Json → Option α) : Json → Option (Option α)
  | .null => some none
  | j => (f j).map some

/-- Decoding of one array element into a `*QueuedTask`. A `null` element (a nil
pointer in the slice) is outside the model and is refused. -/
def decodeTask : Json → Option QueuedTask
  | .obj kvs => do
    let id ← decodeString (member kvs "id")
    let type ← decodeString (member kvs "type")
    let plan ← decodePtr decodePlan (member kvs "action_plan")
    let params ← decodeMap (member kvs "params")
    let priority ← decodeInt (member kvs "priority")
    let status ← decodeString (member kvs "status")
    let createdAt ← decodeString (member kvs "created_at")
    let createdBy ← decodeString (member kvs "created_by")
    let startedAt ← decodeString (member kvs "started_at")
    let completedAt ← decodeString (member kvs "completed_at")
    let result ← decodePtr decodeResult (member kvs "result")
    pure { ID := id, Type_ := type, ActionPlan := plan, Params := params,
           Priority := priority, Status := status, CreatedAt := createdAt,
           CreatedBy := createdBy, StartedAt := startedAt,
           CompletedAt := completedAt, Result := result }
  | _ => none

/-- The call `json.Unmarshal(data, &tasks)` with `tasks []*QueuedTask`. -/
def decodeTasks : Json → Option (List QueuedTask)
  | .null => some []
  | .arr xs => decodeAll decodeTask xs
  | _ => none

/-- Method `TaskQueue.save`: marshal the slice and write the file. The marshal
step cannot fail on the values of the model. The result is the disk afterwards
and whether an error is returned. -/
def save (q : TaskQueue) (d : Disk) (w : WriteOutcome) : Disk × Bool :=
  match w with
  | .ok => ({ content := some (encodeTasks q.tasks), writes := d.writes + 1 }, false)
  | .failedUntouched => ({ content := d.content, writes := d.writes + 1 }, true)
  | .failedTruncated => ({ content := none, writes := d.writes + 1 }, true)

/-- Method `TaskQueue.load`: keep the queue when the file cannot be read or
decoded, replace the slice otherwise. -/
def load (q : TaskQueue) (d : Disk) : TaskQueue :=
  match d.content with
  | none => q
  | some doc =>
    match decodeTasks doc with
    | none => q
    | some ts => { tasks := ts }

/-- Constructor `NewTaskQueue`. -/
def NewTaskQueue (d : Disk) : TaskQueue :=
  load { tasks := [] } d

/-! ## Queue operations -/

/-- Method `TaskQueue.Enqueue`. `id` is the value of `generateTaskID()`, `now`
the formatted clock. Returns the queue, the disk, the new task and the returned
error (`none` is nil); the error `save` returns is dropped. -/
def Enqueue (q : TaskQueue) (d : Disk) (actionPlan : ActionPlan) (createdBy : String)
    (id now : String) (w : WriteOutcome) : TaskQueue × Disk × QueuedTask × Option String :=
  let task : QueuedTask :=
    { ID := id, Type_ := actionPlan.Action, ActionPlan := some actionPlan, Params := [],
      Priority := actionPlan.Priority, Status := "pending", CreatedAt := now,
      CreatedBy := createdBy, StartedAt := "", CompletedAt := "", Result := none }
  let q1 : TaskQueue := { tasks := q.tasks ++ [task] }
  (q1, (save q1 d w).1, task, none)

/-- The loop of `Dequeue`: `i` is the index of the head of the remaining slice,
`best` the index `bestTask` points to (`none` is nil) and `maxPriority` the
running maximum. -/
def scanBest : List QueuedTask → Nat → Option Nat → Int → Option Nat
  | [], _, best, _ => best
  | task :: rest, i, best, maxPriority =>
    if task.Status = "pending" ∧ task.Priority > maxPriority then
      scanBest rest (i + 1) (some i) task.Priority
    else
      scanBest rest (i + 1) best maxPriority

/-- Method `TaskQueue.Dequeue`. -/
def Dequeue (q : TaskQueue) (d : Disk) (now : String) (w : WriteOutcome) :
    TaskQueue × Disk × Option QueuedTask :=
  match scanBest q.tasks 0 none (-1) with
  | none => (q, d, none)
  | some i =>
    match q.tasks[i]? with
    | none => (q, d, none)
    | some bestTask =>
      let started : QueuedTask := { bestTask with Status := "running", StartedAt := now }
      let q1 : TaskQueue := { tasks := q.tasks.set i started }
      (q1, (save q1 d w).1, some started)

/-- The loop of `UpdateTask`: rewrite the first task carrying `taskID`; `none`
when no task carries it. -/
def updateFirst (taskID status : String) (result : Option TaskResult) (now : String) :
    List QueuedTask → Option (List QueuedTask)
  | [] => none
  | task :: rest =>
    if task.ID = taskID then
      let t1 : QueuedTask := { task with Status := status, Result := result }
      let t2 : QueuedTask :=
        if status = "completed" ∨ status = "failed" then { t1 with CompletedAt := now } else t1
      some (t2 :: rest)
    else
      (updateFirst taskID status result now rest).map (task :: ·)

/-- Method `TaskQueue.UpdateTask`; the last component is the returned error
(`none` is nil). -/
def UpdateTask (q : TaskQueue) (d : Disk) (taskID status : String)
    (result : Option TaskResult) (now : String) (w : WriteOutcome) :
    TaskQueue × Disk × Option String :=
  match updateFirst taskID status result now q.tasks with
  | some ts =>
    let q1 : TaskQueue := { tasks := ts }
    (q1, (save q1 d w).1, none)
  | none => (q, d, some ("task not found: " ++ taskID))

/-- The loop of `ListTasks`: `remaining` are the tasks still to visit, newest
first (the loop index runs downwards), `count` the number of tasks taken and
`result` the slice built so far. -/
def listLoop (statusFilter : String) (limit : Int) :
    List QueuedTask → Int → List QueuedTask → List QueuedTask
  | [], _, result => result
  | task :: remaining, count, result =>
    if count < limit then
      if statusFilter = "" ∨ task.Status = statusFilter then
        listLoop statusFilter limit remaining (count + 1) (result ++ [task])
      else
        listLoop statusFilter limit remaining count result
    else result

/-- Method `TaskQueue.ListTasks`. -/
def ListTasks (q : TaskQueue) (statusFilter : String) (limit : Int) : List QueuedTask :=
  listLoop statusFilter limit q.tasks.reverse 0 []

/-- Queue together with its file. -/
structure QState where
  q : TaskQueue
  d : Disk

/-- One call on the queue, with what the environment supplies to it. -/
inductive QueueCall where
  | enqueue (plan : ActionPlan) (createdBy id now : String) (w : WriteOutcome)
  | dequeue (now : String) (w : WriteOutcome)
  | update (taskID status : String) (result : Option TaskResult) (now : String)
      (w : WriteOutcome)

/-- State after one call. -/
def QueueCall.apply (s : QState) : QueueCall → QState
  | .enqueue plan createdBy id now w =>
    let r := Enqueue s.q s.d plan createdBy id now w
    { q := r.1, d := r.2.1 }
  | .dequeue now w =>
    let r := Dequeue s.q s.d now w
    { q := r.1, d := r.2.1 }
  | .update taskID status result now w =>
    let r := UpdateTask s.q s.d taskID status result now w
    { q := r.1, d := r.2.1 }

/-- State after a sequence of calls. -/
def runCalls (s : QState) (cs : List QueueCall) : QState :=
  cs.foldl QueueCall.apply s

/-- Index `i` holds a pending task whose priority no pending task exceeds and no
pending task at an earlier index reaches. -/
def IsFirstBestPending (ts : List QueuedTask) (i : Nat) : Prop :=
  ∃ t, ts[i]? = some t ∧ t.Status = "pending" ∧
    ∀ (j : Nat) (u : QueuedTask), ts[j]? = some u → u.Status = "pending" →
      u.Priority ≤ t.Priority ∧ (j < i → u.Priority < t.Priority)

/-- What the loop of `Dequeue` has established when it ends with `bestTask` at
`best`: with nil, every pending task has a priority of at most -1; with an
index, that index is the first best pending task. -/
def ScanPost (ts : List QueuedTask) : Option Nat → Prop
  | none => ∀ (j : Nat) (u : QueuedTask), ts[j]? = some u → u.Status = "pending" →
      u.Priority ≤ -1
  | some b => IsFirstBestPending ts b

/-- Every enqueued plan of the call has a priority of at least zero. -/
def QueueCall.nonnegPriority : QueueCall → Prop
  | .enqueue plan _ _ _ _ => 0 ≤ plan.Priority
  | .dequeue _ _ => True
  | .update _ _ _ _ _ => True

/-- Method `TaskQueue.GetTask`: the first task carrying the id. -/
def GetTask (q : TaskQueue) (taskID : String) : Option QueuedTask :=
  q.tasks.find? fun task => decide (task.ID = taskID)

/-- The file outcome handed to a call. -/
def QueueCall.writeOutcome : QueueCall → WriteOutcome
  | .enqueue _ _ _ _ w => w
  | .dequeue _ w => w
  | .update _ _ _ _ w => w

/-- Status `b` is `a` or lies further along pending, running, then completed or
failed. -/
def StatusPath (a b : String) : Prop :=
  a = b ∨ (a = "pending" ∧ (b = "running" ∨ b = "completed" ∨ b = "failed")) ∨
    (a = "running" ∧ (b = "completed" ∨ b = "failed"))

/-- The call keeps to the lifecycle in state `s`: an `UpdateTask` passes
completed or failed, and the task it is going to rewrite is running. -/
def QueueCall.respectsLifecycle (s : QState) : QueueCall → Prop
  | .update taskID status _ _ _ =>
    (status = "completed" ∨ status = "failed") ∧
      ∀ t, GetTask s.q taskID = some t → t.Status = "running"
  | _ => True

/-- Every call of the run keeps to the lifecycle in the state it is applied to. -/
def runRespectsLifecycle (s : QState) : List QueueCall → Prop
  | [] => True
  | c :: cs => c.respectsLifecycle s ∧ runRespectsLifecycle (c.apply s) cs

/-- A map after one trip through the file. -/
def afterJSONMap (m : List (String × GoValue)) : List (String × GoValue) :=
  m.map fun kv => (kv.1, kv.2.afterJSON)

/-- A result after one trip through the file. -/
def TaskResult.afterJSON (r : TaskResult) : TaskResult :=
  { r with Metrics := afterJSONMap r.Metrics }

/-- A queued task after one trip through the file. -/
def QueuedTask.afterJSON (t : QueuedTask) : QueuedTask :=
  { t with Params := afterJSONMap t.Params, Result := t.Result.map TaskResult.afterJSON }

/-- The queue `NewTaskQueue` builds when there is no file. -/
def emptyState : QState :=
  { q := { tasks := [] }, d := { content := none, writes := 0 } }

/-- An idle plan of the given priority. -/
def planOfPriority (p : Int) : ActionPlan :=
  { Action := "idle", Reason := "", Steps := [], ExpectedOutcome := "", Priority := p }

/-- Scenario: three tasks of priorities 3, 9, 9 enqueued by "user". -/
def scenarioCalls : List QueueCall :=
  [.enqueue (planOfPriority 3) "user" "task-20260101-090000-aaaaa1" "2026-01-01T09:00:00Z" .ok,
   .enqueue (planOfPriority 9) "user" "task-20260101-090001-aaaaa2" "2026-01-01T09:00:01Z" .ok,
   .enqueue (planOfPriority 9) "user" "task-20260101-090002-aaaaa3" "2026-01-01T09:00:02Z" .ok]

/-- The ids of the tasks successive `Dequeue` calls return, one call per clock
value. -/
def dequeueIDs (s : QState) : List String → List (Option String)
  | [] => []
  | now :: rest =>
    let r := Dequeue s.q s.d now .ok
    r.2.2.map (·.ID) :: dequeueIDs { q := r.1, d := r.2.1 } rest

/-- The statuses of the tasks, in queue order. -/
def statuses (s : QState) : List String :=
  s.q.tasks.map (·.Status)

/-! ## Strings (`strings`, `fmt`) -/

/-- White space as `unicode.IsSpace` and the scanner of `fmt` define it. -/
def isSpace (c : Char) : Bool :=
  decide ((0x09 ≤ c.toNat ∧ c.toNat ≤ 0x0d) ∨ c.toNat = 0x20 ∨ c.toNat = 0x85 ∨
    c.toNat = 0xa0 ∨ c.toNat = 0x1680 ∨ (0x2000 ≤ c.toNat ∧ c.toNat ≤ 0x200a) ∨
    c.toNat = 0x2028 ∨ c.toNat = 0x2029 ∨ c.toNat = 0x202f ∨ c.toNat = 0x205f ∨
    c.toNat = 0x3000)

/-- Function `strings.TrimSpace`. -/
def TrimSpace (s : String) : String :=
  String.mk ((s.data.dropWhile isSpace).reverse.dropWhile isSpace).reverse

/-- Lower case of one rune: the ASCII capitals, and the two non-ASCII runes
whose lower case is an ASCII letter (U+0130 and the Kelvin sign U+212A). Other
non-ASCII letters are left as they are; their lower-case forms are not ASCII and
are not CJK, so no comparison made in this file depends on them. -/
def toLowerRune (c : Char) : Char :=
  if c.toNat = 0x130 then 'i' else if c.toNat = 0x212a then 'k' else c.toLower

/-- Function `strings.ToLower`. -/
def ToLower (s : String) : String :=
  String.mk (s.data.map toLowerRune)

/-- Function `strings.Contains`. -/
def Contains (s substr : String) : Bool :=
  decide (substr.data <:+: s.data)

/-- Function `strings.Join`. -/
def Join (elems : List String) (sep : String) : String :=
  sep.intercalate elems

/-- Index of the first occurrence of `c`, as `strings.Index` with a one-byte
needle; `none` stands for -1. -/
def indexOfRune (c : Char) : List Char → Option Nat
  | [] => none
  | x :: xs => if x = c then some 0 else (indexOfRune c xs).map (· + 1)

/-- Index of the last occurrence of `c`, as `strings.LastIndex` with a one-byte
needle; `none` stands for -1. -/
def lastIndexOfRune (c : Char) : List Char → Option Nat
  | [] => none
  | x :: xs =>
    match lastIndexOfRune c xs with
    | some j => some (j + 1)
    | none => if x = c then some 0 else none

/-- The extraction both `parseActionPlan` and the handlers apply to an oracle
answer: the text from the first opening brace to the last closing brace when the
latter comes after the former, the whole answer otherwise. -/
def extractJSON (resp : String) : String :=
  match indexOfRune (Char.ofNat 123) resp.data, lastIndexOfRune (Char.ofNat 125) resp.data with
  | some i, some j =>
    if j > i then String.mk ((resp.data.drop i).take (j + 1 - i)) else resp
  | _, _ => resp

/-! ## Task executor (`executor.go`) -/

/-- Go zero value of `TaskResult`. -/
def TaskResult.zero : TaskResult :=
  { Success := false, Output := "", Error := "", Metrics := [], Learning := "" }

/-- One entry of `hot_updates` and `long_updates` in the plan of `executeLearn`. -/
structure LearnUpdate where
  Topic : String
  Content : String

/-- Local type `learnPlan` of `executeLearn`. -/
structure LearnPlan where
  HotUpdates : List LearnUpdate
  ShortUpdates : List String
  LongUpdates : List LearnUpdate

/-- Record `customActionResponse`. -/
structure CustomActionResponse where
  Action : String
  Steps : List String

/-- What the collaborators answer during one `Execute`. An error is given by its
text. The prompts sent to the oracle are not built: its answer is an argument.
Effects of the collaborators on the memory files are not represented. The
executor's `llmClient` is non-nil (`NewTaskExecutor` panics otherwise), so the
nil checks of `executeLearn` and `executeCustom` never fire. -/
structure ExecEnv where
  /-- Call `memMgr.SummarizeAndRotate()`: the error, `none` for nil. -/
  summarizeAndRotate : Option String
  /-- Call `memMgr.Consolidate(topic, content)`, by the number of calls made
  before it during this execution: the error, `none` for nil. -/
  consolidate : Nat → String → String → Option String
  /-- Call `memMgr.RecallWithPreprocess(query, topK, true)`: the number of
  results or the error. -/
  recallWithPreprocess : String → Nat → Except String Nat
  /-- Call `memory.BuildIntegratedSystemPrompt()`: path and size, or the error. -/
  buildIntegrated : Except String (String × Int)
  /-- Call `os.ReadFile(integratedPath)` in `executeLearn`: the error if any. -/
  readIntegrated : Option String
  /-- Call `llmClient.Chat` in `executeLearn`. -/
  chatLearn : Except String String
  /-- Call `llmClient.Chat` in `executeCustom`. -/
  chatCustom : Except String String
  /-- Call `json.Unmarshal` into a `learnPlan`. -/
  unmarshalLearn : String → Except String LearnPlan
  /-- Call `json.Unmarshal` into a `customActionResponse`. -/
  unmarshalCustom : String → Except String CustomActionResponse
  /-- Value of `time.Now().Format(time.RFC3339)` at the end of a handler. -/
  now : String

/-- What a handler returns: the result (never nil) and the error (`none` is
nil). -/
abbrev HandlerResult := TaskResult × Option String

/-- Handler `executeSummarize`. -/
def executeSummarize (env : ExecEnv) (task : Task) : HandlerResult :=
  match env.summarizeAndRotate with
  | some err =>
    ({ TaskResult.zero with
        Success := false, Error := err,
        Learning := "SummarizeAndRotate 失败，需要检查 LLM 配置和 archive 文件状态" }, some err)
  | none =>
    ({ TaskResult.zero with
        Success := true, Output := "Archive files summarized successfully",
        Metrics := [("completed_at", .str task.CreatedAt)],
        Learning := "成功执行 SummarizeAndRotate，archive 文件已压缩并移动到 backup 目录" }, none)

/-- Handler `executeConsolidate`. -/
def executeConsolidate (env : ExecEnv) (task : Task) : HandlerResult :=
  match task.ActionPlan.Steps with
  | topic :: content :: _ =>
    match env.consolidate 0 topic content with
    | some err =>
      ({ TaskResult.zero with
          Success := false, Error := err,
          Learning := "Consolidate 失败，需要检查文件写入权限和目录结构" }, some err)
    | none =>
      ({ TaskResult.zero with
          Success := true,
          Output := "Content consolidated: topic=" ++ topic,
          Metrics := [("topic", .str topic), ("completed_at", .str task.CreatedAt)],
          Learning := "成功固化记忆：" ++ topic }, none)
  | _ =>
    ({ TaskResult.zero with
        Success := false,
        Error := "Consolidate task requires topic and content in steps" },
      some "invalid consolidate task: missing topic or content")

/-- Handler `executeRecall`. -/
def executeRecall (env : ExecEnv) (task : Task) : HandlerResult :=
  match task.ActionPlan.Steps with
  | [] =>
    ({ TaskResult.zero with
        Success := false, Error := "Recall task requires query in steps" },
      some "invalid recall task: missing query")
  | query :: _ =>
    match env.recallWithPreprocess query 5 with
    | .error err => ({ TaskResult.zero with
        Success := false, Error := err }, some err)
    | .ok count =>
      ({ TaskResult.zero with
          Success := true,
          Output := "Found " ++ toString count ++ " results for query: " ++ query,
          Metrics := [("query", .str query), ("result_count", .int count),
            ("completed_at", .str task.CreatedAt)],
          Learning := "检索到 " ++ toString count ++ " 条相关记忆" }, none)

/-- The requirement text of `executeLearn`: the joined steps, else the reason,
else a fixed sentence. -/
def learnRequirement (plan : ActionPlan) : String :=
  let r1 := if plan.Steps.length > 0 then TrimSpace (Join plan.Steps "；") else ""
  let r2 := if r1 = "" then TrimSpace plan.Reason else r1
  if r2 = "" then "根据当前 brain 与记忆，对 hot / short / long memory 做一次自我学习和整理。" else r2

/-- The two loops of `executeLearn` over `hot_updates` and `long_updates`:
`calls` counts the `Consolidate` calls made so far, `applied` the successful
ones. Returns both counters. -/
def applyUpdates (env : ExecEnv) : List LearnUpdate → Nat → Nat → Nat × Nat
  | [], calls, applied => (calls, applied)
  | u :: rest, calls, applied =>
    if TrimSpace u.Topic = "" ∨ TrimSpace u.Content = "" then
      applyUpdates env rest calls applied
    else
      match env.consolidate calls u.Topic u.Content with
      | some _ => applyUpdates env rest (calls + 1) applied
      | none => applyUpdates env rest (calls + 1) (applied + 1)

/-- Handler `executeLearn`. -/
def executeLearn (env : ExecEnv) (task : Task) : HandlerResult :=
  let requirement := learnRequirement task.ActionPlan
  match env.buildIntegrated with
  | .error err =>
    ({ TaskResult.zero with
        Success := false,
        Error := "failed to build integrated system prompt for learn: " ++ err,
        Learning := "学习失败：无法构建集成上下文，需检查 brain 目录与权限" }, some err)
  | .ok (integratedPath, _) =>
    match env.readIntegrated with
    | some err =>
      ({ TaskResult.zero with
          Success := false,
          Error := "failed to read integrated system prompt: " ++ err,
          Learning := "学习失败：无法读取集成上下文文件" }, some err)
    | none =>
      match env.chatLearn with
      | .error err =>
        ({ TaskResult.zero with
            Success := false, Error := "learn LLM call failed: " ++ err },
          some err)
      | .ok resp =>
        match env.unmarshalLearn (extractJSON resp) with
        | .error err =>
          ({ TaskResult.zero with
              Success := false,
              Error := "learn plan parse failed: " ++ err }, some err)
        | .ok plan =>
          let hot := applyUpdates env plan.HotUpdates 0 0
          let long := applyUpdates env plan.LongUpdates hot.1 0
          let appliedShort := (plan.ShortUpdates.filter fun s => TrimSpace s ≠ "").length
          ({ TaskResult.zero with
              Success := true,
              Output := "Learn task completed. Applied hot_updates=" ++ toString hot.2 ++
                ", short_updates=" ++ toString appliedShort ++
                ", long_updates=" ++ toString long.2,
              Metrics := [("completed_at", .str env.now), ("hot_updates", .int hot.2),
                ("short_updates", .int appliedShort), ("long_updates", .int long.2),
                ("integratedPath", .str integratedPath)],
              Learning := "根据需求「" ++ requirement ++
                "」完成一次基于 brain 集成视图的记忆学习与更新。" }, none)

/-- Handler `executeOptimize`. -/
def executeOptimize (_env : ExecEnv) (task : Task) : HandlerResult :=
  ({ TaskResult.zero with
      Success := true, Output := "Optimize task executed (placeholder)",
      Metrics := [("completed_at", .str task.CreatedAt)],
      Learning := "优化任务执行完成（待实现具体逻辑）" }, none)

/-- Handler `executeReflect`. -/
def executeReflect (_env : ExecEnv) (task : Task) : HandlerResult :=
  ({ TaskResult.zero with
      Success := true, Output := "Reflect task executed (placeholder)",
      Metrics := [("completed_at", .str task.CreatedAt)],
      Learning := "反思任务执行完成（待实现具体逻辑）" }, none)

/-- Handler `executeIdle`. -/
def executeIdle (_env : ExecEnv) (task : Task) : HandlerResult :=
  ({ TaskResult.zero with
      Success := true,
      Output := "System state is healthy, no action needed",
      Metrics := [("completed_at", .str task.CreatedAt)],
      Learning := task.ActionPlan.Reason }, none)

/-- Handler `executeIntegrate`. -/
def executeIntegrate (env : ExecEnv) (_task : Task) : HandlerResult :=
  match env.buildIntegrated with
  | .error err =>
    ({ TaskResult.zero with
        Success := false, Error := err,
        Learning := "整合失败，检查 brain 目录与权限" }, some err)
  | .ok (outPath, size) =>
    ({ TaskResult.zero with
        Success := true,
        Output := "Integrated system prompt written to " ++ outPath ++ " (" ++
          toString size ++ " bytes)",
        Metrics := [("completed_at", .str env.now), ("output_path", .str outPath),
          ("size_bytes", .int size)],
        Learning := "已将 core、workflow、hot、long-term、short-term、graph_memory、archive 整合为 brain/context/integrated_system_prompt.md" },
      none)

/-- The requirement text of `executeCustom`: the trimmed first step, else the
reason. -/
def customRequirement (plan : ActionPlan) : String :=
  let r1 := match plan.Steps with
    | [] => ""
    | step :: _ => TrimSpace step
  if r1 = "" then plan.Reason else r1

/-- The task `executeCustom` builds for the handler it delegates to. -/
def innerTask (action requirement : String) (steps : List String) (createdAt : String) : Task :=
  { ID := "", Type_ := action,
    ActionPlan := { Action := action, Reason := requirement, Steps := steps,
                    ExpectedOutcome := "", Priority := 0 },
    Params := [], Priority := 0, Status := "", CreatedAt := createdAt, StartedAt := "",
    CompletedAt := "", Result := none }

/-- The final `switch` of `executeCustom`. -/
def dispatchInner (env : ExecEnv) (action : String) (inner : Task) : HandlerResult :=
  if action = "integrate" then executeIntegrate env inner
  else if action = "summarize" then executeSummarize env inner
  else if action = "consolidate" then executeConsolidate env inner
  else if action = "recall" then executeRecall env inner
  else if action = "learn" then executeLearn env inner
  else if action = "optimize" then executeOptimize env inner
  else if action = "reflect" then executeReflect env inner
  else executeIdle env inner

/-- The part of `executeCustom` after the classification has been settled: lower
the action, default it to idle, build the inner task and dispatch. -/
def runClassified (env : ExecEnv) (task : Task) (requirement : String)
    (parsed : CustomActionResponse) : HandlerResult :=
  let action0 := TrimSpace (ToLower parsed.Action)
  let action := if action0 = "" then "idle" else action0
  dispatchInner env action (innerTask action requirement parsed.Steps task.CreatedAt)

/-- Handler `executeCustom`. -/
def executeCustom (env : ExecEnv) (task : Task) : HandlerResult :=
  let requirement := customRequirement task.ActionPlan
  if requirement = "" then
    ({ TaskResult.zero with
        Success := false,
        Error := "custom task requires user requirement in steps or reason" },
      some "custom task: missing requirement")
  else
    match env.chatCustom with
    | .error err =>
      ({ TaskResult.zero with
          Success := false, Error := "LLM parse failed: " ++ err }, some err)
    | .ok resp =>
      match env.unmarshalCustom (extractJSON resp) with
      | .ok parsed => runClassified env task requirement parsed
      | .error err =>
        if Contains (ToLower requirement) "整合" ∨
            Contains (ToLower requirement) "system prompt" then
          runClassified env task requirement { Action := "integrate", Steps := [] }
        else
          ({ TaskResult.zero with
              Success := false,
              Error := "LLM response parse failed: " ++ err }, some err)

/-- The `switch` of `Execute`: the handler of the task type, `none` in the
default case. -/
def dispatch (env : ExecEnv) (task : Task) : Option HandlerResult :=
  if task.Type_ = "summarize" then some (executeSummarize env task)
  else if task.Type_ = "consolidate" then some (executeConsolidate env task)
  else if task.Type_ = "recall" then some (executeRecall env task)
  else if task.Type_ = "learn" then some (executeLearn env task)
  else if task.Type_ = "optimize" then some (executeOptimize env task)
  else if task.Type_ = "reflect" then some (executeReflect env task)
  else if task.Type_ = "idle" then some (executeIdle env task)
  else if task.Type_ = "integrate" then some (executeIntegrate env task)
  else if task.Type_ = "custom" then some (executeCustom env task)
  else none

/-- The nine task types `Execute` has a handler for. -/
def knownTypes : List String :=
  ["summarize", "consolidate", "recall", "learn", "optimize", "reflect", "idle", "integrate",
    "custom"]

/-- How a call of `Execute` ends: it returns the result and the error (`none` is
nil), or the type assertion on `completed_at` panics. `task` is the task record
as the call leaves it. -/
inductive ExecOutcome where
  | returned (task : Task) (result : Option TaskResult) (err : Option String)
  | panicked (task : Task)

/-- The task record an outcome leaves behind. -/
def ExecOutcome.task : ExecOutcome → Task
  | .returned task _ _ => task
  | .panicked task => task

/-- The first two statements of `Execute`: the task is marked running and its
start time is set to its creation time. -/
def markRunning (task : Task) : Task :=
  { task with Status := "running", StartedAt := task.CreatedAt }

/-- Method `TaskExecutor.Execute`. -/
def Execute (env : ExecEnv) (task : Task) : ExecOutcome :=
  let running : Task := markRunning task
  match dispatch env running with
  | none => .returned running none (some ("unknown task type: " ++ running.Type_))
  | some (_, some err) =>
    let failure : TaskResult := { TaskResult.zero with
        Success := false, Error := err }
    .returned { running with Status := "failed", Result := some failure } (some failure) (some err)
  | some (result, none) =>
    let completed : Task := { running with Status := "completed" }
    match result.Metrics.lookup "completed_at" with
    | some (.str completedAt) =>
      .returned { completed with CompletedAt := completedAt, Result := some result }
        (some result) none
    | _ => .panicked completed

/-- Constructor `NewTask`; `id` is the value of `generateTaskID()`, `now` the
formatted clock. -/
def NewTask (actionPlan : ActionPlan) (id now : String) : Task :=
  { ID := id, Type_ := actionPlan.Action, ActionPlan := actionPlan, Params := [],
    Priority := actionPlan.Priority, Status := "pending", CreatedAt := now, StartedAt := "",
    CompletedAt := "", Result := none }

/-- Collaborators that all succeed, with an oracle whose answers are not JSON. -/
def sampleEnv : ExecEnv :=
  { summarizeAndRotate := none
    consolidate := fun _ _ _ => none
    recallWithPreprocess := fun _ _ => .ok 3
    buildIntegrated := .ok ("brain/context/integrated_system_prompt.md", 2048)
    readIntegrated := none
    chatLearn := .ok "I cannot answer in JSON"
    chatCustom := .ok "I cannot answer in JSON"
    unmarshalLearn := fun _ => .error "invalid character 'I' looking for beginning of value"
    unmarshalCustom := fun _ => .error "invalid character 'I' looking for beginning of value"
    now := "2026-01-01T09:05:00Z" }

/-- The result `executeRecall` returns for three matches of the query "go". -/
def recallResult : TaskResult :=
  { Success := true, Output := "Found 3 results for query: go", Error := "",
    Metrics := [("query", .str "go"), ("result_count", .int 3),
      ("completed_at", .str "2026-01-01T09:00:00Z")],
    Learning := "检索到 3 条相关记忆" }

/-- A recall plan for the given query, of priority 5. -/
def recallPlan (query : String) : ActionPlan :=
  { Action := "recall", Reason := "", Steps := [query], ExpectedOutcome := "", Priority := 5 }

/-- Scenario: a recall task is enqueued by "user". -/
def enqueueRecall : QueueCall :=
  .enqueue (recallPlan "go") "user" "task-20260101-090000-aaaaa1" "2026-01-01T09:00:00Z" .ok

/-- Scenario: the task is dequeued and reported completed, as `processTaskQueue`
does. -/
def processCalls : List QueueCall :=
  [.dequeue "2026-01-01T09:00:30Z" .ok,
   .update "task-20260101-090000-aaaaa1" "completed" (some recallResult)
     "2026-01-01T09:00:31Z" .ok]

/-- Scenario: one recall task is enqueued, dequeued and reported completed. -/
def lifecycleCalls : List QueueCall :=
  enqueueRecall :: processCalls

/-- The metric a queued task holds under `key`, if it has a result with one. -/
def metricOf (key : String) (t : QueuedTask) : Option GoValue :=
  t.Result.bind fun r => r.Metrics.lookup key

/-- A completed recall task, as the queue holds it after `lifecycleCalls`. -/
def completedTask : QueuedTask :=
  { ID := "task-20260101-090000-aaaaa1", Type_ := "recall", ActionPlan := some (recallPlan "go"),
    Params := [], Priority := 5, Status := "completed", CreatedAt := "2026-01-01T09:00:00Z",
    CreatedBy := "user", StartedAt := "2026-01-01T09:00:30Z",
    CompletedAt := "2026-01-01T09:00:31Z", Result := some recallResult }

/-! ## Skill registry (`scheduler/skill.go`, `scheduler/config.go`) -/

/-- A value of interface `Skill`: what its four methods return. `Run` is given by
the error it returns for an argument list (`none` is nil). -/
structure Skill where
  Name : String
  CronSchedule : String
  CLICommand : String
  Run : List String → Option String

/-- Record `SkillConfig`: the map from skill name to the enabled flag. -/
structure SkillConfig where
  Enabled : List (String × Bool)

/-- Method `SkillConfig.IsSkillEnabled`. -/
def SkillConfig.IsSkillEnabled (sc : SkillConfig) (skillName : String) : Bool :=
  match sc.Enabled.lookup skillName with
  | some enabled => enabled
  | none => true

/-- Record `SkillRegistry`: the map from name to skill, listed in the order in
which a `range` over it visits the entries, and the configuration. -/
structure SkillRegistry where
  skills : List (String × Skill)
  config : SkillConfig

/-- Method `SkillRegistry.Get`. -/
def SkillRegistry.Get (r : SkillRegistry) (name : String) : Option Skill :=
  r.skills.lookup name

/-- Method `SkillRegistry.List` (renamed: `List` is the list type here). -/
def SkillRegistry.ListSkills (r : SkillRegistry) : List Skill :=
  r.skills.map Prod.snd

/-- Method `SkillRegistry.GetAllWithCron`. -/
def SkillRegistry.GetAllWithCron (r : SkillRegistry) : List Skill :=
  (r.skills.map Prod.snd).filter fun skill => skill.CronSchedule ≠ ""

/-! ## Recurring scheduler (`scheduler/scheduler.go`, `scheduler/simple_cron.go`) -/

/-- Function `strings.Split` with a one-rune separator, on the runes of the
string. -/
def splitOnRune (sep : Char) : List Char → List (List Char)
  | [] => [[]]
  | c :: cs =>
    if c = sep then [] :: splitOnRune sep cs
    else
      match splitOnRune sep cs with
      | [] => [[c]]
      | part :: parts => (c :: part) :: parts

/-- The space skipping of the scanner (`ss.SkipSpace` with `nlIsSpace` false):
the rest of the input, or `none` when a newline is met. -/
def skipSpace : List Char → Option (List Char)
  | [] => some []
  | c :: cs =>
    if c = '\n' then none
    else if isSpace c then skipSpace cs
    else some (c :: cs)

/-- Digits the scanner accepts for the verb `%d`: the decimal digits (`getBase`
gives "0123456789"; the underscore belongs to `%v` only). -/
def isScanDigit (c : Char) : Bool :=
  c.isDigit

/-- Value of a string of decimal digits. -/
def digitsValue (ds : List Char) : Nat :=
  ds.foldl (fun acc c => 10 * acc + (c.toNat - '0'.toNat)) 0

/-- The call `fmt.Sscanf(s, "%d", &v)` with `v` an `int`: the number stored, or
`none` when an error is returned. Space is skipped, an optional sign and the
longest run of decimal digits are read and handed to `strconv.ParseInt` in base
10 and 64 bits, which refuses an empty run and values outside the range; input
after the number is left unread. -/
def sscanInt (s : String) : Option Int :=
  match skipSpace s.data with
  | none => none
  | some rest =>
    let negative := rest.head? = some '-'
    let unsigned := if rest.head? = some '-' ∨ rest.head? = some '+' then rest.tail else rest
    let token := unsigned.takeWhile isScanDigit
    if token = [] then none
    else
      let value : Int := if negative then -(digitsValue token : Int) else (digitsValue token : Int)
      if value < -9223372036854775808 ∨ 9223372036854775807 < value then none
      else some value

/-- Function `parseDailySchedule`. The error text of the scanner that the source
appends after "invalid hour: " and "invalid minute: " is left out. -/
def parseDailySchedule (schedule : String) : Except String (Int × Int) :=
  match splitOnRune ':' schedule.data with
  | [hourPart, minutePart] =>
    match sscanInt (String.mk hourPart) with
    | none => .error "invalid hour: "
    | some h =>
      match sscanInt (String.mk minutePart) with
      | none => .error "invalid minute: "
      | some m =>
        if h < 0 ∨ h > 23 ∨ m < 0 ∨ m > 59 then
          .error "hour must be 0-23, minute must be 0-59"
        else .ok (h, m)
  | _ => .error "invalid schedule format, expected HH:MM"

/-- A goroutine started by `AddDailyTask`: it waits `delay` nanoseconds, runs the
task, then runs it every 24 hours. The task closure of `Scheduler.Start` is given
by the skill it runs. -/
structure DailyTimer where
  delay : Int
  task : Skill

/-- Record `SimpleCron`, by the timers armed so far (most recent last). -/
structure SimpleCron where
  timers : List DailyTimer

/-- Nanoseconds in 24 hours. -/
def dayNanos : Int := 24 * 3600 * 1000000000

/-- What the clock and the time zone give one call of `AddDailyTask`, instants
being counted in nanoseconds since the epoch: `now` is `time.Now()`, and
`today hour minute` is
`time.Date(now.Year(), now.Month(), now.Day(), hour, minute, 0, 0, now.Location())`. -/
structure WallClock where
  now : Int
  today : Int → Int → Int

/-- A difference of instants as `Time.Sub` returns it: a `Duration` holds 64
bits, and a difference beyond them gives the largest or smallest duration. -/
def satDuration (d : Int) : Int :=
  if d < -9223372036854775808 then -9223372036854775808
  else if 9223372036854775807 < d then 9223372036854775807
  else d

/-- Method `SimpleCron.AddDailyTask`. The result is the cron afterwards; the
returned error is always nil. -/
def SimpleCron.AddDailyTask (sc : SimpleCron) (hour minute : Int) (task : Skill)
    (clock : WallClock) : SimpleCron :=
  let target0 : Int := clock.today hour minute
  let target : Int := if target0 < clock.now then target0 + dayNanos else target0
  { timers := sc.timers ++ [{ delay := satDuration (target - clock.now), task := task }] }

/-- Record `Scheduler`. -/
structure Scheduler where
  registry : SkillRegistry
  cron : SimpleCron

/-- Constructor `NewScheduler`. -/
def NewScheduler (registry : SkillRegistry) : Scheduler :=
  { registry := registry, cron := { timers := [] } }

/-- The loop of `Scheduler.Start` over the skills still to visit; `clock k` is
the clock when the `k`-th skill of the loop is reached. -/
def startLoop (clock : Nat → WallClock) : List Skill → Nat → SimpleCron → SimpleCron
  | [], _, cron => cron
  | skill :: rest, k, cron =>
    if skill.CronSchedule = "" then startLoop clock rest (k + 1) cron
    else
      match parseDailySchedule skill.CronSchedule with
      | .error _ => startLoop clock rest (k + 1) cron
      | .ok (hour, minute) =>
        startLoop clock rest (k + 1) (cron.AddDailyTask hour minute skill (clock k))

/-- Method `Scheduler.Start`. `AddDailyTask` never fails, so the returned error
is always nil and only the scheduler afterwards is given. -/
def Scheduler.Start (s : Scheduler) (clock : Nat → WallClock) : Scheduler :=
  { s with cron := startLoop clock s.registry.GetAllWithCron 0 s.cron }

/-- What the closure `Start` hands to `AddDailyTask` does each time the timer
fires: it runs the skill it captured, with nil arguments, and logs the error.
The registry is not consulted. The result is the error `Run` returned. -/
def DailyTimer.fire (timer : DailyTimer) : Option String :=
  timer.task.Run []

/-- Skill `DailyConsolidateSkill` of `builtin_skills.go`; its `Run` logs and
returns nil. -/
def DailyConsolidateSkill : Skill :=
  { Name := "daily-consolidate", CronSchedule := "23:00", CLICommand := "",
    Run := fun _ => none }

/-- Skill `PeriodicSummarizeSkill` of `builtin_skills.go`, for a memory manager
whose `SummarizeAndRotate` fails with `failure` when the trigger fires. -/
def PeriodicSummarizeSkill (failure : Option String) : Skill :=
  { Name := "periodic-summarize", CronSchedule := "02:00", CLICommand := "",
    Run := fun _ => failure.map fun e => "failed to summarize and rotate: " ++ e }

/-! ## Decision step of the evolution engine (`engine.go`) -/

/-- Record `llm.Message`. -/
structure Message where
  Role : String
  Content : String
deriving DecidableEq, Repr

/-- Record `llm.ToolCallFunction`. -/
structure ToolCallFunction where
  Name : String
  Arguments : String

/-- Record `llm.ToolCall`. -/
structure ToolCall where
  ID : String
  Type_ : String
  Function : ToolCallFunction

/-- Record `MemoryState` of `state.go`. -/
structure MemoryState where
  ArchiveFileCount : Int
  ArchiveTotalSize : Int
  HotLastUpdated : String
  IndexEntryCount : Int
  IndexComplete : Bool
  NeedsSummarize : Bool
  SummarizeReason : String

/-- Record `SystemState` of `state.go`. The fields `TaskState` and
`EvolutionState` only feed the prompt text and are left out. -/
structure SystemState where
  MemoryState : MemoryState
  Timestamp : String

/-- The fields of `AutonomousEvolutionEngine` the decision step uses.
`hasLLMClient` tells whether `llmClient` is non-nil, `registry` is `none` when
nil. -/
structure Engine where
  hasLLMClient : Bool
  registry : Option SkillRegistry
  decisionHistory : List Message

/-- What the oracle and the JSON decoder answer during one `DecideNextAction`.
The prompt and the tool list only reach the oracle, whose answer is an
argument. -/
structure DecideEnv where
  /-- Call `llmClient.ChatWithTools`: response and tool calls, or the error. -/
  chatWithTools : Except String (String × List ToolCall)
  /-- Call `json.Unmarshal` into an `ActionPlan`. -/
  unmarshalPlan : String → Except String ActionPlan
  /-- Call `json.Unmarshal` into a `map[string]interface{}`. -/
  unmarshalObject : String → Except String (List (String × GoValue))

/-- Method `fallbackDecision`. -/
def fallbackDecision (state : SystemState) : ActionPlan :=
  if state.MemoryState.NeedsSummarize then
    { Action := "summarize", Reason := state.MemoryState.SummarizeReason,
      Steps := ["选择需要压缩的文件", "生成摘要", "移动到 backup"],
      ExpectedOutcome := "archive 文件数减少", Priority := 8 }
  else
    { Action := "idle", Reason := "当前状态良好，无需立即行动", Steps := [],
      ExpectedOutcome := "保持当前状态", Priority := 1 }

/-- Method `parseActionPlan`. -/
def parseActionPlan (env : DecideEnv) (response : String) : Except String ActionPlan :=
  env.unmarshalPlan (extractJSON response)

/-- Method `appendDecisionHistory`. -/
def appendDecisionHistory (history : List Message) (user assistant : Message) : List Message :=
  let h := history ++ [user, assistant]
  if h.length > 20 then h.drop (h.length - 20) else h

/-- The argument list `executeToolCalls` passes to `Run`: the strings of the
array under "args" when the arguments decode to an object holding one. -/
def toolArgs (env : DecideEnv) (arguments : String) : List String :=
  if arguments ≠ "" ∧ arguments ≠ "null" then
    match env.unmarshalObject arguments with
    | .error _ => []
    | .ok raw =>
      match raw.lookup "args" with
      | some (.arr items) =>
        items.filterMap fun item =>
          match item with
          | .str s => some s
          | _ => none
      | _ => []
  else []

/-- The loop of `executeToolCalls`: the runs it performs, in order, each with the
skill name, the arguments and the error `Run` returned. -/
def runToolCalls (env : DecideEnv) (registry : SkillRegistry) :
    List ToolCall → List (String × List String × Option String)
  | [] => []
  | tc :: rest =>
    if "skill_".data.isPrefixOf tc.Function.Name.data then
      let skillName := String.mk (tc.Function.Name.data.drop 6)
      match registry.Get skillName with
      | none => runToolCalls env registry rest
      | some skill =>
        let args := toolArgs env tc.Function.Arguments
        (skillName, args, skill.Run args) :: runToolCalls env registry rest
    else runToolCalls env registry rest

/-- Method `executeToolCalls`. -/
def executeToolCalls (e : Engine) (env : DecideEnv) (toolCalls : List ToolCall) :
    List (String × List String × Option String) :=
  match e.registry with
  | none => []
  | some registry => runToolCalls env registry toolCalls

/-- How a call of `DecideNextAction` ends: it panics (nil client), or returns a
plan (`none` is nil) and an error (`none` is nil), leaving the engine with the
given history after the given skill runs. -/
inductive DecideOutcome where
  | panicked
  | returned (plan : Option ActionPlan) (err : Option String) (history : List Message)
      (runs : List (String × List String × Option String))

/-- Text of the user message: `buildDecisionPrompt(state)`, taken as given. -/
abbrev Prompt := String

/-- Method `DecideNextAction`; `prompt` is the text `buildDecisionPrompt`
returns for the state. -/
def DecideNextAction (e : Engine) (env : DecideEnv) (state : SystemState) (prompt : Prompt) :
    DecideOutcome :=
  if e.hasLLMClient = false then .panicked
  else
    match env.chatWithTools with
    | .error _ => .returned (some (fallbackDecision state)) none e.decisionHistory []
    | .ok (response, toolCalls) =>
      let runs := if toolCalls.length > 0 then executeToolCalls e env toolCalls else []
      match parseActionPlan env response with
      | .error _ => .returned (some (fallbackDecision state)) none e.decisionHistory runs
      | .ok plan =>
        .returned (some plan) none
          (appendDecisionHistory e.decisionHistory
            { Role := "user", Content := prompt }
            { Role := "assistant", Content := response })
          runs

/-! ## Task ids (`task.go`) -/

/-- The local time `time.Now()` returns, by its calendar fields. -/
structure Clock where
  year : Nat
  month : Nat
  day : Nat
  hour : Nat
  minute : Nat
  second : Nat

/-- Two decimal digits, as the layout elements `01`, `02`, `15`, `04`, `05`
print a field below 100. -/
def twoDigits (n : Nat) : List Char :=
  [Nat.digitChar (n / 10 % 10), Nat.digitChar (n % 10)]

/-- Four decimal digits, as the layout element `2006` prints a year below
10000. -/
def fourDigits (n : Nat) : List Char :=
  [Nat.digitChar (n / 1000 % 10), Nat.digitChar (n / 100 % 10), Nat.digitChar (n / 10 % 10),
    Nat.digitChar (n % 10)]

/-- The call `t.Format("20060102-150405")`. -/
def formatStamp (t : Clock) : String :=
  String.mk (fourDigits t.year ++ twoDigits t.month ++ twoDigits t.day ++ ['-'] ++
    twoDigits t.hour ++ twoDigits t.minute ++ twoDigits t.second)

/-- The constant `charset` of `randomString`. -/
def charset : List Char :=
  "abcdefghijklmnopqrstuvwxyz0123456789".data

/-- Function `randomString`; `draw i` is the number the `i`-th call of
`rand.Intn(len(charset))` returns, reduced to the range of that call. -/
def randomString (length : Nat) (draw : Nat → Nat) : String :=
  String.mk ((List.range length).map fun i => charset.getD (draw i % charset.length) 'a')

/-- Function `generateTaskID`. -/
def generateTaskID (now : Clock) (draw : Nat → Nat) : String :=
  "task-" ++ formatStamp now ++ "-" ++ randomString 6 draw

/-- What one `Enqueue` call takes from outside: the plan and the creator, the
clock and the random draws behind the id, the formatted creation time and the
outcome of the file write. -/
structure EnqueueInput where
  plan : ActionPlan
  createdBy : String
  clock : Clock
  draw : Nat → Nat
  now : String
  write : WriteOutcome

/-- The `Enqueue` call of an input, its id generated by `generateTaskID`. -/
def EnqueueInput.call (e : EnqueueInput) : QueueCall :=
  .enqueue e.plan e.createdBy (generateTaskID e.clock e.draw) e.now e.write

/-- The ids of the tasks, in queue order. -/
def taskIDs (s : QState) : List String :=
  s.q.tasks.map (·.ID)

/-- Nine o'clock on the first of January 2026. -/
def nineOClock : Clock :=
  { year := 2026, month := 1, day := 1, hour := 9, minute := 0, second := 0 }

/-- An `Enqueue` at nine o'clock whose six draws all give `k`. -/
def enqueueAtNine (k : Nat) : EnqueueInput :=
  { plan := planOfPriority 5, createdBy := "user", clock := nineOClock, draw := fun _ => k,
    now := "2026-01-01T09:00:00Z", write := .ok }

/-! ## Registry operations (`scheduler/skill.go`, `scheduler/config.go`) -/

/-- Method `SkillConfig.SetSkillEnabled`: the entry of the name is replaced. -/
def SkillConfig.SetSkillEnabled (sc : SkillConfig) (skillName : String) (enabled : Bool) :
    SkillConfig :=
  { Enabled := (skillName, enabled) :: sc.Enabled.filter fun kv => kv.1 ≠ skillName }

/-- Constructor `NewSkillRegistry` for the configuration `LoadSkillConfig`
returns. -/
def NewSkillRegistry (config : SkillConfig) : SkillRegistry :=
  { skills := [], config := config }

/-- Method `SkillRegistry.Register`: the registry afterwards and the returned
error (`none` is nil). -/
def SkillRegistry.Register (r : SkillRegistry) (skill : Skill) : SkillRegistry × Option String :=
  if skill.Name = "" then (r, some "skill name cannot be empty")
  else if r.config.IsSkillEnabled skill.Name = false then (r, none)
  else
    match r.skills.lookup skill.Name with
    | some _ => (r, some ("skill " ++ skill.Name ++ " already registered"))
    | none => ({ r with skills := r.skills ++ [(skill.Name, skill)] }, none)

/-- Method `SkillRegistry.EnableSkill`; `saved` is the error `SaveSkillConfig`
returns (`none` is nil). -/
def SkillRegistry.EnableSkill (r : SkillRegistry) (name : String) (saved : Option String) :
    SkillRegistry × Option String :=
  ({ r with config := r.config.SetSkillEnabled name true }, saved)

/-- Method `SkillRegistry.DisableSkill`; `saved` is the error `SaveSkillConfig`
returns (`none` is nil). -/
def SkillRegistry.DisableSkill (r : SkillRegistry) (name : String) (saved : Option String) :
    SkillRegistry × Option String :=
  ({ skills := r.skills.filter fun kv => kv.1 ≠ name,
     config := r.config.SetSkillEnabled name false }, saved)

/-- One call on the registry. -/
inductive RegistryCall where
  | register (skill : Skill)
  | enable (name : String) (saved : Option String)
  | disable (name : String) (saved : Option String)

/-- Registry after one call. -/
def RegistryCall.apply (r : SkillRegistry) : RegistryCall → SkillRegistry
  | .register skill => (r.Register skill).1
  | .enable name saved => (r.EnableSkill name saved).1
  | .disable name saved => (r.DisableSkill name saved).1

/-- Registry after a sequence of calls. -/
def runRegistry (r : SkillRegistry) (cs : List RegistryCall) : SkillRegistry :=
  cs.foldl RegistryCall.apply r

/-- The call is not a `Register`. -/
def RegistryCall.isToggle : RegistryCall → Bool
  | .register _ => false
  | .enable _ _ => true
  | .disable _ _ => true

/-- Every entry of the map sits under the name of its skill, that name is not
empty, and no registered name is disabled in the configuration. -/
def SkillRegistry.Consistent (r : SkillRegistry) : Prop :=
  ∀ kv ∈ r.skills, kv.2.Name = kv.1 ∧ kv.1 ≠ "" ∧ r.config.IsSkillEnabled kv.1 = true

/-! ## Tools offered to the oracle (`engine.go`) -/

/-- Record `llm.ToolFunction`; `Parameters` is the raw JSON text. -/
structure ToolFunction where
  Name : String
  Description : String
  Parameters : String

/-- Record `llm.Tool`. -/
structure Tool where
  Type_ : String
  Function : ToolFunction

/-- The schema `buildDecisionTools` gives every tool: an object without
properties. -/
def emptySchema : String :=
  "\x7b\"type\":\"object\",\"properties\":\x7b\x7d,\"additionalProperties\":false\x7d"

/-- The loop of `buildDecisionTools`; `describe name` is the description the
skills index holds for the name (`none` when there is no index, no entry or an
error). -/
def toolsLoop (describe : String → Option String) : List Skill → List Tool
  | [] => []
  | s :: rest =>
    if s.Name = "" then toolsLoop describe rest
    else
      let desc0 := (describe s.Name).getD ""
      let desc :=
        if desc0 = "" then "Server-side skill " ++ s.Name ++ ", executable by scheduler"
        else desc0
      { Type_ := "function",
        Function := { Name := "skill_" ++ s.Name, Description := desc,
                      Parameters := emptySchema } } :: toolsLoop describe rest

/-- Method `buildDecisionTools`. -/
def buildDecisionTools (e : Engine) (describe : String → Option String) : List Tool :=
  match e.registry with
  | none => []
  | some registry => toolsLoop describe registry.ListSkills

/-! ## Control protocol (`server/socket.go`) -/

/-- Record `Request`. -/
structure Request where
  Command : String
  Args : List String

/-- Record `Response`. `Data` is the JSON text `json.Marshal` writes for the
value held in the field, `none` when the field is nil. -/
structure Response where
  Success : Bool
  Message : String
  Data : Option String

/-- The handlers `handleCommand` dispatches to, over a server state `σ`: each
gives its response and the server afterwards. -/
structure CommandHandlers (σ : Type) where
  handleRecall : σ → List String → Response × σ
  handleDigest : σ → List String → Response × σ
  handleConsolidate : σ → List String → Response × σ
  handleSkillList : σ → Response × σ
  handleSkillGet : σ → List String → Response × σ
  handleSkillEnable : σ → List String → Response × σ
  handleSkillDisable : σ → List String → Response × σ
  handleEvolve : σ → List String → Response × σ
  handleTask : σ → List String → Response × σ

/-- Method `SocketServer.handleCommand`. -/
def handleCommand {σ : Type} (h : CommandHandlers σ) (srv : σ) (req : Request) : Response × σ :=
  if req.Command = "recall" then h.handleRecall srv req.Args
  else if req.Command = "digest" then h.handleDigest srv req.Args
  else if req.Command = "consolidate" then h.handleConsolidate srv req.Args
  else if req.Command = "skill_list" then h.handleSkillList srv
  else if req.Command = "skill_get" then h.handleSkillGet srv req.Args
  else if req.Command = "skill_enable" then h.handleSkillEnable srv req.Args
  else if req.Command = "skill_disable" then h.handleSkillDisable srv req.Args
  else if req.Command = "ping" then ({ Success := true, Message := "pong", Data := none }, srv)
  else if req.Command = "evolve" then h.handleEvolve srv req.Args
  else if req.Command = "task" then h.handleTask srv req.Args
  else ({ Success := false, Message := "Unknown command: " ++ req.Command, Data := none }, srv)

/-- One rune of a string as `json.Marshal` writes it: quote, backslash and the
control characters are escaped, and so are the runes the encoder escapes for
HTML and JavaScript (backspace and form feed are written as `\u0008` and
`\u000c` here; recent releases of the library write `\b` and `\f`). -/
def quoteRune (c : Char) : List Char :=
  if c = '"' then ['\\', '"']
  else if c = '\\' then ['\\', '\\']
  else if c = '\n' then ['\\', 'n']
  else if c = '\r' then ['\\', 'r']
  else if c = '\t' then ['\\', 't']
  else if c.toNat < 0x20 ∨ c = '<' ∨ c = '>' ∨ c = '&' then
    ['\\', 'u', '0', '0', Nat.digitChar (c.toNat / 16), Nat.digitChar (c.toNat % 16)]
  else if c.toNat = 0x2028 then "\\u2028".data
  else if c.toNat = 0x2029 then "\\u2029".data
  else [c]

/-- A string as `json.Marshal` writes it. -/
def quoteJSON (s : String) : String :=
  String.mk (['"'] ++ s.data.flatMap quoteRune ++ ['"'])

/-- The text `json.Marshal(resp)` in `sendResponse`: the members in field order,
`data` left out when nil (`omitempty`). -/
def marshalResponse (resp : Response) : String :=
  "\x7b\"success\":" ++ (if resp.Success then "true" else "false") ++
    ",\"message\":" ++ quoteJSON resp.Message ++
    (match resp.Data with
     | none => ""
     | some data => ",\"data\":" ++ data) ++ "\x7d"

/-- The request of the ping scenario. -/
def pingRequest : Request :=
  { Command := "ping", Args := [] }

/-! ## Scenarios for the registry, the scheduler and the executor -/

/-- The handlers `executeCustom` can delegate to. -/
def innerHandlers : List (ExecEnv → Task → HandlerResult) :=
  [executeIntegrate, executeSummarize, executeConsolidate, executeRecall, executeLearn,
    executeOptimize, executeReflect, executeIdle]

/-- The action names the final `switch` of `executeCustom` has a case for. -/
def innerActions : List String :=
  ["integrate", "summarize", "consolidate", "recall", "learn", "optimize", "reflect"]

/-- The offset of `hour:minute:00` from the start of a day without zone change,
in nanoseconds. -/
def todayAt (hour minute : Int) : Int :=
  hour * 3600 * 1000000000 + minute * 60 * 1000000000

/-- The clock at the instant `now` in a zone that stays `offset` nanoseconds
ahead of UTC, so that every day is 24 hours long: today's `hour:minute:00` is
the start of the local day plus `todayAt hour minute`. -/
def fixedZone (offset now : Int) : WallClock :=
  { now := now,
    today := fun hour minute =>
      (now + offset) / dayNanos * dayNanos - offset + todayAt hour minute }

/-- The clock at 2026-11-01 00:00 in New York, a day of 25 hours: summer time
ends at 02:00, so from 02:00 on today's `hour:minute:00` lies one hour later
than its offset from midnight. -/
def fallBackMidnight : WallClock :=
  { now := 1793505600000000000,
    today := fun hour minute =>
      1793505600000000000 + todayAt hour minute + (if 2 ≤ hour then 3600000000000 else 0) }

/-- The clock at 23:30 of the same day in New York, 24 hours and 30 minutes
after its midnight. -/
def fallBackLateEvening : WallClock :=
  { now := 1793505600000000000 + 88200000000000,
    today := fallBackMidnight.today }

/-- The first delay `AddDailyTask` arms: up to today's instant when that is not
before `now`, up to 24 hours after today's instant otherwise. -/
def firstDelay (hour minute : Int) (clock : WallClock) : Int :=
  satDuration
    ((if clock.today hour minute < clock.now then clock.today hour minute + dayNanos
      else clock.today hour minute) - clock.now)

/-- The scheduler after a call on the registry it shares with the server: the
call reaches the registry only, the timers armed so far stay as they are. -/
def Scheduler.afterRegistry (s : Scheduler) (c : RegistryCall) : Scheduler :=
  { s with registry := c.apply s.registry }

/-- The registry after the two built-in skills have been registered under an
empty configuration. -/
def startupCalls : List RegistryCall :=
  [.register (PeriodicSummarizeSkill none), .register DailyConsolidateSkill]

/-! ## Scenarios for the executor, the engine and the scheduler -/

/-- The metrics of the result hold a string under "completed_at", which is what
the type assertion in `Execute` needs. -/
def HasCompletedAt (r : TaskResult) : Prop :=
  ∃ completedAt, r.Metrics.lookup "completed_at" = some (.str completedAt)

/-- A task of a type `Execute` has no handler for. -/
def archiveTask : Task :=
  NewTask { Action := "archive", Reason := "", Steps := [], ExpectedOutcome := "", Priority := 5 }
    "task-20260101-090000-aaaaa1" "2026-01-01T09:00:00Z"

/-- A custom task whose requirement asks for an integration. -/
def integrationRequest : Task :=
  NewTask { Action := "custom", Reason := "", Steps := ["请整合 brain 与记忆"],
            ExpectedOutcome := "", Priority := 5 }
    "task-20260101-090000-aaaaa1" "2026-01-01T09:00:00Z"

/-- An engine with a client, no registry and an empty history. -/
def sampleEngine : Engine :=
  { hasLLMClient := true, registry := none, decisionHistory := [] }

/-- An oracle that fails. -/
def failingOracle : DecideEnv :=
  { chatWithTools := .error "context deadline exceeded"
    unmarshalPlan := fun _ => .error "unexpected end of JSON input"
    unmarshalObject := fun _ => .error "unexpected end of JSON input" }

/-- A state whose archive needs summarizing. -/
def crowdedState : SystemState :=
  { MemoryState :=
      { ArchiveFileCount := 31, ArchiveTotalSize := 4096, HotLastUpdated := "",
        IndexEntryCount := 12, IndexComplete := true, NeedsSummarize := true,
        SummarizeReason := "archive 文件数超过 30" },
    Timestamp := "2026-01-01T09:00:00Z" }

/-- The skill has a schedule `Scheduler.Start` arms a timer for. -/
def hasValidSchedule (skill : Skill) : Bool :=
  decide (skill.CronSchedule ≠ "") &&
    match parseDailySchedule skill.CronSchedule with
    | .ok _ => true
    | .error _ => false

/-- The registry `cmd/cata` fills with the two built-in skills. -/
def builtinRegistry : SkillRegistry :=
  { skills := [("periodic-summarize", PeriodicSummarizeSkill none),
               ("daily-consolidate", DailyConsolidateSkill)],
    config := { Enabled := [] } }

/-- A clock that stands at 10:00 of the first day of the epoch, in UTC. -/
def tenOClock : Nat → WallClock :=
  fun _ => fixedZone 0 (10 * 3600 * 1000000000)

/-- The action `executeCustom` dispatches on: the classified action in lower
case and trimmed, idle when that is empty. -/
def innerAction (action : String) : String :=
  if TrimSpace (ToLower action) = "" then "idle" else TrimSpace (ToLower action)

/-- An oracle that classifies every requirement as a custom task again. -/
def nestingEnv : ExecEnv :=
  { sampleEnv with
    chatCustom := .ok "\x7b\"action\":\"custom\",\"steps\":[\"again\"]\x7d"
    unmarshalCustom := fun _ => .ok { Action := "custom", Steps := ["again"] } }

/-! ## Schedules, tools and oracle answers: scenarios -/

/-- The text `HH:MM` of an hour and a minute below 100. -/
def hhmm (hour minute : Nat) : String :=
  String.mk (twoDigits hour ++ [':'] ++ twoDigits minute)

/-- The tool `buildDecisionTools` builds for a skill. -/
def toolOf (describe : String → Option String) (s : Skill) : Tool :=
  { Type_ := "function",
    Function :=
      { Name := "skill_" ++ s.Name,
        Description :=
          if (describe s.Name).getD "" = "" then
            "Server-side skill " ++ s.Name ++ ", executable by scheduler"
          else (describe s.Name).getD "",
        Parameters := emptySchema } }

/-- A tool call of the given function name and arguments. -/
def toolCall (id name arguments : String) : ToolCall :=
  { ID := id, Type_ := "function", Function := { Name := name, Arguments := arguments } }

/-- The calls that register the two built-in skills, the summary failing with a
full disk when it runs. -/
def failingStartupCalls : List RegistryCall :=
  [.register (PeriodicSummarizeSkill (some "disk full")), .register DailyConsolidateSkill]

/-- An engine whose registry went through the given calls under an empty
configuration. -/
def toolEngine (cs : List RegistryCall) : Engine :=
  { hasLLMClient := true, registry := some (runRegistry (NewSkillRegistry { Enabled := [] }) cs),
    decisionHistory := [] }

/-- An oracle that answers with a plan wrapped in prose; the decoder accepts the
text of the plan alone. -/
def chattyOracle : DecideEnv :=
  { chatWithTools := .ok ("Sure: \x7b\"action\":\"idle\"\x7d done", [])
    unmarshalPlan := fun text =>
      if text = "\x7b\"action\":\"idle\"\x7d" then .ok (planOfPriority 0)
      else .error "invalid character S looking for beginning of value"
    unmarshalObject := fun _ => .error "unexpected end of JSON input" }

/-! ## Archive statistics (`memory/summarize_trigger.go`, `evolution/state.go`) -/

/-- An entry of the archive directory as `os.ReadDir` lists it: its name, whether
it is a directory, and the size `entry.Info()` reports (`none` when `Info` fails). -/
structure DirEntry where
  Name : String
  IsDir : Bool
  Size : Option Int

/-- Function `filepath.Ext` for slash-separated paths: the suffix that starts at
the last dot of the last element, empty when there is none. -/
def Ext (path : String) : String :=
  let tail := path.data.reverse.takeWhile fun c => c ≠ '.' ∧ c ≠ '/'
  match path.data.reverse.drop tail.length with
  | c :: _ => if c = '.' then String.mk ('.' :: tail.reverse) else ""
  | [] => ""

/-- Function `filepath.Base` for slash-separated paths. -/
def Base (path : String) : String :=
  if path = "" then "."
  else
    let stripped := (path.data.reverse.dropWhile fun c => c = '/').reverse
    let last := (stripped.reverse.takeWhile fun c => c ≠ '/').reverse
    if last = [] then "/" else String.mk last

/-- The loop both `getArchiveStats` and `analyzeMemoryState` run over the
directory entries: the file count and the total size so far. -/
def archiveLoop : List DirEntry → Int → Int → Int × Int
  | [], fileCount, totalSize => (fileCount, totalSize)
  | entry :: rest, fileCount, totalSize =>
    if entry.IsDir then archiveLoop rest fileCount totalSize
    else if Ext entry.Name ≠ ".md" then archiveLoop rest fileCount totalSize
    else if Base entry.Name = "summary" then archiveLoop rest fileCount totalSize
    else
      match entry.Size with
      | none => archiveLoop rest fileCount totalSize
      | some size => archiveLoop rest (fileCount + 1) (totalSize + size)

/-- Method `SummarizeTrigger.getArchiveStats`; `readDir` is what
`os.ReadDir(ArchiveDir)` returns. -/
def getArchiveStats (readDir : Except String (List DirEntry)) : Except String (Int × Int) :=
  match readDir with
  | .error err => .error err
  | .ok entries => .ok (archiveLoop entries 0 0)

/-- Record `SummarizeTrigger` (without the time of the last check). -/
structure SummarizeTrigger where
  MaxArchiveFiles : Int
  MaxArchiveSize : Int

/-- The trigger of `CheckSummarizeTrigger`: 30 files, 10 MB. -/
def defaultTrigger : SummarizeTrigger :=
  { MaxArchiveFiles := 30, MaxArchiveSize := 10 * 1024 * 1024 }

/-- Method `SummarizeTrigger.ShouldSummarize`. -/
def ShouldSummarize (st : SummarizeTrigger) (readDir : Except String (List DirEntry)) :
    Bool × String :=
  match getArchiveStats readDir with
  | .error err => (false, "Failed to get archive stats: " ++ err)
  | .ok (fileCount, totalSize) =>
    let reasons1 :=
      if fileCount > st.MaxArchiveFiles then
        ["file count (" ++ toString fileCount ++ " > " ++ toString st.MaxArchiveFiles ++ ")"]
      else []
    let reasons :=
      if totalSize > st.MaxArchiveSize then
        reasons1 ++
          ["total size (" ++ toString totalSize ++ " > " ++ toString st.MaxArchiveSize ++ ")"]
      else reasons1
    if reasons.length > 0 then
      (true, "Archive limits exceeded: [" ++ Join reasons " " ++ "]")
    else (false, "")

/-- The archive part of `analyzeMemoryState`: the file count, the total size and
the flag and reason of `CheckSummarizeTrigger`; the error of `os.ReadDir`
otherwise. -/
def analyzeArchive (readDir : Except String (List DirEntry)) :
    Except String (Int × Int × Bool × String) :=
  match readDir with
  | .error err => .error err
  | .ok entries =>
    let stats := archiveLoop entries 0 0
    let trigger := ShouldSummarize defaultTrigger readDir
    .ok (stats.1, stats.2, trigger.1, trigger.2)

/-- The file `SummarizeAndRotate` writes for a month, as the directory lists it. -/
def summaryFile (month : String) (size : Int) : DirEntry :=
  { Name := "summary-" ++ month ++ ".md", IsDir := false, Size := some size }

/-- An archive that holds nothing but the summaries of 31 Januaries, 1 KB each. -/
def summaryListing : List DirEntry :=
  (List.range 31).map fun k => summaryFile (String.mk (fourDigits (2000 + k)) ++ "-01") 1024

/-! ## Content cache (`memory/cache.go`) -/

/-- Record `cacheEntry`. -/
structure CacheEntry where
  key : String
  value : String
  fileSize : Int

/-- Record `LRUCache`: `entries` is the list `lruList`, most recently used first;
the map `cache` is the index of that list by key. The access times only decide
whether an entry has expired, which is an argument of `Get`. -/
structure LRUCache where
  maxSize : Int
  entries : List CacheEntry

/-- Constructor `NewLRUCache`. -/
def NewLRUCache (maxSize : Int) : LRUCache :=
  { maxSize := maxSize, entries := [] }

/-- Method `Size`. -/
def LRUCache.Size (lc : LRUCache) : Int :=
  lc.entries.length

/-- Method `removeElement` for the element of the given key. -/
def LRUCache.removeElement (lc : LRUCache) (key : String) : LRUCache :=
  { lc with entries := lc.entries.filter fun e => e.key ≠ key }

/-- Method `removeOldest`: the element at the back of the list is removed, nothing
happens on an empty list. -/
def LRUCache.removeOldest (lc : LRUCache) : LRUCache :=
  { lc with entries := lc.entries.dropLast }

/-- The eviction loop of `Set`, `for lc.lruList.Len() >= lc.maxSize`, run for at
most `fuel` iterations: `none` when the condition still holds after them. -/
def evictLoop : Nat → LRUCache → Option LRUCache
  | fuel, lc =>
    if lc.Size ≥ lc.maxSize then
      match fuel with
      | 0 => none
      | fuel1 + 1 => evictLoop fuel1 lc.removeOldest
    else some lc

/-- Method `Set`, its loop run for at most `fuel` iterations; `none` when the
loop has not ended by then. -/
def LRUCache.Set (fuel : Nat) (lc : LRUCache) (key value : String) (fileSize : Int) :
    Option LRUCache :=
  if lc.entries.any (fun e => e.key = key) then
    some { lc with
      entries := { key := key, value := value, fileSize := fileSize } ::
        lc.entries.filter fun e => e.key ≠ key }
  else
    (evictLoop fuel lc).map fun lc1 =>
      { lc1 with entries := { key := key, value := value, fileSize := fileSize } :: lc1.entries }

/-- Method `Get`; `expired` tells whether the access time of the entry lies
further back than a positive `maxAge`. Returns the cache, the value and the
found flag. -/
def LRUCache.Get (lc : LRUCache) (key : String) (expired : Bool) : LRUCache × String × Bool :=
  match lc.entries.find? fun e => e.key = key with
  | none => (lc, "", false)
  | some entry =>
    if expired then (lc.removeElement key, "", false)
    else
      ({ lc with entries := entry :: lc.entries.filter fun e => e.key ≠ key }, entry.value, true)

/-- Method `Remove`. -/
def LRUCache.Remove (lc : LRUCache) (key : String) : LRUCache :=
  if lc.entries.any (fun e => e.key = key) then lc.removeElement key else lc

/-- One call on the cache. -/
inductive CacheCall where
  | set (key value : String) (fileSize : Int)
  | get (key : String) (expired : Bool)
  | remove (key : String)

/-- Cache after one call, with `fuel` iterations allowed to the loop of `Set`;
`none` when that loop has not ended. -/
def CacheCall.apply (fuel : Nat) (lc : LRUCache) : CacheCall → Option LRUCache
  | .set key value fileSize => lc.Set fuel key value fileSize
  | .get key expired => some (lc.Get key expired).1
  | .remove key => some (lc.Remove key)

/-- Cache after a sequence of calls; `none` when a `Set` has not ended. -/
def runCache (fuel : Nat) : LRUCache → List CacheCall → Option LRUCache
  | lc, [] => some lc
  | lc, c :: cs =>
    match c.apply fuel lc with
    | none => none
    | some lc1 => runCache fuel lc1 cs

/-- The keys of the cache, most recently used first. -/
def LRUCache.keys (lc : LRUCache) : List String :=
  lc.entries.map (·.key)

/-- The cache holds at most `maxSize` entries, no two under the same key. -/
def LRUCache.Bounded (lc : LRUCache) : Prop :=
  lc.Size ≤ lc.maxSize ∧ lc.keys.Nodup

/-- The calls that fill a cache of two entries, read the older one and add a
third key. -/
def cacheCalls : List CacheCall :=
  [.set "a.md" "alpha" 5, .set "b.md" "beta" 4, .get "a.md" false, .set "c.md" "gamma" 5]

/-! ## Evolution log (`evolution/engine.go`, `evolution/state.go`) -/

/-- Record `EvolutionLogEntry`. -/
structure EvolutionLogEntry where
  Timestamp : String
  TaskID : String
  Action : String
  Decision : String
  Status : String
  Result : String
  Learning : String
  CompletedAt : String
  NextSteps : List String
deriving DecidableEq, Repr

/-- The log file, by the entries a reader finds in it: `entries` is what
`json.Unmarshal` leaves in a fresh `EvolutionLog` after `os.ReadFile` (no entry
when the file is missing or is not JSON), `writes` counts the calls of
`os.WriteFile`. -/
structure LogFile where
  entries : List EvolutionLogEntry
  writes : Nat

/-- The last two statements of the three log functions: the log is marshalled
(which cannot fail on these records) and written. The result is the file
afterwards and whether an error is returned. -/
def writeLog (entries : List EvolutionLogEntry) (file : LogFile) (w : WriteOutcome) :
    LogFile × Bool :=
  match w with
  | .ok => ({ entries := entries, writes := file.writes + 1 }, false)
  | .failedUntouched => ({ entries := file.entries, writes := file.writes + 1 }, true)
  | .failedTruncated => ({ entries := [], writes := file.writes + 1 }, true)

/-- The update `if len(log.Entries) > 0 { lastIdx := len(log.Entries) - 1; ... }`
for the assignments `f` to the fields of the last entry. -/
def updateLast (f : EvolutionLogEntry → EvolutionLogEntry) :
    List EvolutionLogEntry → List EvolutionLogEntry
  | [] => []
  | [e] => [f e]
  | e :: rest => e :: updateLast f rest

/-- Method `recordDecision`; `now` is the formatted clock. -/
def recordDecision (file : LogFile) (plan : ActionPlan) (now : String) (w : WriteOutcome) :
    LogFile × Bool :=
  let entry : EvolutionLogEntry :=
    { Timestamp := now, TaskID := "", Action := plan.Action, Decision := plan.Reason,
      Status := "pending", Result := "", Learning := "", CompletedAt := "",
      NextSteps := plan.Steps }
  writeLog (file.entries ++ [entry]) file w

/-- Method `recordFailure`; `err` is the text of the error. The outcome of the
write is dropped. -/
def recordFailure (file : LogFile) (task : Task) (err : String) (now : String)
    (w : WriteOutcome) : LogFile :=
  (writeLog
    (updateLast
      (fun e => { e with TaskID := task.ID, Status := "failed", Result := err, CompletedAt := now })
      file.entries)
    file w).1

/-- Method `learnFromResult`. -/
def learnFromResult (file : LogFile) (task : Task) (result : TaskResult) (now : String)
    (w : WriteOutcome) : LogFile × Bool :=
  writeLog
    (updateLast
      (fun e => { e with
        TaskID := task.ID, Status := "completed", Result := result.Output,
        Learning := result.Learning, CompletedAt := now })
      file.entries)
    file w

/-- Method `ExecuteTask`: the returned result and error and the log file
afterwards; `none` when the call panics. `id` and `now` are what `NewTask` draws,
`logNow` is the clock of the log update. -/
def ExecuteTask (env : ExecEnv) (file : LogFile) (actionPlan : ActionPlan)
    (id now logNow : String) (w : WriteOutcome) :
    Option (Option TaskResult × Option String × LogFile) :=
  match Execute env (NewTask actionPlan id now) with
  | .panicked _ => none
  | .returned task _ (some err) => some (none, some err, recordFailure file task err logNow w)
  | .returned task (some result) none =>
    some (some result, none, (learnFromResult file task result logNow w).1)
  | .returned _ none none => none

/-- The task `processTaskQueue` builds from a queued one. -/
def taskOfQueued (queuedTask : QueuedTask) (plan : ActionPlan) : Task :=
  { ID := queuedTask.ID, Type_ := queuedTask.Type_, ActionPlan := plan,
    Params := queuedTask.Params, Priority := queuedTask.Priority, Status := queuedTask.Status,
    CreatedAt := queuedTask.CreatedAt, StartedAt := "", CompletedAt := "", Result := none }

/-- The queue after the `Enqueue` calls that clients get served while
`processTaskQueue` is busy with `Execute`, between its `Dequeue` and its
`UpdateTask` (the queue is locked for the length of one call only). -/
def afterArrivals (s : QState) (arrivals : List EnqueueInput) : QState :=
  runCalls s (arrivals.map EnqueueInput.call)

/-- Method `processTaskQueue`: the queue and the log file afterwards; `none` when
the call panics. A queued task whose plan is nil, which `Enqueue` never builds,
is counted as such. The clocks and write outcomes are those of `Dequeue`, of
`UpdateTask` and of the log update; `arrivals` are the `Enqueue` calls served
while `Execute` runs, and `file` is the log as the update at the end finds it. -/
def processTaskQueue (env : ExecEnv) (s : QState) (file : LogFile)
    (dequeueNow : String) (w1 : WriteOutcome) (arrivals : List EnqueueInput)
    (updateNow : String) (w2 : WriteOutcome) (logNow : String) (w3 : WriteOutcome) :
    Option (QState × LogFile) :=
  match Dequeue s.q s.d dequeueNow w1 with
  | (q1, d1, none) => some ({ q := q1, d := d1 }, file)
  | (q1, d1, some queuedTask) =>
    match queuedTask.ActionPlan with
    | none => none
    | some plan =>
      let s2 := afterArrivals { q := q1, d := d1 } arrivals
      match Execute env (taskOfQueued queuedTask plan) with
      | .panicked _ => none
      | .returned task _ (some err) =>
        let u := UpdateTask s2.q s2.d queuedTask.ID "failed"
          (some { TaskResult.zero with Success := false, Error := err }) updateNow w2
        some ({ q := u.1, d := u.2.1 }, recordFailure file task err logNow w3)
      | .returned task (some result) none =>
        let u := UpdateTask s2.q s2.d queuedTask.ID "completed" (some result) updateNow w2
        some ({ q := u.1, d := u.2.1 }, (learnFromResult file task result logNow w3).1)
      | .returned _ none none => none

/-- A log entry of a decision to summarize that has already been completed. -/
def decidedEntry : EvolutionLogEntry :=
  { Timestamp := "2026-01-01T08:00:00Z", TaskID := "task-20260101-080000-zzzzz9",
    Action := "summarize", Decision := "archive 文件数超过 30", Status := "completed",
    Result := "Summarized", Learning := "", CompletedAt := "2026-01-01T08:01:00Z",
    NextSteps := ["选择需要压缩的文件"] }

/-- A log file holding an older idle decision and `decidedEntry`. -/
def sampleLog : LogFile :=
  { entries :=
      [{ Timestamp := "2026-01-01T07:00:00Z", TaskID := "", Action := "idle", Decision := "",
         Status := "pending", Result := "", Learning := "", CompletedAt := "", NextSteps := [] },
        decidedEntry],
    writes := 2 }

/-! ## Task creation over the control protocol (`server/socket.go`) -/

/-- A value held in the `Data` map of a response to `task create`. -/
inductive DataValue where
  | str (s : String)
  | bool (b : Bool)
deriving DecidableEq, Repr

/-- The text `json.Marshal` writes for a map of such values; the members are
listed in the order of their keys, which is the order the encoder writes. -/
def marshalData (fields : List (String × DataValue)) : String :=
  "\x7b" ++
    Join (fields.map fun kv =>
      quoteJSON kv.1 ++ ":" ++
        match kv.2 with
        | .str s => quoteJSON s
        | .bool b => if b then "true" else "false") "," ++
    "\x7d"

/-- The part of the evolution engine `handleTaskCreate` works on: the task queue
with its file and the evolution log. -/
structure EvolutionEngine where
  queue : QState
  log : LogFile

/-- The server as `handleTaskCreate` sees it: the engine, `none` when nil. -/
structure TaskServer where
  evolution : Option EvolutionEngine

/-- The map `knownTypes` of `handleTaskCreate`. -/
def createKnownTypes : List String :=
  ["summarize", "consolidate", "recall", "learn", "optimize", "reflect", "idle", "integrate"]

/-- The types the usage text of `handleTaskCreate` documents. -/
def documentedTypes : List String :=
  ["summarize", "consolidate", "recall", "learn", "optimize", "reflect", "idle", "integrate",
    "custom"]

/-- The usage text `handleTaskCreate` answers an empty argument list with. -/
def taskCreateUsage : String :=
  "Usage: task create <type> [steps...] [--async]\n       task create \"<你的需求描述（长串字符串）>\" [--async]\nTypes: summarize, consolidate, recall, learn, optimize, reflect, idle, integrate, custom\n直接传入一句需求时自动按 custom 执行，由 cata 解析并执行"

/-- The loop of `handleTaskCreate` over the arguments: `rest` collects the
arguments other than "--async", `async` tells whether one was met. -/
def splitAsync : List String → List String → Bool → List String × Bool
  | [], rest, async => (rest, async)
  | arg :: args, rest, async =>
    if arg = "--async" then splitAsync args rest true
    else splitAsync args (rest ++ [arg]) async

/-- The text of the first `n` bytes of the UTF-8 encoding of the runes: the
runes that lie wholly within them, and, when the cut falls inside a rune, one
U+FFFD for each of its leading bytes that are kept (none of them is valid on
its own). -/
def takeBytes : Nat → List Char → List Char
  | _, [] => []
  | n, c :: cs =>
    if c.utf8Size ≤ n then c :: takeBytes (n - c.utf8Size) cs
    else List.replicate n (Char.ofNat 0xfffd)

/-- The truncation `reason[:200] + "..."` applied when `len(reason) > 200`: the
slice is cut at byte 200, also inside a rune. -/
def truncateReason (reason : String) : String :=
  if reason.utf8ByteSize > 200 then String.mk (takeBytes 200 reason.data) ++ "..." else reason

/-- The type and the steps `handleTaskCreate` reads from the arguments other
than "--async"; `none` when there is none. -/
def typeAndSteps (rest : List String) : Option (String × List String) :=
  match rest with
  | [] => none
  | first :: others =>
    if first ∈ createKnownTypes then some (first, others)
    else some ("custom", [Join rest " "])

/-- The plan `handleTaskCreate` builds for a type and steps. -/
def createPlan (taskType : String) (steps : List String) : ActionPlan :=
  let reason :=
    match steps with
    | step :: _ => if taskType = "custom" then truncateReason step
      else "Task created via catacli: " ++ taskType
    | [] => "Task created via catacli: " ++ taskType
  { Action := taskType, Reason := reason, Steps := steps,
    ExpectedOutcome := "Execute " ++ taskType ++ " task successfully", Priority := 5 }

/-- The `Data` map of the answer to an asynchronous creation. -/
def queuedData (task : QueuedTask) : List (String × DataValue) :=
  [("created_at", .str task.CreatedAt),
    ("message", .str "Task will be executed by cata automatically"),
    ("status", .str task.Status), ("task_id", .str task.ID), ("type", .str task.Type_)]

/-- The `Data` map of the answer to a synchronous creation. -/
def executedData (actionPlan : ActionPlan) (result : TaskResult) : List (String × DataValue) :=
  [("learning", .str result.Learning), ("output", .str result.Output),
    ("success", .bool result.Success), ("task_id", .str actionPlan.Action)]

/-- Method `SocketServer.handleTaskCreate`: the response and the server
afterwards, `none` when the call panics. `id` and `now` are what the new task
draws, `logNow` is the clock of the log update, `w` the outcome of the one file
write the call makes (the queue file when asynchronous, the log otherwise). -/
def handleTaskCreate (env : ExecEnv) (srv : TaskServer) (args : List String)
    (id now logNow : String) (w : WriteOutcome) : Option (Response × TaskServer) :=
  match srv.evolution with
  | none => some ({ Success := false, Message := "Evolution engine not available", Data := none }, srv)
  | some engine =>
    if args.length < 1 then
      some ({ Success := false, Message := taskCreateUsage, Data := none }, srv)
    else
      match typeAndSteps (splitAsync args [] false).1 with
      | none =>
        some ({ Success := false,
                Message := "Usage: task create \"<需求描述>\" or task create <type> [steps...]",
                Data := none }, srv)
      | some (taskType, steps) =>
        if (splitAsync args [] false).2 then
          let r := Enqueue engine.queue.q engine.queue.d (createPlan taskType steps) "user" id now w
          match r.2.2.2 with
          | some err =>
            some ({ Success := false, Message := "Failed to enqueue task: " ++ err, Data := none },
              { evolution := some { engine with queue := { q := r.1, d := r.2.1 } } })
          | none =>
            some ({ Success := true, Message := "Task queued successfully: " ++ r.2.2.1.ID,
                    Data := some (marshalData (queuedData r.2.2.1)) },
              { evolution := some { engine with queue := { q := r.1, d := r.2.1 } } })
        else
          match ExecuteTask env engine.log (createPlan taskType steps) id now logNow w with
          | none => none
          | some (_, some err, log1) =>
            some ({ Success := false, Message := "Task execution failed: " ++ err, Data := none },
              { evolution := some { engine with log := log1 } })
          | some (some result, none, log1) =>
            some ({ Success := true, Message := "Task executed successfully: " ++ result.Output,
                    Data := some (marshalData (executedData (createPlan taskType steps) result)) },
              { evolution := some { engine with log := log1 } })
          | some (none, none, _) => none

/-- The plan `handleTaskCreate` builds for an argument list, `none` when it
answers with a usage text instead. -/
def createdPlan (args : List String) : Option ActionPlan :=
  (typeAndSteps (splitAsync args [] false).1).map fun ts => createPlan ts.1 ts.2

/-- A server with an engine whose queue and log are empty. -/
def freshServer : TaskServer :=
  { evolution := some { queue := emptyState, log := { entries := [], writes := 0 } } }

/-! ## The queue as the engine drives it (`engine.go`, `socket.go`) -/

/-- One step of the program on the queue: a client has a task enqueued
(`EnqueueTask`, the only caller of `Enqueue`), or the loop of the engine runs
`processTaskQueue` (the only caller of `Dequeue` and of `UpdateTask`), during
which clients may have further tasks enqueued. -/
inductive EngineCall where
  | enqueue (e : EnqueueInput)
  | process (env : ExecEnv) (dequeueNow : String) (w1 : WriteOutcome)
      (arrivals : List EnqueueInput) (updateNow : String) (w2 : WriteOutcome)
      (logNow : String) (w3 : WriteOutcome)

/-- Queue and log after one step; `none` when `processTaskQueue` panics. -/
def EngineCall.apply (s : QState × LogFile) : EngineCall → Option (QState × LogFile)
  | .enqueue e => some (e.call.apply s.1, s.2)
  | .process env dequeueNow w1 arrivals updateNow w2 logNow w3 =>
    processTaskQueue env s.1 s.2 dequeueNow w1 arrivals updateNow w2 logNow w3

/-- Queue and log after a sequence of steps; `none` when one of them panics. -/
def runEngine : QState × LogFile → List EngineCall → Option (QState × LogFile)
  | s, [] => some s
  | s, c :: cs =>
    match c.apply s with
    | none => none
    | some s1 => runEngine s1 cs

/-- The ids of the tasks the `Enqueue` calls create. -/
def arrivalIDs (arrivals : List EnqueueInput) : List String :=
  arrivals.map fun e => generateTaskID e.clock e.draw

/-- The ids of the tasks the steps enqueue. -/
def enqueuedIDs : List EngineCall → List String
  | [] => []
  | .enqueue e :: cs => generateTaskID e.clock e.draw :: enqueuedIDs cs
  | .process _ _ _ arrivals _ _ _ _ :: cs => arrivalIDs arrivals ++ enqueuedIDs cs

/-- Collaborators as in `sampleEnv`, with a recall that fails. -/
def brokenEnv : ExecEnv :=
  { sampleEnv with recallWithPreprocess := fun _ _ => .error "index unavailable" }

/-- An `Enqueue` of a recall task at nine o'clock whose six draws all give `k`. -/
def recallAtNine (k : Nat) : EnqueueInput :=
  { plan := recallPlan "go", createdBy := "user", clock := nineOClock, draw := fun _ => k,
    now := "2026-01-01T09:00:00Z", write := .ok }

/-- Scenario: two recall tasks are enqueued within the same second with the same
draws, so under the same id; the first is processed and succeeds, the second is
processed and fails. -/
def sharedIdCalls : List EngineCall :=
  [.enqueue (recallAtNine 1), .enqueue (recallAtNine 1),
   .process sampleEnv "2026-01-01T09:00:30Z" .ok [] "2026-01-01T09:00:31Z" .ok
     "2026-01-01T09:00:32Z" .ok,
   .process brokenEnv "2026-01-01T09:01:30Z" .ok [] "2026-01-01T09:01:31Z" .ok
     "2026-01-01T09:01:32Z" .ok]

/-- Scenario: a recall task is enqueued; while the engine processes it a second
one arrives under another id, and a third is enqueued afterwards; the engine
then processes the second with a recall that fails. -/
def distinctIdCalls : List EngineCall :=
  [.enqueue (recallAtNine 1),
   .process sampleEnv "2026-01-01T09:00:30Z" .ok [recallAtNine 2] "2026-01-01T09:00:31Z" .ok
     "2026-01-01T09:00:32Z" .ok,
   .enqueue (recallAtNine 3),
   .process brokenEnv "2026-01-01T09:01:30Z" .ok [] "2026-01-01T09:01:31Z" .ok
     "2026-01-01T09:01:32Z" .ok]

/-- The statuses of the tasks after each step of a run from the empty queue and
log. -/
def statusTrace : List EngineCall → List (Option (List String))
  | calls =>
    (List.range (calls.length + 1)).map fun k =>
      (runEngine (emptyState, { entries := [], writes := 0 }) (calls.take k)).map
        fun r => statuses r.1

/-! ## Theorems: the task queue -/

/-- Loop invariant of `scanBest`, read off at the end of the slice. -/
theorem scanBest_spec (ts pre : List QueuedTask) (best : Option Nat) (maxP : Int)
    (hle : ∀ (j : Nat) (u : QueuedTask), pre[j]? = some u → u.Status = "pending" → u.Priority ≤ maxP)
    (hnone : best = none → maxP = -1)
    (hsome : ∀ b, best = some b → ∃ t, pre[b]? = some t ∧ t.Status = "pending" ∧
      t.Priority = maxP ∧
      ∀ (j : Nat) (u : QueuedTask), pre[j]? = some u → u.Status = "pending" → j < b → u.Priority < maxP) :
    ScanPost (pre ++ ts) (scanBest ts pre.length best maxP) := by
  induction ts generalizing pre best maxP with
  | nil =>
    simp only [scanBest, List.append_nil]
    cases best with
    | none =>
      have h := hnone rfl
      subst h
      exact hle
    | some b =>
      obtain ⟨t, ht, hp, hm, hlt⟩ := hsome b rfl
      show IsFirstBestPending pre b
      refine ⟨t, ht, hp, ?_⟩
      intro j u hj hu
      exact ⟨hm ▸ hle j u hj hu, fun hjb => hm ▸ hlt j u hj hu hjb⟩
  | cons x rest ih =>
    have hlen : (pre ++ [x]).length = pre.length + 1 := by simp
    have happ : pre ++ x :: rest = (pre ++ [x]) ++ rest := by simp
    rw [happ]
    by_cases hc : x.Status = "pending" ∧ x.Priority > maxP
    · rw [scanBest, if_pos hc]
      obtain ⟨hxp, hxgt⟩ := hc
      rw [← hlen]
      apply ih
      · intro j u hj hu
        rcases Nat.lt_or_ge j pre.length with hjl | hjl
        · rw [List.getElem?_append_left hjl] at hj
          exact le_of_lt (lt_of_le_of_lt (hle j u hj hu) hxgt)
        · rw [List.getElem?_append_right hjl] at hj
          cases hk : j - pre.length with
          | zero =>
            rw [hk] at hj
            simp at hj
            subst hj
            exact le_refl _
          | succ k =>
            rw [hk] at hj
            simp at hj
      · intro h
        cases h
      · intro b hb
        cases hb
        refine ⟨x, by simp, hxp, rfl, ?_⟩
        intro j u hj hu hjl
        rw [List.getElem?_append_left hjl] at hj
        exact lt_of_le_of_lt (hle j u hj hu) hxgt
    · rw [scanBest, if_neg hc]
      rw [← hlen]
      apply ih
      · intro j u hj hu
        rcases Nat.lt_or_ge j pre.length with hjl | hjl
        · rw [List.getElem?_append_left hjl] at hj
          exact hle j u hj hu
        · rw [List.getElem?_append_right hjl] at hj
          cases hk : j - pre.length with
          | zero =>
            rw [hk] at hj
            simp at hj
            subst hj
            by_contra hgt
            exact hc ⟨hu, lt_of_not_le hgt⟩
          | succ k =>
            rw [hk] at hj
            simp at hj
      · exact hnone
      · intro b hb
        obtain ⟨t, ht, hp, hm, hlt⟩ := hsome b hb
        have hbl : b < pre.length := by
          rcases Nat.lt_or_ge b pre.length with h | h
          · exact h
          · rw [List.getElem?_eq_none h] at ht
            cases ht
        refine ⟨t, ?_, hp, hm, ?_⟩
        · rw [List.getElem?_append_left hbl]
          exact ht
        · intro j u hj hu hjb
          rw [List.getElem?_append_left (lt_trans hjb hbl)] at hj
          exact hlt j u hj hu hjb

/-- What `scanBest` started as `Dequeue` starts it finds. -/
theorem scanBest_start (ts : List QueuedTask) :
    ScanPost ts (scanBest ts 0 none (-1)) := by
  have h := scanBest_spec ts [] none (-1) (by simp) (by simp) (by simp)
  simpa using h

/-- The loop of `UpdateTask` keeps the length of the slice and every priority. -/
theorem updateFirst_priority (taskID status : String) (result : Option TaskResult)
    (now : String) (ts ts1 : List QueuedTask)
    (h : updateFirst taskID status result now ts = some ts1) :
    ∀ t1 ∈ ts1, ∃ t ∈ ts, t1.Priority = t.Priority := by
  induction ts generalizing ts1 with
  | nil => simp [updateFirst] at h
  | cons x rest ih =>
    rw [updateFirst] at h
    by_cases hx : x.ID = taskID
    · rw [if_pos hx] at h
      injection h with h
      subst h
      intro t1 ht1
      rcases List.mem_cons.mp ht1 with h1 | h1
      · refine ⟨x, by simp, ?_⟩
        subst h1
        split <;> rfl
      · exact ⟨t1, by simp [h1], rfl⟩
    · rw [if_neg hx] at h
      cases hr : updateFirst taskID status result now rest with
      | none => simp [hr] at h
      | some rest1 =>
        simp [hr] at h
        subst h
        intro t1 ht1
        rcases List.mem_cons.mp ht1 with h1 | h1
        · exact ⟨x, by simp, by rw [h1]⟩
        · obtain ⟨t, ht, hp⟩ := ih rest1 hr t1 h1
          exact ⟨t, by simp [ht], hp⟩

/-- A call that enqueues no negative priority keeps all priorities at or above
zero. -/
theorem apply_nonneg (s : QState) (c : QueueCall)
    (hs : ∀ t ∈ s.q.tasks, 0 ≤ t.Priority) (hc : c.nonnegPriority) :
    ∀ t ∈ (c.apply s).q.tasks, 0 ≤ t.Priority := by
  cases c with
  | enqueue plan createdBy id now w =>
    intro t ht
    simp only [QueueCall.apply, Enqueue, List.mem_append, List.mem_singleton] at ht
    rcases ht with ht | ht
    · exact hs t ht
    · subst ht
      exact hc
  | dequeue now w =>
    intro t ht
    simp only [QueueCall.apply, Dequeue] at ht
    cases hb : scanBest s.q.tasks 0 none (-1) with
    | none =>
      rw [hb] at ht
      exact hs t ht
    | some i =>
      rw [hb] at ht
      cases hg : s.q.tasks[i]? with
      | none =>
        simp only [hg] at ht
        exact hs t ht
      | some b =>
        simp only [hg] at ht
        rcases List.mem_or_eq_of_mem_set ht with h1 | h1
        · exact hs t h1
        · subst h1
          exact hs b (List.getElem?_mem hg)
  | update taskID status result now w =>
    intro t ht
    simp only [QueueCall.apply, UpdateTask] at ht
    cases hu : updateFirst taskID status result now s.q.tasks with
    | none =>
      rw [hu] at ht
      exact hs t ht
    | some ts1 =>
      rw [hu] at ht
      obtain ⟨t0, ht0, hp⟩ := updateFirst_priority _ _ _ _ _ _ hu t ht
      rw [hp]
      exact hs t0 ht0

/-- A run that enqueues no negative priority keeps all priorities at or above
zero. -/
theorem runCalls_nonneg (cs : List QueueCall) (s : QState)
    (hs : ∀ t ∈ s.q.tasks, 0 ≤ t.Priority) (hcs : ∀ c ∈ cs, c.nonnegPriority) :
    ∀ t ∈ (runCalls s cs).q.tasks, 0 ≤ t.Priority := by
  induction cs generalizing s with
  | nil => exact hs
  | cons c rest ih =>
    simp only [runCalls, List.foldl_cons]
    exact ih (c.apply s) (apply_nonneg s c hs (hcs c (by simp)))
      (fun c1 h1 => hcs c1 (by simp [h1]))

/-- On a queue without negative priorities `Dequeue` hands out the first best
pending task, marked running and stamped, or nil when no task is pending. -/
theorem Dequeue_spec (q : TaskQueue) (d : Disk) (now : String) (w : WriteOutcome)
    (hq : ∀ t ∈ q.tasks, 0 ≤ t.Priority) :
    (∃ i t, IsFirstBestPending q.tasks i ∧ q.tasks[i]? = some t ∧
        (Dequeue q d now w).2.2 = some { t with Status := "running", StartedAt := now } ∧
        (Dequeue q d now w).1.tasks =
          q.tasks.set i { t with Status := "running", StartedAt := now }) ∨
      ((Dequeue q d now w).2.2 = none ∧ ∀ t ∈ q.tasks, t.Status ≠ "pending") := by
  have hpost := scanBest_start q.tasks
  unfold Dequeue
  cases hb : scanBest q.tasks 0 none (-1) with
  | none =>
    right
    rw [hb] at hpost
    refine ⟨rfl, ?_⟩
    intro t ht hp
    obtain ⟨j, hj⟩ := List.getElem?_of_mem ht
    have h1 := hpost j t hj hp
    have h2 := hq t ht
    omega
  | some i =>
    left
    rw [hb] at hpost
    obtain ⟨t, ht, hrest⟩ := hpost
    refine ⟨i, t, ⟨t, ht, hrest⟩, ht, ?_, ?_⟩ <;> simp only [ht]

/-- C1 fails as stated: a plan of priority -1 is enqueued on the empty queue and
is pending, yet `Dequeue` returns nil. -/
theorem dequeue_ignores_negative_priority :
    (∃ t ∈ (Enqueue { tasks := [] } { content := none, writes := 0 }
        { Action := "idle", Reason := "", Steps := [], ExpectedOutcome := "", Priority := -1 }
        "user" "task-20260101-000000-aaaaaa" "2026-01-01T00:00:00Z" .ok).1.tasks,
        t.Status = "pending" ∧ t.Priority = -1) ∧
    (Dequeue
      (Enqueue { tasks := [] } { content := none, writes := 0 }
        { Action := "idle", Reason := "", Steps := [], ExpectedOutcome := "", Priority := -1 }
        "user" "task-20260101-000000-aaaaaa" "2026-01-01T00:00:00Z" .ok).1
      { content := none, writes := 0 } "2026-01-01T00:00:01Z" .ok).2.2.isNone = true := by
  refine ⟨⟨_, List.mem_singleton.mpr rfl, rfl, rfl⟩, ?_⟩
  decide

/-- C1, amended: from a queue without negative priorities, after any sequence of
calls that enqueue plans of priority zero or more, `Dequeue` returns the pending
task of highest priority, the earliest one among equals (marked running and
stamped with the start time), and nil exactly when no task is pending. -/
theorem dequeue_first_highest_pending (s0 : QState)
    (h0 : ∀ t ∈ s0.q.tasks, 0 ≤ t.Priority)
    (cs : List QueueCall) (hcs : ∀ c ∈ cs, c.nonnegPriority)
    (now : String) (w : WriteOutcome) :
    (∃ i t, IsFirstBestPending (runCalls s0 cs).q.tasks i ∧
        (runCalls s0 cs).q.tasks[i]? = some t ∧
        (Dequeue (runCalls s0 cs).q (runCalls s0 cs).d now w).2.2 =
          some { t with Status := "running", StartedAt := now } ∧
        (Dequeue (runCalls s0 cs).q (runCalls s0 cs).d now w).1.tasks =
          (runCalls s0 cs).q.tasks.set i { t with Status := "running", StartedAt := now }) ∨
      ((Dequeue (runCalls s0 cs).q (runCalls s0 cs).d now w).2.2 = none ∧
        ∀ t ∈ (runCalls s0 cs).q.tasks, t.Status ≠ "pending") :=
  Dequeue_spec _ _ now w (runCalls_nonneg cs s0 h0 hcs)

/-- Witness of `dequeue_first_highest_pending`: the scenario of priorities 3, 9, 9
on the empty queue. -/
theorem dequeue_first_highest_pending_witness :
    (∀ t ∈ emptyState.q.tasks, 0 ≤ t.Priority) ∧
    (∀ c ∈ scenarioCalls, c.nonnegPriority) ∧
    ((∃ i t, IsFirstBestPending (runCalls emptyState scenarioCalls).q.tasks i ∧
        (runCalls emptyState scenarioCalls).q.tasks[i]? = some t ∧
        (Dequeue (runCalls emptyState scenarioCalls).q (runCalls emptyState scenarioCalls).d
            "2026-01-01T09:01:00Z" .ok).2.2 =
          some { t with Status := "running", StartedAt := "2026-01-01T09:01:00Z" } ∧
        (Dequeue (runCalls emptyState scenarioCalls).q (runCalls emptyState scenarioCalls).d
            "2026-01-01T09:01:00Z" .ok).1.tasks =
          (runCalls emptyState scenarioCalls).q.tasks.set i
            { t with Status := "running", StartedAt := "2026-01-01T09:01:00Z" }) ∨
      ((Dequeue (runCalls emptyState scenarioCalls).q (runCalls emptyState scenarioCalls).d
          "2026-01-01T09:01:00Z" .ok).2.2 = none ∧
        ∀ t ∈ (runCalls emptyState scenarioCalls).q.tasks, t.Status ≠ "pending")) :=
  have h0 : ∀ t ∈ emptyState.q.tasks, 0 ≤ t.Priority := by simp [emptyState]
  have hcs : ∀ c ∈ scenarioCalls, c.nonnegPriority := by
    intro c hc
    simp only [scenarioCalls, List.mem_cons, List.mem_singleton, List.not_mem_nil, or_false] at hc
    rcases hc with h | h | h <;> subst h <;>
      simp [QueueCall.nonnegPriority, planOfPriority]
  ⟨h0, hcs, dequeue_first_highest_pending emptyState h0 scenarioCalls hcs
    "2026-01-01T09:01:00Z" .ok⟩

/-- Scenario of C1: after priorities 3, 9, 9 are enqueued, four `Dequeue` calls
return task #2, task #3, task #1 and then nil. -/
theorem dequeue_scenario_3_9_9 :
    dequeueIDs (runCalls emptyState scenarioCalls) ["t1", "t2", "t3", "t4"] =
      [some "task-20260101-090001-aaaaa2", some "task-20260101-090002-aaaaa3",
       some "task-20260101-090000-aaaaa1", none] := by
  decide

/-- The lifecycle order is transitive. -/
theorem StatusPath.trans {a b c : String} (h1 : StatusPath a b) (h2 : StatusPath b c) :
    StatusPath a c := by
  unfold StatusPath at *
  rcases h1 with h1 | ⟨ha, hb⟩ | ⟨ha, hb⟩
  · subst h1
    exact h2
  · subst ha
    rcases h2 with h2 | ⟨hb2, hc⟩ | ⟨hb2, hc⟩
    · subst h2
      exact Or.inr (Or.inl ⟨rfl, hb⟩)
    · subst hb2
      exact Or.inr (Or.inl ⟨rfl, hc⟩)
    · exact Or.inr (Or.inl ⟨rfl, Or.inr hc⟩)
  · subst ha
    rcases h2 with h2 | ⟨hb2, hc⟩ | ⟨hb2, hc⟩
    · subst h2
      exact Or.inr (Or.inr ⟨rfl, hb⟩)
    · subst hb2
      rcases hb with hb | hb <;> exact absurd hb (by decide)
    · exact Or.inr (Or.inr ⟨rfl, hc⟩)

/-- An `UpdateTask` that keeps to the lifecycle moves every status along it. -/
theorem updateFirst_status (taskID status : String) (result : Option TaskResult)
    (now : String) (hst : status = "completed" ∨ status = "failed")
    (ts ts1 : List QueuedTask)
    (h : updateFirst taskID status result now ts = some ts1)
    (hrun : ∀ t, ts.find? (fun task => decide (task.ID = taskID)) = some t →
      t.Status = "running") :
    ∀ (i : Nat) (t : QueuedTask), ts[i]? = some t →
      ∃ t1, ts1[i]? = some t1 ∧ StatusPath t.Status t1.Status := by
  induction ts generalizing ts1 with
  | nil => simp [updateFirst] at h
  | cons x rest ih =>
    rw [updateFirst] at h
    by_cases hx : x.ID = taskID
    · rw [if_pos hx] at h
      injection h with h
      subst h
      have hxr : x.Status = "running" := hrun x (by simp [List.find?, hx])
      intro i t hi
      cases i with
      | zero =>
        simp only [List.getElem?_cons_zero, Option.some.injEq] at hi
        subst hi
        refine ⟨_, List.getElem?_cons_zero, ?_⟩
        rw [if_pos hst, hxr]
        exact Or.inr (Or.inr ⟨rfl, hst⟩)
      | succ k =>
        simp only [List.getElem?_cons_succ] at hi
        exact ⟨t, by simp [hi], Or.inl rfl⟩
    · rw [if_neg hx] at h
      cases hr : updateFirst taskID status result now rest with
      | none => simp [hr] at h
      | some rest1 =>
        simp [hr] at h
        subst h
        have hrun1 : ∀ t, rest.find? (fun task => decide (task.ID = taskID)) = some t →
            t.Status = "running" := by
          intro t ht
          apply hrun t
          simp [List.find?, hx, ht]
        intro i t hi
        cases i with
        | zero =>
          simp only [List.getElem?_cons_zero, Option.some.injEq] at hi
          subst hi
          exact ⟨_, List.getElem?_cons_zero, Or.inl rfl⟩
        | succ k =>
          simp only [List.getElem?_cons_succ] at hi
          obtain ⟨t1, h1, hp⟩ := ih rest1 hr hrun1 k t hi
          exact ⟨t1, by simp [h1], hp⟩

/-- A call that keeps to the lifecycle moves every status along it and removes
no task. -/
theorem apply_status (s : QState) (c : QueueCall) (hc : c.respectsLifecycle s) :
    ∀ (i : Nat) (t : QueuedTask), s.q.tasks[i]? = some t →
      ∃ t1, (c.apply s).q.tasks[i]? = some t1 ∧ StatusPath t.Status t1.Status := by
  intro i t hi
  cases c with
  | enqueue plan createdBy id now w =>
    refine ⟨t, ?_, Or.inl rfl⟩
    simp only [QueueCall.apply, Enqueue]
    have hlt : i < s.q.tasks.length := by
      rcases Nat.lt_or_ge i s.q.tasks.length with h | h
      · exact h
      · rw [List.getElem?_eq_none h] at hi
        cases hi
    rw [List.getElem?_append_left hlt]
    exact hi
  | dequeue now w =>
    have hpost := scanBest_start s.q.tasks
    simp only [QueueCall.apply, Dequeue]
    cases hb : scanBest s.q.tasks 0 none (-1) with
    | none => exact ⟨t, hi, Or.inl rfl⟩
    | some b =>
      rw [hb] at hpost
      obtain ⟨u, hu, hpend, _⟩ := hpost
      simp only [hu]
      by_cases hib : b = i
      · subst hib
        rw [hu] at hi
        injection hi with hi
        subst hi
        have hlt : b < s.q.tasks.length := by
          rcases Nat.lt_or_ge b s.q.tasks.length with h | h
          · exact h
          · rw [List.getElem?_eq_none h] at hu
            cases hu
        refine ⟨{ u with Status := "running", StartedAt := now }, ?_, ?_⟩
        · rw [List.getElem?_set_eq_of_lt _ hlt]
        · show StatusPath u.Status "running"
          rw [hpend]
          exact Or.inr (Or.inl ⟨rfl, Or.inl rfl⟩)
      · refine ⟨t, ?_, Or.inl rfl⟩
        rw [List.getElem?_set_ne hib]
        exact hi
  | update taskID status result now w =>
    simp only [QueueCall.apply, UpdateTask]
    cases hu : updateFirst taskID status result now s.q.tasks with
    | none => exact ⟨t, hi, Or.inl rfl⟩
    | some ts1 =>
      exact updateFirst_status taskID status result now hc.1 s.q.tasks ts1 hu hc.2 i t hi

/-- A run that keeps to the lifecycle moves every status along it. -/
theorem runCalls_status (cs : List QueueCall) (s : QState) (hcs : runRespectsLifecycle s cs) :
    ∀ (i : Nat) (t : QueuedTask), s.q.tasks[i]? = some t →
      ∃ t1, (runCalls s cs).q.tasks[i]? = some t1 ∧ StatusPath t.Status t1.Status := by
  induction cs generalizing s with
  | nil =>
    intro i t hi
    exact ⟨t, hi, Or.inl rfl⟩
  | cons c rest ih =>
    intro i t hi
    obtain ⟨t1, h1, p1⟩ := apply_status s c hcs.1 i t hi
    obtain ⟨t2, h2, p2⟩ := ih (c.apply s) hcs.2 i t1 h1
    exact ⟨t2, h2, p1.trans p2⟩

/-- `Execute` in the default case of its `switch`. -/
theorem Execute_unknown (env : ExecEnv) (task : Task)
    (h : dispatch env (markRunning task) = none) :
    Execute env task =
      .returned (markRunning task) none (some ("unknown task type: " ++ task.Type_)) := by
  simp only [Execute, h]
  rfl

/-- `Execute` when the handler returns an error. -/
theorem Execute_failed (env : ExecEnv) (task : Task) (result : TaskResult) (err : String)
    (h : dispatch env (markRunning task) = some (result, some err)) :
    Execute env task =
      .returned
        { markRunning task with
          Status := "failed",
          Result := some { TaskResult.zero with Success := false, Error := err } }
        (some { TaskResult.zero with Success := false, Error := err }) (some err) := by
  simp only [Execute, h]

/-- `Execute` when the handler succeeds and its metrics hold a string under
"completed_at". -/
theorem Execute_completed (env : ExecEnv) (task : Task) (result : TaskResult)
    (completedAt : String)
    (h : dispatch env (markRunning task) = some (result, none))
    (hc : result.Metrics.lookup "completed_at" = some (.str completedAt)) :
    Execute env task =
      .returned
        { markRunning task with
          Status := "completed", CompletedAt := completedAt, Result := some result }
        (some result) none := by
  simp only [Execute, h, hc]

/-- The status `Execute` leaves on the task is running, failed or completed. -/
theorem Execute_status (env : ExecEnv) (task : Task) :
    (Execute env task).task.Status = "running" ∨
      (Execute env task).task.Status = "failed" ∨
      (Execute env task).task.Status = "completed" := by
  cases hd : dispatch env (markRunning task) with
  | none =>
    rw [Execute_unknown env task hd]
    exact Or.inl rfl
  | some hr =>
    obtain ⟨result, err⟩ := hr
    cases err with
    | some e =>
      rw [Execute_failed env task result e hd]
      exact Or.inr (Or.inl rfl)
    | none =>
      right
      right
      simp only [Execute, hd]
      split <;> rfl

/-- Decoding the array written for a `[]string` gives the strings back. -/
theorem decodeStrings_encode (xs : List String) :
    decodeStrings (.arr (xs.map Json.str)) = some xs := by
  have h : ∀ ys : List String, decodeAll decodeString (ys.map Json.str) = some ys := by
    intro ys
    induction ys with
    | nil => rfl
    | cons y rest ih => simp [decodeAll, decodeString, ih]
  exact h xs

/-- Decoding an encoded `interface{}` value gives its form after the trip. -/
theorem decodeValue_encode (v : GoValue) : decodeValue (encodeValue v) = v.afterJSON := by
  cases v <;> rfl

/-- Decoding an encoded map gives its form after the trip. -/
theorem decodeMap_encode (m : List (String × GoValue)) :
    decodeMap (encodeMap m) = some (afterJSONMap m) := by
  simp [decodeMap, encodeMap, afterJSONMap, decodeValue_encode]

/-- An action plan survives the trip unchanged. -/
theorem decodePlan_encode (p : ActionPlan) : decodePlan (encodePlan p) = some p := by
  simp [decodePlan, encodePlan, member, List.lookup, decodeString, decodeInt,
    decodeStrings_encode]

/-- A result comes back with its metrics in their form after the trip. -/
theorem decodeResult_encode (r : TaskResult) :
    decodeResult (encodeResult r) = some r.afterJSON := by
  simp [decodeResult, encodeResult, member, List.lookup, decodeString, decodeBool,
    decodeMap_encode, TaskResult.afterJSON]

/-- A task comes back in its form after the trip. -/
theorem decodeTask_encode (t : QueuedTask) :
    decodeTask (encodeTask t) = some t.afterJSON := by
  have hplan : decodePtr decodePlan (encodePtr encodePlan t.ActionPlan) = some t.ActionPlan := by
    cases h : t.ActionPlan with
    | none => rfl
    | some p =>
      simp only [encodePtr]
      have hp := decodePlan_encode p
      simp only [encodePlan] at hp
      simp [decodePtr, encodePlan, hp]
  have hres : decodePtr decodeResult (encodePtr encodeResult t.Result) =
      some (t.Result.map TaskResult.afterJSON) := by
    cases h : t.Result with
    | none => rfl
    | some r =>
      simp only [encodePtr]
      have hr := decodeResult_encode r
      simp only [encodeResult] at hr
      simp [decodePtr, encodeResult, hr]
  simp [decodeTask, encodeTask, member, List.lookup, decodeString, decodeInt,
    decodeMap_encode, hplan, hres, QueuedTask.afterJSON]

/-- Loading what `save` wrote gives every task in its form after the trip. -/
theorem decodeTasks_encode (ts : List QueuedTask) :
    decodeTasks (encodeTasks ts) = some (ts.map QueuedTask.afterJSON) := by
  have h : ∀ ys : List QueuedTask,
      decodeAll decodeTask (ys.map encodeTask) = some (ys.map QueuedTask.afterJSON) := by
    intro ys
    induction ys with
    | nil => rfl
    | cons y rest ih => simp [decodeAll, decodeTask_encode, ih]
  exact h ts

/-- A call leaves the file alone or saves the queue it ends with. -/
theorem apply_disk (s : QState) (c : QueueCall) :
    (c.apply s).d = s.d ∨ (c.apply s).d = (save (c.apply s).q s.d c.writeOutcome).1 := by
  cases c with
  | enqueue plan createdBy id now w => exact Or.inr rfl
  | dequeue now w =>
    simp only [QueueCall.apply, Dequeue, QueueCall.writeOutcome]
    cases hb : scanBest s.q.tasks 0 none (-1) with
    | none => exact Or.inl rfl
    | some i =>
      cases hg : s.q.tasks[i]? with
      | none =>
        simp only [hg]
        exact Or.inl trivial
      | some b =>
        simp only [hg]
        exact Or.inr trivial
  | update taskID status result now w =>
    simp only [QueueCall.apply, UpdateTask, QueueCall.writeOutcome]
    cases hu : updateFirst taskID status result now s.q.tasks with
    | none => exact Or.inl rfl
    | some ts => exact Or.inr rfl

/-- An integer of magnitude up to 2^53 is held by a `float64` as it is. -/
theorem roundFloat64_exact (n : Int) (h : n.natAbs ≤ 9007199254740992) : roundFloat64 n = n := by
  rcases Nat.lt_or_ge n.natAbs 9007199254740992 with hlt | hge
  · have he : roundExp 1100 n.natAbs = 0 := by
      show (if n.natAbs < 9007199254740992 then 0 else 1 + roundExp 1099 (n.natAbs / 2)) = 0
      rw [if_pos hlt]
    unfold roundFloat64
    simp only [he, pow_zero, Nat.div_one, Nat.mod_one, Nat.mul_zero, Nat.mul_one]
    have h1 : ¬ (0 > 1 ∨ (0 = 1 ∧ n.natAbs % 2 = 1)) := by omega
    rw [if_neg h1]
    split_ifs with hn <;> omega
  · have hm : n.natAbs = 9007199254740992 := Nat.le_antisymm h hge
    rcases Int.natAbs_eq n with e | e
    · rw [e, hm]
      decide
    · rw [e, hm]
      decide

/-- C3 fails as stated: after the recall task has been enqueued, dequeued and
reported completed, every save having succeeded, loading the file gives a
`float64` under "result_count" where the queue in memory holds a Go `int`, so
the loaded collection differs from the one in memory. Beyond 2^53 the number
itself changes: the `int` 9007199254740993 is read back as the `float64`
9007199254740992. -/
theorem load_changes_int_metric :
    (runCalls emptyState lifecycleCalls).d.writes = 3 ∧
    (runCalls emptyState lifecycleCalls).q.tasks.map (metricOf "result_count") =
      [some (.int 3)] ∧
    (load { tasks := [] } (runCalls emptyState lifecycleCalls).d).tasks.map
      (metricOf "result_count") = [some (.float64 3)] ∧
    (load { tasks := [] } (runCalls emptyState lifecycleCalls).d).tasks ≠
      (runCalls emptyState lifecycleCalls).q.tasks ∧
    decodeValue (encodeValue (.int 9007199254740993)) = .float64 9007199254740992 := by
  refine ⟨rfl, rfl, rfl, ?_, rfl⟩
  intro h
  have h2 : ([some (GoValue.float64 3)] : List (Option GoValue)) = [some (GoValue.int 3)] :=
    congrArg (List.map (metricOf "result_count")) h
  simp at h2

/-- C3, amended: after an `Enqueue`, `Dequeue` or `UpdateTask` whose save
succeeds, loading the written file yields the tasks of the queue in the same
order, each equal in every field to the task in memory except that a Go `int`
held in `Params` or in the metrics of `Result` is read back as the `float64`
nearest to it, which holds the same number when its magnitude is at most 2^53;
so the loaded collection equals the one in memory when no such map holds a Go
`int`. Strings are compared as texts: a byte that is not valid UTF-8 is read
back as the U+FFFD it shows as. -/
theorem load_after_save (s : QState) (c : QueueCall) (q0 : TaskQueue)
    (hw : c.writeOutcome = .ok) (hsaved : (c.apply s).d.writes ≠ s.d.writes) :
    (load q0 (c.apply s).d).tasks = (c.apply s).q.tasks.map QueuedTask.afterJSON ∧
    ((∀ t ∈ (c.apply s).q.tasks, t.afterJSON = t) →
      (load q0 (c.apply s).d).tasks = (c.apply s).q.tasks) ∧
    (∀ t : QueuedTask,
      t.afterJSON =
        { t with
          Params := t.Params.map fun kv => (kv.1, kv.2.afterJSON),
          Result := t.Result.map fun r =>
            { r with Metrics := r.Metrics.map fun kv => (kv.1, kv.2.afterJSON) } }) ∧
    (∀ n : Int, (GoValue.int n).afterJSON = .float64 (roundFloat64 n) ∧
      (GoValue.float64 n).afterJSON = .float64 (roundFloat64 n) ∧
      (n.natAbs ≤ 9007199254740992 → roundFloat64 n = n)) ∧
    (∀ (b : Bool) (text : String) (xs : List Json) (kvs : List (String × Json)),
      GoValue.null.afterJSON = .null ∧ (GoValue.bool b).afterJSON = .bool b ∧
      (GoValue.str text).afterJSON = .str text ∧ (GoValue.arr xs).afterJSON = .arr xs ∧
      (GoValue.obj kvs).afterJSON = .obj kvs) := by
  have hload : (load q0 (c.apply s).d).tasks = (c.apply s).q.tasks.map QueuedTask.afterJSON := by
    rcases apply_disk s c with h | h
    · exact absurd (congrArg Disk.writes h) hsaved
    · rw [h, hw]
      simp [load, save, decodeTasks_encode]
  refine ⟨hload, ?_, fun t => rfl, fun n => ⟨rfl, rfl, roundFloat64_exact n⟩,
    fun b text xs kvs => ⟨rfl, rfl, rfl, rfl, rfl⟩⟩
  intro hstable
  rw [hload]
  conv_rhs => rw [← List.map_id (c.apply s).q.tasks]
  exact List.map_congr_left hstable

/-- Witness of `load_after_save`: the `UpdateTask` that reports the recall task
completed. -/
theorem load_after_save_witness :
    (QueueCall.update "task-20260101-090000-aaaaa1" "completed" (some recallResult)
      "2026-01-01T09:00:31Z" .ok).writeOutcome = .ok ∧
    ((QueueCall.update "task-20260101-090000-aaaaa1" "completed" (some recallResult)
      "2026-01-01T09:00:31Z" .ok).apply
        (runCalls emptyState [enqueueRecall, .dequeue "2026-01-01T09:00:30Z" .ok])).d.writes ≠
      (runCalls emptyState [enqueueRecall, .dequeue "2026-01-01T09:00:30Z" .ok]).d.writes ∧
    (load { tasks := [] }
        ((QueueCall.update "task-20260101-090000-aaaaa1" "completed" (some recallResult)
          "2026-01-01T09:00:31Z" .ok).apply
          (runCalls emptyState [enqueueRecall, .dequeue "2026-01-01T09:00:30Z" .ok])).d).tasks =
      ((QueueCall.update "task-20260101-090000-aaaaa1" "completed" (some recallResult)
          "2026-01-01T09:00:31Z" .ok).apply
          (runCalls emptyState [enqueueRecall, .dequeue "2026-01-01T09:00:30Z" .ok])).q.tasks.map
        QueuedTask.afterJSON ∧
    truncateReason (String.mk (List.replicate 67 '好')) =
      String.mk (List.replicate 66 '好' ++ [Char.ofNat 0xfffd, Char.ofNat 0xfffd]) ++ "..." :=
  ⟨rfl, by decide,
    (load_after_save (runCalls emptyState [enqueueRecall, .dequeue "2026-01-01T09:00:30Z" .ok])
      (QueueCall.update "task-20260101-090000-aaaaa1" "completed" (some recallResult)
        "2026-01-01T09:00:31Z" .ok) { tasks := [] } rfl (by decide)).1,
    by decide⟩

/-- The loop of `UpdateTask` finds nothing when no task carries the id. -/
theorem updateFirst_none (taskID status : String) (result : Option TaskResult) (now : String)
    (ts : List QueuedTask) (h : ∀ t ∈ ts, t.ID ≠ taskID) :
    updateFirst taskID status result now ts = none := by
  induction ts with
  | nil => rfl
  | cons x rest ih =>
    rw [updateFirst, if_neg (h x (by simp)), ih (fun t ht => h t (by simp [ht]))]
    rfl

/-- C4: `UpdateTask` with an id that no task of the queue carries returns the
error "task not found: <id>", leaves the queue in memory as it is and does not
touch the file (no write is performed). -/
theorem UpdateTask_unknown_id (q : TaskQueue) (d : Disk) (taskID status : String)
    (result : Option TaskResult) (now : String) (w : WriteOutcome)
    (h : ∀ t ∈ q.tasks, t.ID ≠ taskID) :
    UpdateTask q d taskID status result now w = (q, d, some ("task not found: " ++ taskID)) := by
  simp only [UpdateTask, updateFirst_none taskID status result now q.tasks h]

/-- Witness of `UpdateTask_unknown_id`: an id the queue does not hold. -/
theorem UpdateTask_unknown_id_witness :
    (∀ t ∈ ({ tasks := [completedTask] } : TaskQueue).tasks,
      t.ID ≠ "task-20260101-235959-zzzzzz") ∧
    UpdateTask { tasks := [completedTask] } { content := none, writes := 3 }
        "task-20260101-235959-zzzzzz" "failed" none "2026-01-01T09:20:00Z" .ok =
      ({ tasks := [completedTask] }, { content := none, writes := 3 },
        some ("task not found: " ++ "task-20260101-235959-zzzzzz")) :=
  have h : ∀ t ∈ ({ tasks := [completedTask] } : TaskQueue).tasks,
      t.ID ≠ "task-20260101-235959-zzzzzz" := by
    intro t ht
    rw [List.mem_singleton.mp ht]
    decide
  ⟨h, UpdateTask_unknown_id _ _ _ _ _ _ _ h⟩

/-- The loop of `Dequeue` keeps `bestTask` when no task is pending. -/
theorem scanBest_no_pending (ts : List QueuedTask) (i : Nat) (best : Option Nat) (maxP : Int)
    (h : ∀ t ∈ ts, t.Status ≠ "pending") : scanBest ts i best maxP = best := by
  induction ts generalizing i with
  | nil => rfl
  | cons x rest ih =>
    rw [scanBest, if_neg (fun hc => h x (by simp) hc.1)]
    exact ih (i + 1) (fun t ht => h t (by simp [ht]))

/-- C5: `Dequeue` on a queue that is empty or holds no pending task returns nil
and leaves the queue, every task in it and the file unchanged. -/
theorem Dequeue_none_without_pending (q : TaskQueue) (d : Disk) (now : String)
    (w : WriteOutcome) (h : ∀ t ∈ q.tasks, t.Status ≠ "pending") :
    Dequeue q d now w = (q, d, none) := by
  simp only [Dequeue, scanBest_no_pending q.tasks 0 none (-1) h]

/-- Witness of `Dequeue_none_without_pending`: a queue whose only task is
completed. -/
theorem Dequeue_none_without_pending_witness :
    (∀ t ∈ ({ tasks := [completedTask] } : TaskQueue).tasks, t.Status ≠ "pending") ∧
    Dequeue { tasks := [completedTask] } { content := none, writes := 3 }
        "2026-01-01T09:20:00Z" .ok =
      ({ tasks := [completedTask] }, { content := none, writes := 3 }, none) :=
  have h : ∀ t ∈ ({ tasks := [completedTask] } : TaskQueue).tasks, t.Status ≠ "pending" := by
    intro t ht
    rw [List.mem_singleton.mp ht]
    decide
  ⟨h, Dequeue_none_without_pending _ _ _ _ h⟩

/-! ## Theorems: the decision step -/

/-- C6: when the oracle call returns an error, or its text does not decode as an
`ActionPlan`, `DecideNextAction` does not panic and returns, with a nil error,
the fallback plan; that plan is summarize with priority 8 when the state's
`NeedsSummarize` flag is set and idle with priority 1 otherwise. The history is
left as it was. -/
theorem DecideNextAction_falls_back (e : Engine) (env : DecideEnv) (state : SystemState)
    (prompt : Prompt) (hclient : e.hasLLMClient = true)
    (hfail : (∃ err, env.chatWithTools = .error err) ∨
      (∃ response toolCalls err, env.chatWithTools = .ok (response, toolCalls) ∧
        parseActionPlan env response = .error err)) :
    (∃ runs, DecideNextAction e env state prompt =
      .returned (some (fallbackDecision state)) none e.decisionHistory runs) ∧
    (state.MemoryState.NeedsSummarize = true →
      (fallbackDecision state).Action = "summarize" ∧ (fallbackDecision state).Priority = 8) ∧
    (state.MemoryState.NeedsSummarize = false →
      (fallbackDecision state).Action = "idle" ∧ (fallbackDecision state).Priority = 1) := by
  refine ⟨?_, ?_, ?_⟩
  · rcases hfail with ⟨err, h⟩ | ⟨response, toolCalls, err, h, hp⟩
    · exact ⟨[], by simp [DecideNextAction, hclient, h]⟩
    · exact ⟨_, by simp only [DecideNextAction, hclient, h, hp]; rfl⟩
  · intro h
    simp [fallbackDecision, h]
  · intro h
    simp [fallbackDecision, h]

/-- Witness of `DecideNextAction_falls_back`: an oracle that times out, on a
state that needs summarizing. -/
theorem DecideNextAction_falls_back_witness :
    sampleEngine.hasLLMClient = true ∧
    ((∃ err, failingOracle.chatWithTools = .error err) ∨
      (∃ response toolCalls err, failingOracle.chatWithTools = .ok (response, toolCalls) ∧
        parseActionPlan failingOracle response = .error err)) ∧
    ((∃ runs, DecideNextAction sampleEngine failingOracle crowdedState "当前状态：" =
      .returned (some (fallbackDecision crowdedState)) none sampleEngine.decisionHistory runs) ∧
    (crowdedState.MemoryState.NeedsSummarize = true →
      (fallbackDecision crowdedState).Action = "summarize" ∧
        (fallbackDecision crowdedState).Priority = 8) ∧
    (crowdedState.MemoryState.NeedsSummarize = false →
      (fallbackDecision crowdedState).Action = "idle" ∧
        (fallbackDecision crowdedState).Priority = 1)) :=
  have hfail : (∃ err, failingOracle.chatWithTools = .error err) ∨
      (∃ response toolCalls err, failingOracle.chatWithTools = .ok (response, toolCalls) ∧
        parseActionPlan failingOracle response = .error err) :=
    Or.inl ⟨"context deadline exceeded", rfl⟩
  ⟨rfl, hfail, DecideNextAction_falls_back sampleEngine failingOracle crowdedState "当前状态：" rfl
    hfail⟩

/-! ## Theorems: the task executor -/

/-- A task type outside the nine known ones reaches the default case. -/
theorem dispatch_unknown (env : ExecEnv) (task : Task) (h : task.Type_ ∉ knownTypes) :
    dispatch env task = none := by
  simp only [knownTypes, List.mem_cons, List.mem_singleton, List.not_mem_nil, or_false,
    not_or] at h
  obtain ⟨h1, h2, h3, h4, h5, h6, h7, h8, h9⟩ := h
  simp [dispatch, h1, h2, h3, h4, h5, h6, h7, h8, h9]

/-- What `Execute` does with a task of unknown type: it returns the error and no
result, and the task record is left marked running with its start time set. -/
theorem Execute_unknown_type (env : ExecEnv) (task : Task) (h : task.Type_ ∉ knownTypes) :
    Execute env task =
      .returned (markRunning task) none (some ("unknown task type: " ++ task.Type_)) :=
  Execute_unknown env task (dispatch_unknown env (markRunning task) h)

/-- C7, the code at the failing input: for a pending task of type "archive"
`Execute` returns the error "unknown task type: archive" and no result, but the
task is not left unchanged: its status has become running and its start time has
been set. -/
theorem Execute_unknown_type_mutates_task :
    Execute sampleEnv archiveTask =
      .returned
        { archiveTask with Status := "running", StartedAt := "2026-01-01T09:00:00Z" }
        none (some "unknown task type: archive") ∧
    archiveTask.Status = "pending" ∧
    archiveTask.StartedAt = "" ∧
    (Execute sampleEnv archiveTask).task.Status = "running" ∧
    (Execute sampleEnv archiveTask).task.StartedAt = "2026-01-01T09:00:00Z" := by
  refine ⟨?_, rfl, rfl, ?_, ?_⟩
  · exact Execute_unknown_type sampleEnv archiveTask (by decide)
  · rw [Execute_unknown_type sampleEnv archiveTask (by decide)]
    rfl
  · rw [Execute_unknown_type sampleEnv archiveTask (by decide)]
    rfl

/-- A successful `executeSummarize` reports "completed_at". -/
theorem executeSummarize_completedAt (env : ExecEnv) (task : Task)
    (h : (executeSummarize env task).2 = none) : HasCompletedAt (executeSummarize env task).1 := by
  unfold executeSummarize at h ⊢
  cases hs : env.summarizeAndRotate with
  | some err => simp [hs] at h
  | none => exact ⟨task.CreatedAt, by simp [List.lookup]⟩

/-- A successful `executeConsolidate` reports "completed_at". -/
theorem executeConsolidate_completedAt (env : ExecEnv) (task : Task)
    (h : (executeConsolidate env task).2 = none) :
    HasCompletedAt (executeConsolidate env task).1 := by
  unfold executeConsolidate at h ⊢
  split at h
  · rename_i topic content rest hsteps
    simp only [hsteps]
    cases hc : env.consolidate 0 topic content with
    | some err => simp [hc] at h
    | none => exact ⟨task.CreatedAt, by simp [List.lookup]⟩
  · simp at h

/-- A successful `executeRecall` reports "completed_at". -/
theorem executeRecall_completedAt (env : ExecEnv) (task : Task)
    (h : (executeRecall env task).2 = none) : HasCompletedAt (executeRecall env task).1 := by
  unfold executeRecall at h ⊢
  split at h
  · simp at h
  · rename_i query rest hsteps
    simp only [hsteps]
    cases hc : env.recallWithPreprocess query 5 with
    | error err => simp [hc] at h
    | ok count => exact ⟨task.CreatedAt, by simp [List.lookup]⟩

/-- A successful `executeLearn` reports "completed_at". -/
theorem executeLearn_completedAt (env : ExecEnv) (task : Task)
    (h : (executeLearn env task).2 = none) : HasCompletedAt (executeLearn env task).1 := by
  unfold executeLearn at h ⊢
  cases hb : env.buildIntegrated with
  | error err => simp [hb] at h
  | ok built =>
    obtain ⟨path, size⟩ := built
    cases hr : env.readIntegrated with
    | some err => simp [hb, hr] at h
    | none =>
      cases hc : env.chatLearn with
      | error err => simp [hb, hr, hc] at h
      | ok resp =>
        cases hu : env.unmarshalLearn (extractJSON resp) with
        | error err => simp [hb, hr, hc, hu] at h
        | ok plan =>
          simp only [hb, hr, hc, hu]
          exact ⟨env.now, by simp [List.lookup]⟩

/-- Handler `executeOptimize` reports "completed_at". -/
theorem executeOptimize_completedAt (env : ExecEnv) (task : Task) :
    HasCompletedAt (executeOptimize env task).1 :=
  ⟨task.CreatedAt, by simp [executeOptimize, List.lookup]⟩

/-- Handler `executeReflect` reports "completed_at". -/
theorem executeReflect_completedAt (env : ExecEnv) (task : Task) :
    HasCompletedAt (executeReflect env task).1 :=
  ⟨task.CreatedAt, by simp [executeReflect, List.lookup]⟩

/-- Handler `executeIdle` reports "completed_at". -/
theorem executeIdle_completedAt (env : ExecEnv) (task : Task) :
    HasCompletedAt (executeIdle env task).1 :=
  ⟨task.CreatedAt, by simp [executeIdle, List.lookup]⟩

/-- A successful `executeIntegrate` reports "completed_at". -/
theorem executeIntegrate_completedAt (env : ExecEnv) (task : Task)
    (h : (executeIntegrate env task).2 = none) : HasCompletedAt (executeIntegrate env task).1 := by
  unfold executeIntegrate at h ⊢
  cases hb : env.buildIntegrated with
  | error err => simp [hb] at h
  | ok built =>
    obtain ⟨path, size⟩ := built
    exact ⟨env.now, by simp [List.lookup]⟩

/-- The handler `executeCustom` delegates to reports "completed_at" when it
succeeds. -/
theorem dispatchInner_completedAt (env : ExecEnv) (action : String) (inner : Task)
    (h : (dispatchInner env action inner).2 = none) :
    HasCompletedAt (dispatchInner env action inner).1 := by
  unfold dispatchInner at h ⊢
  split_ifs at h ⊢
  · exact executeIntegrate_completedAt env inner h
  · exact executeSummarize_completedAt env inner h
  · exact executeConsolidate_completedAt env inner h
  · exact executeRecall_completedAt env inner h
  · exact executeLearn_completedAt env inner h
  · exact executeOptimize_completedAt env inner
  · exact executeReflect_completedAt env inner
  · exact executeIdle_completedAt env inner

/-- A successful `executeCustom` reports "completed_at". -/
theorem executeCustom_completedAt (env : ExecEnv) (task : Task)
    (h : (executeCustom env task).2 = none) : HasCompletedAt (executeCustom env task).1 := by
  unfold executeCustom at h ⊢
  by_cases hreq : customRequirement task.ActionPlan = ""
  · simp [hreq] at h
  · simp only [hreq, if_false] at h ⊢
    cases hc : env.chatCustom with
    | error err => simp [hc] at h
    | ok resp =>
      simp only [hc] at h ⊢
      cases hu : env.unmarshalCustom (extractJSON resp) with
      | ok parsed =>
        simp only [hu] at h ⊢
        exact dispatchInner_completedAt env _ _ h
      | error err =>
        simp only [hu] at h ⊢
        split_ifs at h ⊢ with hk
        exact dispatchInner_completedAt env _ _ h

/-- Whatever handler `Execute` dispatches to reports "completed_at" when it
succeeds. -/
theorem dispatch_completedAt (env : ExecEnv) (task : Task) (result : TaskResult)
    (h : dispatch env task = some (result, none)) : HasCompletedAt result := by
  unfold dispatch at h
  split_ifs at h <;> injection h with h
  · have := executeSummarize_completedAt env task (by rw [h])
    rwa [h] at this
  · have := executeConsolidate_completedAt env task (by rw [h])
    rwa [h] at this
  · have := executeRecall_completedAt env task (by rw [h])
    rwa [h] at this
  · have := executeLearn_completedAt env task (by rw [h])
    rwa [h] at this
  · have := executeOptimize_completedAt env task
    rwa [h] at this
  · have := executeReflect_completedAt env task
    rwa [h] at this
  · have := executeIdle_completedAt env task
    rwa [h] at this
  · have := executeIntegrate_completedAt env task (by rw [h])
    rwa [h] at this
  · have := executeCustom_completedAt env task (by rw [h])
    rwa [h] at this

/-- A task of a known type has a handler. -/
theorem dispatch_known (env : ExecEnv) (task : Task) (h : task.Type_ ∈ knownTypes) :
    ∃ hr, dispatch env task = some hr := by
  simp only [knownTypes, List.mem_cons, List.mem_singleton, List.not_mem_nil, or_false] at h
  unfold dispatch
  split_ifs <;> first | exact ⟨_, rfl⟩ | (exfalso; tauto)

/-- C8: for a task of a known type `Execute` returns. When the handler it
dispatches to succeeds, the task ends completed, with the handler's result as
its `Result` and the result's "completed_at" metric as its completion time, and
that result is returned with a nil error; when the handler returns an error, the
task ends failed with the result built from `success: false` and the error text,
and that result is returned with the error. In neither case is the task left
running. -/
theorem Execute_known_type (env : ExecEnv) (task : Task) (hknown : task.Type_ ∈ knownTypes) :
    ∃ result err, dispatch env (markRunning task) = some (result, err) ∧
      ((err = none ∧ ∃ completedAt,
          result.Metrics.lookup "completed_at" = some (.str completedAt) ∧
          Execute env task =
            .returned
              { markRunning task with
                Status := "completed", CompletedAt := completedAt, Result := some result }
              (some result) none) ∨
        (∃ e, err = some e ∧
          Execute env task =
            .returned
              { markRunning task with
                Status := "failed",
                Result := some { TaskResult.zero with Success := false, Error := e } }
              (some { TaskResult.zero with Success := false, Error := e }) (some e))) ∧
      (Execute env task).task.Status ≠ "running" := by
  obtain ⟨⟨result, err⟩, hd⟩ := dispatch_known env (markRunning task) hknown
  refine ⟨result, err, hd, ?_⟩
  cases err with
  | none =>
    obtain ⟨completedAt, hc⟩ := dispatch_completedAt env (markRunning task) result hd
    have hex := Execute_completed env task result completedAt hd hc
    refine ⟨Or.inl ⟨rfl, completedAt, hc, hex⟩, ?_⟩
    rw [hex]
    show "completed" ≠ "running"
    decide
  | some e =>
    have hex := Execute_failed env task result e hd
    refine ⟨Or.inr ⟨e, rfl, hex⟩, ?_⟩
    rw [hex]
    show "failed" ≠ "running"
    decide

/-- Witness of `Execute_known_type`: a fresh recall task. -/
theorem Execute_known_type_witness :
    (NewTask (recallPlan "go") "task-20260101-090000-aaaaa1" "2026-01-01T09:00:00Z").Type_ ∈
      knownTypes ∧
    ∃ result err,
      dispatch sampleEnv (markRunning
        (NewTask (recallPlan "go") "task-20260101-090000-aaaaa1" "2026-01-01T09:00:00Z")) =
        some (result, err) ∧
      ((err = none ∧ ∃ completedAt,
          result.Metrics.lookup "completed_at" = some (.str completedAt) ∧
          Execute sampleEnv
              (NewTask (recallPlan "go") "task-20260101-090000-aaaaa1" "2026-01-01T09:00:00Z") =
            .returned
              { markRunning
                  (NewTask (recallPlan "go") "task-20260101-090000-aaaaa1"
                    "2026-01-01T09:00:00Z") with
                Status := "completed", CompletedAt := completedAt, Result := some result }
              (some result) none) ∨
        (∃ e, err = some e ∧
          Execute sampleEnv
              (NewTask (recallPlan "go") "task-20260101-090000-aaaaa1" "2026-01-01T09:00:00Z") =
            .returned
              { markRunning
                  (NewTask (recallPlan "go") "task-20260101-090000-aaaaa1"
                    "2026-01-01T09:00:00Z") with
                Status := "failed",
                Result := some { TaskResult.zero with Success := false, Error := e } }
              (some { TaskResult.zero with Success := false, Error := e }) (some e))) ∧
      (Execute sampleEnv
        (NewTask (recallPlan "go") "task-20260101-090000-aaaaa1"
          "2026-01-01T09:00:00Z")).task.Status ≠ "running" :=
  ⟨by decide,
    Execute_known_type sampleEnv
      (NewTask (recallPlan "go") "task-20260101-090000-aaaaa1" "2026-01-01T09:00:00Z")
      (by decide)⟩

/-- The fallback classification of `executeCustom` runs the integrate handler on
an inner task with no steps. -/
theorem runClassified_integrate (env : ExecEnv) (task : Task) (requirement : String) :
    runClassified env task requirement { Action := "integrate", Steps := [] } =
      executeIntegrate env (innerTask "integrate" requirement [] task.CreatedAt) := by
  have hlow : TrimSpace (ToLower "integrate") = "integrate" := by decide
  simp [runClassified, hlow, dispatchInner]

/-- C9: for a custom task with a requirement, when the oracle answers and its
answer does not decode as a classification, `executeCustom` runs the integrate
handler on an inner task with action integrate and no steps if the requirement,
in lower case, contains "整合" or "system prompt"; otherwise it returns a failed
result whose error text carries the decoding error, together with that error. -/
theorem executeCustom_parse_failure (env : ExecEnv) (task : Task) (resp err : String)
    (hreq : customRequirement task.ActionPlan ≠ "")
    (hchat : env.chatCustom = .ok resp)
    (hparse : env.unmarshalCustom (extractJSON resp) = .error err) :
    ((Contains (ToLower (customRequirement task.ActionPlan)) "整合" = true ∨
        Contains (ToLower (customRequirement task.ActionPlan)) "system prompt" = true) →
      executeCustom env task =
        executeIntegrate env
          (innerTask "integrate" (customRequirement task.ActionPlan) [] task.CreatedAt)) ∧
    (¬ (Contains (ToLower (customRequirement task.ActionPlan)) "整合" = true ∨
        Contains (ToLower (customRequirement task.ActionPlan)) "system prompt" = true) →
      executeCustom env task =
        ({ TaskResult.zero with
            Success := false, Error := "LLM response parse failed: " ++ err }, some err)) := by
  constructor
  · intro hk
    simp only [executeCustom, hreq, if_false, hchat, hparse, if_pos hk]
    exact runClassified_integrate env task _
  · intro hk
    simp only [executeCustom, hreq, if_false, hchat, hparse, if_neg hk]

/-- Witness of `executeCustom_parse_failure`: a request to integrate the brain,
with an oracle whose answer is not JSON. -/
theorem executeCustom_parse_failure_witness :
    customRequirement integrationRequest.ActionPlan ≠ "" ∧
    sampleEnv.chatCustom = .ok "I cannot answer in JSON" ∧
    sampleEnv.unmarshalCustom (extractJSON "I cannot answer in JSON") =
      .error "invalid character 'I' looking for beginning of value" ∧
    (Contains (ToLower (customRequirement integrationRequest.ActionPlan)) "整合" = true ∨
      Contains (ToLower (customRequirement integrationRequest.ActionPlan)) "system prompt"
        = true) ∧
    (((Contains (ToLower (customRequirement integrationRequest.ActionPlan)) "整合" = true ∨
        Contains (ToLower (customRequirement integrationRequest.ActionPlan)) "system prompt"
          = true) →
      executeCustom sampleEnv integrationRequest =
        executeIntegrate sampleEnv
          (innerTask "integrate" (customRequirement integrationRequest.ActionPlan) []
            integrationRequest.CreatedAt)) ∧
    (¬ (Contains (ToLower (customRequirement integrationRequest.ActionPlan)) "整合" = true ∨
        Contains (ToLower (customRequirement integrationRequest.ActionPlan)) "system prompt"
          = true) →
      executeCustom sampleEnv integrationRequest =
        ({ TaskResult.zero with
            Success := false,
            Error := "LLM response parse failed: " ++
              "invalid character 'I' looking for beginning of value" },
          some "invalid character 'I' looking for beginning of value"))) :=
  ⟨by decide, rfl, rfl, Or.inl (by decide),
    executeCustom_parse_failure sampleEnv integrationRequest "I cannot answer in JSON"
      "invalid character 'I' looking for beginning of value" (by decide) rfl rfl⟩

/-! ## Theorems: the scheduler -/

/-- C10 fails as stated: with the two built-in skills registered, the first
`Start` arms two timers and a second `Start` on the same scheduler arms two
more, so four are armed. -/
theorem Start_twice_arms_four_timers :
    ((NewScheduler builtinRegistry).Start tenOClock).cron.timers.length = 2 ∧
    (((NewScheduler builtinRegistry).Start tenOClock).Start tenOClock).cron.timers.length = 4 ∧
    (((NewScheduler builtinRegistry).Start tenOClock).Start tenOClock).cron.timers.map
      (·.task.Name) =
      ["periodic-summarize", "daily-consolidate", "periodic-summarize", "daily-consolidate"] := by
  decide

/-- C10, amended: for a registry holding two skills scheduled "02:00" and
"23:00", `Start` on a new scheduler arms exactly two daily timers, one per skill,
and every further `Start` on the same scheduler arms two more, one per skill
again: `Start` does not remember what it has registered. -/
theorem Start_arms_two_timers_each_call (r : SkillRegistry) (n1 n2 : String) (a b : Skill)
    (hr : r.skills = [(n1, a), (n2, b)]) (ha : a.CronSchedule = "02:00")
    (hb : b.CronSchedule = "23:00") (clock1 clock2 : Nat → WallClock) :
    ((NewScheduler r).Start clock1).cron.timers.length = 2 ∧
    ((NewScheduler r).Start clock1).cron.timers.map (·.task.Name) = [a.Name, b.Name] ∧
    (((NewScheduler r).Start clock1).Start clock2).cron.timers.length = 4 ∧
    (((NewScheduler r).Start clock1).Start clock2).cron.timers.map (·.task.Name) =
      [a.Name, b.Name, a.Name, b.Name] := by
  have h2 : parseDailySchedule "02:00" = .ok (2, 0) := by rfl
  have h23 : parseDailySchedule "23:00" = .ok (23, 0) := by rfl
  have e2 : ("02:00" : String) ≠ "" := by decide
  have e23 : ("23:00" : String) ≠ "" := by decide
  simp [Scheduler.Start, NewScheduler, SkillRegistry.GetAllWithCron, hr, ha, hb, startLoop,
    h2, h23, e2, e23, SimpleCron.AddDailyTask]

/-- Witness of `Start_arms_two_timers_each_call`: the two built-in skills. -/
theorem Start_arms_two_timers_each_call_witness :
    builtinRegistry.skills =
      [("periodic-summarize", PeriodicSummarizeSkill none),
       ("daily-consolidate", DailyConsolidateSkill)] ∧
    (PeriodicSummarizeSkill none).CronSchedule = "02:00" ∧
    DailyConsolidateSkill.CronSchedule = "23:00" ∧
    (((NewScheduler builtinRegistry).Start tenOClock).cron.timers.length = 2 ∧
    ((NewScheduler builtinRegistry).Start tenOClock).cron.timers.map (·.task.Name) =
      [(PeriodicSummarizeSkill none).Name, DailyConsolidateSkill.Name] ∧
    (((NewScheduler builtinRegistry).Start tenOClock).Start tenOClock).cron.timers.length = 4 ∧
    (((NewScheduler builtinRegistry).Start tenOClock).Start tenOClock).cron.timers.map
      (·.task.Name) =
      [(PeriodicSummarizeSkill none).Name, DailyConsolidateSkill.Name,
       (PeriodicSummarizeSkill none).Name, DailyConsolidateSkill.Name]) :=
  ⟨rfl, rfl, rfl,
    Start_arms_two_timers_each_call builtinRegistry "periodic-summarize" "daily-consolidate"
      (PeriodicSummarizeSkill none) DailyConsolidateSkill rfl rfl rfl tenOClock tenOClock⟩

/-! ## Theorems: the task queue, further operations -/

/-- C12: `Enqueue` returns a nil error whatever the outcome of the file write;
it appends exactly one task at the end of the collection, with status pending,
the plan's action as type, the plan's priority, the given creator, the given id
and no result; every task already in the collection stays where it was,
unchanged; and the task returned is the appended one. -/
theorem Enqueue_appends_pending (q : TaskQueue) (d : Disk) (plan : ActionPlan)
    (createdBy id now : String) (w : WriteOutcome) :
    (Enqueue q d plan createdBy id now w).2.2.2 = none ∧
    (Enqueue q d plan createdBy id now w).1.tasks =
      q.tasks ++ [(Enqueue q d plan createdBy id now w).2.2.1] ∧
    (Enqueue q d plan createdBy id now w).2.2.1.Status = "pending" ∧
    (Enqueue q d plan createdBy id now w).2.2.1.Type_ = plan.Action ∧
    (Enqueue q d plan createdBy id now w).2.2.1.Priority = plan.Priority ∧
    (Enqueue q d plan createdBy id now w).2.2.1.CreatedBy = createdBy ∧
    (Enqueue q d plan createdBy id now w).2.2.1.ID = id ∧
    (Enqueue q d plan createdBy id now w).2.2.1.ActionPlan = some plan ∧
    (Enqueue q d plan createdBy id now w).2.2.1.Result = none ∧
    (Enqueue q d plan createdBy id now w).1.tasks.length = q.tasks.length + 1 ∧
    ∀ (i : Nat) (t : QueuedTask), q.tasks[i]? = some t →
      (Enqueue q d plan createdBy id now w).1.tasks[i]? = some t := by
  refine ⟨rfl, rfl, rfl, rfl, rfl, rfl, rfl, rfl, rfl, by simp [Enqueue], ?_⟩
  intro i t hi
  have hlt : i < q.tasks.length := by
    rcases Nat.lt_or_ge i q.tasks.length with h | h
    · exact h
    · rw [List.getElem?_eq_none h] at hi
      cases hi
  simp only [Enqueue]
  rw [List.getElem?_append_left hlt]
  exact hi

/-- What the loop of `UpdateTask` does when a task carries the id: the first such
task gets the status and the result, and the completion time when the status is
completed or failed; the slice is otherwise the same. -/
theorem updateFirst_some (taskID status : String) (result : Option TaskResult) (now : String)
    (ts : List QueuedTask) (h : ∃ t ∈ ts, t.ID = taskID) :
    ∃ (i : Nat) (t : QueuedTask), ts[i]? = some t ∧ t.ID = taskID ∧
      (∀ (j : Nat) (u : QueuedTask), j < i → ts[j]? = some u → u.ID ≠ taskID) ∧
      updateFirst taskID status result now ts =
        some (ts.set i
          { t with
            Status := status, Result := result,
            CompletedAt :=
              if status = "completed" ∨ status = "failed" then now else t.CompletedAt }) := by
  induction ts with
  | nil =>
    obtain ⟨t, ht, _⟩ := h
    cases ht
  | cons x rest ih =>
    by_cases hx : x.ID = taskID
    · refine ⟨0, x, List.getElem?_cons_zero, hx, ?_, ?_⟩
      · intro j u hj
        exact absurd hj (Nat.not_lt_zero j)
      · rw [updateFirst, if_pos hx]
        by_cases hst : status = "completed" ∨ status = "failed"
        · simp [hst]
        · simp [hst]
    · have hrest : ∃ t ∈ rest, t.ID = taskID := by
        obtain ⟨t, ht, hid⟩ := h
        rcases List.mem_cons.mp ht with h1 | h1
        · subst h1
          exact absurd hid hx
        · exact ⟨t, h1, hid⟩
      obtain ⟨i, t, hi, hid, hbefore, hupd⟩ := ih hrest
      refine ⟨i + 1, t, by simpa using hi, hid, ?_, ?_⟩
      · intro j u hj hju
        cases j with
        | zero =>
          simp only [List.getElem?_cons_zero, Option.some.injEq] at hju
          subst hju
          exact hx
        | succ k =>
          simp only [List.getElem?_cons_succ] at hju
          exact hbefore k u (Nat.lt_of_succ_lt_succ hj) hju
      · rw [updateFirst, if_neg hx, hupd]
        simp

/-- C14: for an id carried by a task of the queue, `UpdateTask(id, status,
result)` returns a nil error; the first task carrying the id gets the given
status and result, and its completion time is stamped exactly when the status
is completed or failed; every other field of that task and every other task
are unchanged. -/
theorem UpdateTask_known_id (q : TaskQueue) (d : Disk) (taskID status : String)
    (result : Option TaskResult) (now : String) (w : WriteOutcome)
    (h : ∃ t ∈ q.tasks, t.ID = taskID) :
    ∃ (i : Nat) (t : QueuedTask), q.tasks[i]? = some t ∧ t.ID = taskID ∧
      (∀ (j : Nat) (u : QueuedTask), j < i → q.tasks[j]? = some u → u.ID ≠ taskID) ∧
      (UpdateTask q d taskID status result now w).2.2 = none ∧
      (UpdateTask q d taskID status result now w).1.tasks =
        q.tasks.set i
          { t with
            Status := status, Result := result,
            CompletedAt :=
              if status = "completed" ∨ status = "failed" then now else t.CompletedAt } := by
  obtain ⟨i, t, hi, hid, hbefore, hupd⟩ := updateFirst_some taskID status result now q.tasks h
  refine ⟨i, t, hi, hid, hbefore, ?_, ?_⟩ <;> simp only [UpdateTask, hupd]

/-- Witness of `UpdateTask_known_id`: the completed recall task is reported
failed. -/
theorem UpdateTask_known_id_witness :
    (∃ t ∈ ({ tasks := [completedTask] } : TaskQueue).tasks,
      t.ID = "task-20260101-090000-aaaaa1") ∧
    ∃ (i : Nat) (t : QueuedTask),
      ({ tasks := [completedTask] } : TaskQueue).tasks[i]? = some t ∧
      t.ID = "task-20260101-090000-aaaaa1" ∧
      (∀ (j : Nat) (u : QueuedTask), j < i →
        ({ tasks := [completedTask] } : TaskQueue).tasks[j]? = some u →
        u.ID ≠ "task-20260101-090000-aaaaa1") ∧
      (UpdateTask { tasks := [completedTask] } { content := none, writes := 3 }
        "task-20260101-090000-aaaaa1" "failed" none "2026-01-01T09:30:00Z" .ok).2.2 = none ∧
      (UpdateTask { tasks := [completedTask] } { content := none, writes := 3 }
        "task-20260101-090000-aaaaa1" "failed" none "2026-01-01T09:30:00Z" .ok).1.tasks =
        ({ tasks := [completedTask] } : TaskQueue).tasks.set i
          { t with
            Status := "failed", Result := none,
            CompletedAt :=
              if ("failed" : String) = "completed" ∨ ("failed" : String) = "failed" then
                "2026-01-01T09:30:00Z"
              else t.CompletedAt } :=
  have h : ∃ t ∈ ({ tasks := [completedTask] } : TaskQueue).tasks,
      t.ID = "task-20260101-090000-aaaaa1" := ⟨completedTask, List.mem_singleton.mpr rfl, rfl⟩
  ⟨h, UpdateTask_known_id _ _ _ _ _ _ _ h⟩

/-- The loop of `ListTasks` adds to the result the first matching tasks of what
remains, as many as the limit still allows. -/
theorem listLoop_spec (statusFilter : String) (limit : Int) (remaining : List QueuedTask)
    (count : Int) (result : List QueuedTask) :
    listLoop statusFilter limit remaining count result =
      result ++ (remaining.filter fun t =>
        decide (statusFilter = "" ∨ t.Status = statusFilter)).take (limit - count).toNat := by
  induction remaining generalizing count result with
  | nil => simp [listLoop]
  | cons x rest ih =>
    rw [listLoop]
    by_cases hc : count < limit
    · rw [if_pos hc]
      by_cases hm : statusFilter = "" ∨ x.Status = statusFilter
      · rw [if_pos hm, ih]
        have hn : (limit - count).toNat = (limit - (count + 1)).toNat + 1 := by omega
        rw [hn, List.filter_cons_of_pos (by simpa using hm)]
        simp
      · rw [if_neg hm, ih, List.filter_cons_of_neg (by simpa using hm)]
    · rw [if_neg hc]
      have hn : (limit - count).toNat = 0 := by omega
      rw [hn]
      simp

/-- C15: `ListTasks(statusFilter, limit)` returns the first `limit` elements of
the reversed collection restricted to the tasks whose status equals the filter
(all tasks when the filter is empty); so it returns at most `limit` tasks, newest
first, each matching the filter, and skips no matching task that is newer than a
returned one. A limit of zero or less gives the empty list. -/
theorem ListTasks_spec (q : TaskQueue) (statusFilter : String) (limit : Int) :
    ListTasks q statusFilter limit =
      (q.tasks.reverse.filter fun t =>
        decide (statusFilter = "" ∨ t.Status = statusFilter)).take limit.toNat ∧
    (ListTasks q statusFilter limit).length ≤ limit.toNat ∧
    (∀ t ∈ ListTasks q statusFilter limit, statusFilter = "" ∨ t.Status = statusFilter) ∧
    (ListTasks q statusFilter limit).Sublist q.tasks.reverse := by
  have heq : ListTasks q statusFilter limit =
      (q.tasks.reverse.filter fun t =>
        decide (statusFilter = "" ∨ t.Status = statusFilter)).take limit.toNat := by
    rw [ListTasks, listLoop_spec]
    simp
  refine ⟨heq, ?_, ?_, ?_⟩
  · rw [heq]
    exact List.length_take_le _ _
  · intro t ht
    rw [heq] at ht
    have hf := List.mem_of_mem_take ht
    simpa using (List.mem_filter.mp hf).2
  · rw [heq]
    exact (List.take_sublist _ _).trans (List.filter_sublist _)

/-! ## Theorems: the decision history -/

/-- C16: after `appendDecisionHistory` the history consists of the last
min(20, n+2) messages of the previous history (of length n) followed by the new
user and assistant messages; it therefore holds at most 20 messages, and the
messages dropped are the oldest ones. -/
theorem appendDecisionHistory_bounded (history : List Message) (user assistant : Message) :
    appendDecisionHistory history user assistant =
      (history ++ [user, assistant]).drop
        ((history ++ [user, assistant]).length - min 20 (history.length + 2)) ∧
    (appendDecisionHistory history user assistant).length = min 20 (history.length + 2) ∧
    (appendDecisionHistory history user assistant).length ≤ 20 ∧
    (appendDecisionHistory history user assistant).IsSuffix (history ++ [user, assistant]) := by
  have hlen : (history ++ [user, assistant]).length = history.length + 2 := by simp
  have heq : appendDecisionHistory history user assistant =
      (history ++ [user, assistant]).drop
        ((history ++ [user, assistant]).length - min 20 (history.length + 2)) := by
    unfold appendDecisionHistory
    simp only [hlen]
    by_cases h : history.length + 2 > 20
    · rw [if_pos h]
      congr 1
      omega
    · rw [if_neg h]
      have h0 : history.length + 2 - min 20 (history.length + 2) = 0 := by omega
      rw [h0]
      rfl
  refine ⟨heq, ?_, ?_, ?_⟩
  · rw [heq, List.length_drop, hlen]
    omega
  · rw [heq, List.length_drop, hlen]
    omega
  · rw [heq]
    exact List.drop_suffix _ _

/-! ## Theorems: the control protocol -/

/-- C11: for every server state and whatever the arguments, `handleCommand`
answers the command "ping" with success and the message "pong", without data
and without changing the server; the response is written as
`{"success":true,"message":"pong"}`. -/
theorem handleCommand_ping {σ : Type} (h : CommandHandlers σ) (srv : σ) (args : List String) :
    handleCommand h srv { Command := "ping", Args := args } =
      ({ Success := true, Message := "pong", Data := none }, srv) ∧
    handleCommand h srv pingRequest =
      ({ Success := true, Message := "pong", Data := none }, srv) ∧
    marshalResponse (handleCommand h srv pingRequest).1 =
      "\x7b\"success\":true,\"message\":\"pong\"\x7d" := by
  have hp : ∀ a : List String, handleCommand h srv { Command := "ping", Args := a } =
      ({ Success := true, Message := "pong", Data := none }, srv) := by
    intro a
    simp [handleCommand]
  refine ⟨hp args, hp [], ?_⟩
  rw [pingRequest, hp []]
  show marshalResponse { Success := true, Message := "pong", Data := none } = _
  decide

/-! ## Theorems: task ids -/

/-- The time stamp of an id has fifteen characters. -/
theorem formatStamp_length (t : Clock) : (formatStamp t).length = 15 := by
  simp [formatStamp, fourDigits, twoDigits, String.length]

/-- The suffix of an id has as many characters as asked for. -/
theorem randomString_length (n : Nat) (draw : Nat → Nat) : (randomString n draw).length = n := by
  simp [randomString, String.length]

/-- Every character of the suffix is taken from the character set. -/
theorem randomString_charset (n : Nat) (draw : Nat → Nat) :
    ∀ c ∈ (randomString n draw).data, c ∈ charset := by
  intro c hc
  simp only [randomString, List.mem_map] at hc
  obtain ⟨i, _, hi⟩ := hc
  subst hi
  have hlt : draw i % charset.length < charset.length := Nat.mod_lt _ (by decide)
  rw [List.getD_eq_getElem _ _ hlt]
  exact List.getElem_mem _

/-- The character set is the lower-case letters and the digits. -/
theorem charset_alnum : ∀ c ∈ charset, c.isLower = true ∨ c.isDigit = true := by
  decide

/-- Two ids are equal only when both their time stamps and their suffixes are. -/
theorem generateTaskID_inj (t1 t2 : Clock) (d1 d2 : Nat → Nat)
    (h : generateTaskID t1 d1 = generateTaskID t2 d2) :
    formatStamp t1 = formatStamp t2 ∧ randomString 6 d1 = randomString 6 d2 := by
  have hd := congrArg String.data h
  simp only [generateTaskID, String.data_append] at hd
  rw [List.append_assoc, List.append_assoc, List.append_assoc, List.append_assoc] at hd
  have h1 := List.append_cancel_left hd
  have hlen : (formatStamp t1).data.length = (formatStamp t2).data.length := by
    have a := formatStamp_length t1
    have b := formatStamp_length t2
    simp only [String.length] at a b
    rw [a, b]
  obtain ⟨hs, hr⟩ := List.append_inj h1 hlen
  have hr2 := List.append_cancel_left hr
  exact ⟨String.ext hs, String.ext hr2⟩

/-- The ids in the queue after a run of `Enqueue` calls are the ids it held
followed by the generated ones, in order. -/
theorem taskIDs_enqueues (es : List EnqueueInput) (s : QState) :
    taskIDs (runCalls s (es.map EnqueueInput.call)) =
      taskIDs s ++ es.map fun e => generateTaskID e.clock e.draw := by
  induction es generalizing s with
  | nil => simp [runCalls]
  | cons e rest ih =>
    simp only [List.map_cons, runCalls, List.foldl_cons]
    have h := ih ((EnqueueInput.call e).apply s)
    simp only [runCalls] at h
    rw [h]
    simp [taskIDs, EnqueueInput.call, QueueCall.apply, Enqueue]

/-- Generated ids are pairwise distinct when the pairs of time stamp and suffix
behind them are. -/
theorem generated_nodup (es : List EnqueueInput)
    (h : (es.map fun e => (formatStamp e.clock, randomString 6 e.draw)).Nodup) :
    (es.map fun e => generateTaskID e.clock e.draw).Nodup := by
  induction es with
  | nil => simp
  | cons e rest ih =>
    simp only [List.map_cons, List.nodup_cons, List.mem_map, not_exists, not_and] at h ⊢
    refine ⟨?_, ih h.2⟩
    intro x hx heq
    obtain ⟨hs, hr⟩ := generateTaskID_inj x.clock e.clock x.draw e.draw heq
    exact h.1 x hx (by rw [hs, hr])

/-- C13 fails as stated: two `Enqueue` calls in the same second whose random
draws coincide give both tasks the same id. -/
theorem enqueue_same_second_same_draws_collide :
    taskIDs (runCalls emptyState [(enqueueAtNine 0).call, (enqueueAtNine 0).call]) =
      ["task-20260101-090000-aaaaaa", "task-20260101-090000-aaaaaa"] ∧
    ¬ (taskIDs (runCalls emptyState [(enqueueAtNine 0).call, (enqueueAtNine 0).call])).Nodup := by
  have h : taskIDs (runCalls emptyState [(enqueueAtNine 0).call, (enqueueAtNine 0).call]) =
      ["task-20260101-090000-aaaaaa", "task-20260101-090000-aaaaaa"] := by decide
  refine ⟨h, ?_⟩
  rw [h]
  decide

/-- C13, amended: every id `generateTaskID` produces is "task-" followed by the
fifteen-character time stamp (yyyymmdd-hhmmss), "-" and six characters drawn from
the lower-case letters and digits; and in every queue built from the empty queue
by `Enqueue` calls whose pairs of time stamp and random suffix are pairwise
distinct, no two tasks share an id. `Enqueue` itself does not look for an
existing task with the same id. -/
theorem task_ids_formed_and_distinct (es : List EnqueueInput)
    (hdistinct : (es.map fun e => (formatStamp e.clock, randomString 6 e.draw)).Nodup)
    (now : Clock) (draw : Nat → Nat) :
    (generateTaskID now draw = "task-" ++ formatStamp now ++ "-" ++ randomString 6 draw ∧
      (formatStamp now).length = 15 ∧
      (randomString 6 draw).length = 6 ∧
      ∀ c ∈ (randomString 6 draw).data, c ∈ charset ∧ (c.isLower = true ∨ c.isDigit = true)) ∧
    (taskIDs (runCalls emptyState (es.map EnqueueInput.call))).Nodup := by
  refine ⟨⟨rfl, formatStamp_length now, randomString_length 6 draw, ?_⟩, ?_⟩
  · intro c hc
    have hm := randomString_charset 6 draw c hc
    exact ⟨hm, charset_alnum c hm⟩
  · rw [taskIDs_enqueues]
    simpa [taskIDs, emptyState] using generated_nodup es hdistinct

/-- Witness of `task_ids_formed_and_distinct`: two `Enqueue` calls in the same
second with different draws. -/
theorem task_ids_formed_and_distinct_witness :
    ([enqueueAtNine 0, enqueueAtNine 1].map fun e =>
      (formatStamp e.clock, randomString 6 e.draw)).Nodup ∧
    ((generateTaskID nineOClock (fun _ => 35) =
        "task-" ++ formatStamp nineOClock ++ "-" ++ randomString 6 (fun _ => 35) ∧
      (formatStamp nineOClock).length = 15 ∧
      (randomString 6 (fun _ => 35)).length = 6 ∧
      ∀ c ∈ (randomString 6 (fun _ => 35)).data,
        c ∈ charset ∧ (c.isLower = true ∨ c.isDigit = true)) ∧
    (taskIDs (runCalls emptyState
      ([enqueueAtNine 0, enqueueAtNine 1].map EnqueueInput.call))).Nodup) :=
  ⟨by decide,
    task_ids_formed_and_distinct [enqueueAtNine 0, enqueueAtNine 1] (by decide) nineOClock
      (fun _ => 35)⟩

/-! ## Theorems: the custom handler -/

/-- The final `switch` of `executeCustom` runs one of the eight other handlers. -/
theorem dispatchInner_mem (env : ExecEnv) (action : String) (inner : Task) :
    ∃ h ∈ innerHandlers, dispatchInner env action inner = h env inner := by
  unfold dispatchInner innerHandlers
  split_ifs
  · exact ⟨executeIntegrate, by simp, rfl⟩
  · exact ⟨executeSummarize, by simp, rfl⟩
  · exact ⟨executeConsolidate, by simp, rfl⟩
  · exact ⟨executeRecall, by simp, rfl⟩
  · exact ⟨executeLearn, by simp, rfl⟩
  · exact ⟨executeOptimize, by simp, rfl⟩
  · exact ⟨executeReflect, by simp, rfl⟩
  · exact ⟨executeIdle, by simp, rfl⟩

/-- An action without a case of its own, "custom" among them, runs the idle
handler. -/
theorem dispatchInner_default (env : ExecEnv) (action : String) (inner : Task)
    (h : action ∉ innerActions) : dispatchInner env action inner = executeIdle env inner := by
  simp only [innerActions, List.mem_cons, List.mem_singleton, List.not_mem_nil, or_false,
    not_or] at h
  obtain ⟨h1, h2, h3, h4, h5, h6, h7⟩ := h
  simp [dispatchInner, h1, h2, h3, h4, h5, h6, h7]

/-- With a classification settled, `executeCustom` dispatches once on the
lowered action. -/
theorem runClassified_eq (env : ExecEnv) (task : Task) (requirement : String)
    (parsed : CustomActionResponse) :
    runClassified env task requirement parsed =
      dispatchInner env (innerAction parsed.Action)
        (innerTask (innerAction parsed.Action) requirement parsed.Steps task.CreatedAt) := by
  simp only [runClassified, innerAction]

/-- C17: for every classification the oracle gives, `executeCustom` hands the
inner task to exactly one of the eight handlers other than itself and returns
what that handler returns (the function is total: one oracle call, one handler
call, no call of `executeCustom`); an inner action without a case of its own,
in particular "custom", the empty action and any unrecognised one, is run by the
idle handler. -/
theorem executeCustom_one_level (env : ExecEnv) (task : Task) (resp : String)
    (parsed : CustomActionResponse)
    (hreq : customRequirement task.ActionPlan ≠ "")
    (hchat : env.chatCustom = .ok resp)
    (hparse : env.unmarshalCustom (extractJSON resp) = .ok parsed) :
    (∃ h ∈ innerHandlers,
      executeCustom env task =
        h env (innerTask (innerAction parsed.Action) (customRequirement task.ActionPlan)
          parsed.Steps task.CreatedAt)) ∧
    (innerAction parsed.Action ∉ innerActions →
      executeCustom env task =
        executeIdle env (innerTask (innerAction parsed.Action)
          (customRequirement task.ActionPlan) parsed.Steps task.CreatedAt)) ∧
    "custom" ∉ innerActions ∧ innerAction "" = "idle" ∧ "idle" ∉ innerActions := by
  have hex : executeCustom env task =
      dispatchInner env (innerAction parsed.Action)
        (innerTask (innerAction parsed.Action) (customRequirement task.ActionPlan)
          parsed.Steps task.CreatedAt) := by
    simp only [executeCustom, hreq, if_false, hchat, hparse]
    exact runClassified_eq env task _ parsed
  refine ⟨?_, ?_, by decide, by decide, by decide⟩
  · rw [hex]
    exact dispatchInner_mem env _ _
  · intro hn
    rw [hex]
    exact dispatchInner_default env _ _ hn

/-- Witness of `executeCustom_one_level`: the oracle classifies the request as
"custom" again, and the idle handler runs. -/
theorem executeCustom_one_level_witness :
    customRequirement integrationRequest.ActionPlan ≠ "" ∧
    innerAction "custom" ∉ innerActions ∧
    ((∃ h ∈ innerHandlers,
      executeCustom nestingEnv integrationRequest =
        h nestingEnv (innerTask (innerAction "custom")
          (customRequirement integrationRequest.ActionPlan) ["again"]
          integrationRequest.CreatedAt)) ∧
    (innerAction "custom" ∉ innerActions →
      executeCustom nestingEnv integrationRequest =
        executeIdle nestingEnv (innerTask (innerAction "custom")
          (customRequirement integrationRequest.ActionPlan) ["again"]
          integrationRequest.CreatedAt)) ∧
    "custom" ∉ innerActions ∧ innerAction "" = "idle" ∧ "idle" ∉ innerActions) :=
  ⟨by decide, by decide,
    executeCustom_one_level nestingEnv integrationRequest
      "\x7b\"action\":\"custom\",\"steps\":[\"again\"]\x7d"
      { Action := "custom", Steps := ["again"] } (by decide) rfl rfl⟩

/-! ## Theorems: the skill registry -/

/-- Removing the entries of one key leaves the lookups of the other keys alone. -/
theorem lookup_filter_ne {β : Type} (l : List (String × β)) (n m : String) (h : m ≠ n) :
    List.lookup m (l.filter fun kv => kv.1 ≠ n) = List.lookup m l := by
  induction l with
  | nil => rfl
  | cons x rest ih =>
    obtain ⟨k, v⟩ := x
    by_cases hk : k = n
    · have hmk : (m == k) = false := by
        rw [hk]
        simpa using h
      rw [List.filter_cons_of_neg (by simp [hk]), ih]
      simp only [List.lookup_cons, hmk]
    · rw [List.filter_cons_of_pos (by simp [hk])]
      simp only [List.lookup_cons, ih]

/-- After the entries of a key are removed the key is not found. -/
theorem lookup_filter_self {β : Type} (l : List (String × β)) (n : String) :
    List.lookup n (l.filter fun kv => kv.1 ≠ n) = none := by
  induction l with
  | nil => rfl
  | cons x rest ih =>
    obtain ⟨k, v⟩ := x
    by_cases hk : k = n
    · rw [List.filter_cons_of_neg (by simp [hk]), ih]
    · have hb : (n == k) = false := by
        simpa using fun h : n = k => hk h.symm
      rw [List.filter_cons_of_pos (by simp [hk])]
      simp only [List.lookup_cons, hb, ih]

/-- A key that is found has an entry. -/
theorem mem_of_lookup {β : Type} (l : List (String × β)) (n : String) (v : β)
    (h : List.lookup n l = some v) : (n, v) ∈ l := by
  induction l with
  | nil => simp at h
  | cons x rest ih =>
    obtain ⟨k, w⟩ := x
    by_cases hk : n = k
    · subst hk
      simp [List.lookup_cons] at h
      simp [h]
    · have hb : (n == k) = false := by simpa using hk
      simp [List.lookup_cons, hb] at h
      exact List.mem_cons_of_mem _ (ih h)

/-- A key without an entry is not found. -/
theorem lookup_none_of_absent {β : Type} (l : List (String × β)) (n : String)
    (h : ∀ kv ∈ l, kv.1 ≠ n) : List.lookup n l = none := by
  cases hl : List.lookup n l with
  | none => rfl
  | some v => exact absurd rfl (h (n, v) (mem_of_lookup l n v hl))

/-- The flag `SetSkillEnabled` writes is the one read back for the name, and the
flags of the other names stay. -/
theorem IsSkillEnabled_set (sc : SkillConfig) (n m : String) (b : Bool) :
    (sc.SetSkillEnabled n b).IsSkillEnabled m = if m = n then b else sc.IsSkillEnabled m := by
  by_cases h : m = n
  · subst h
    simp [SkillConfig.SetSkillEnabled, SkillConfig.IsSkillEnabled, List.lookup_cons]
  · have hb : (m == n) = false := by simpa using h
    rw [if_neg h]
    simp only [SkillConfig.SetSkillEnabled, SkillConfig.IsSkillEnabled, List.lookup_cons, hb,
      lookup_filter_ne sc.Enabled n m h]

/-- Every call keeps the registry consistent. -/
theorem apply_consistent (r : SkillRegistry) (c : RegistryCall) (hr : r.Consistent) :
    (c.apply r).Consistent := by
  cases c with
  | register skill =>
    simp only [RegistryCall.apply, SkillRegistry.Register]
    by_cases hn : skill.Name = ""
    · simpa [hn] using hr
    · by_cases he : r.config.IsSkillEnabled skill.Name = false
      · simpa [hn, he] using hr
      · cases hl : r.skills.lookup skill.Name with
        | some existing => simpa [hn, he, hl] using hr
        | none =>
          simp only [hn, he, hl, if_false]
          intro kv hkv
          rcases List.mem_append.mp hkv with h | h
          · exact hr kv h
          · rw [List.mem_singleton.mp h]
            exact ⟨rfl, hn, by simpa using he⟩
  | enable name saved =>
    intro kv hkv
    obtain ⟨h1, h2, h3⟩ := hr kv hkv
    refine ⟨h1, h2, ?_⟩
    show (r.config.SetSkillEnabled name true).IsSkillEnabled kv.1 = true
    rw [IsSkillEnabled_set]
    split_ifs
    · rfl
    · exact h3
  | disable name saved =>
    intro kv hkv
    have hkv2 : kv ∈ r.skills.filter fun kv => kv.1 ≠ name := hkv
    obtain ⟨hmem, hne⟩ := List.mem_filter.mp hkv2
    obtain ⟨h1, h2, h3⟩ := hr kv hmem
    refine ⟨h1, h2, ?_⟩
    show (r.config.SetSkillEnabled name false).IsSkillEnabled kv.1 = true
    rw [IsSkillEnabled_set, if_neg (by simpa using hne)]
    exact h3

/-- Every registry reached from a consistent one is consistent. -/
theorem runRegistry_consistent (cs : List RegistryCall) (r : SkillRegistry)
    (hr : r.Consistent) : (runRegistry r cs).Consistent := by
  induction cs generalizing r with
  | nil => exact hr
  | cons c rest ih => exact ih (c.apply r) (apply_consistent r c hr)

/-- The registry `NewSkillRegistry` builds is consistent. -/
theorem NewSkillRegistry_consistent (config : SkillConfig) :
    (NewSkillRegistry config).Consistent := by
  intro kv hkv
  cases hkv

/-- A key looked up at the end of a list that does not hold it. -/
theorem lookup_append_absent {β : Type} (l : List (String × β)) (n : String) (v : β)
    (h : List.lookup n l = none) : List.lookup n (l ++ [(n, v)]) = some v := by
  induction l with
  | nil => simp [List.lookup_cons]
  | cons x rest ih =>
    obtain ⟨k, w⟩ := x
    by_cases hk : n = k
    · subst hk
      simp [List.lookup_cons] at h
    · have hb : (n == k) = false := by simpa using hk
      simp only [List.lookup_cons, hb] at h
      simp [List.lookup_cons, hb, ih h]

/-- C18: in every registry reached from `NewSkillRegistry` by `Register`,
`EnableSkill` and `DisableSkill` calls, `Register(skill)` adds the skill under
its name, with a nil error, when the name is not empty, the configuration allows
it (a name without an entry is allowed) and no skill of that name is registered,
and leaves the registry as it is in every other case; registering a name that is
already present returns the error "skill <name> already registered". -/
theorem Register_spec (config : SkillConfig) (cs : List RegistryCall) (r : SkillRegistry)
    (hr : r = runRegistry (NewSkillRegistry config) cs) (skill : Skill) :
    ((skill.Name ≠ "" ∧ r.config.IsSkillEnabled skill.Name = true ∧ r.Get skill.Name = none) →
      r.Register skill = ({ r with skills := r.skills ++ [(skill.Name, skill)] }, none) ∧
      (r.Register skill).1.Get skill.Name = some skill) ∧
    (¬ (skill.Name ≠ "" ∧ r.config.IsSkillEnabled skill.Name = true ∧
        r.Get skill.Name = none) →
      (r.Register skill).1 = r) ∧
    (∀ existing, r.Get skill.Name = some existing →
      r.Register skill = (r, some ("skill " ++ skill.Name ++ " already registered"))) ∧
    (config.Enabled.lookup skill.Name = none →
      (NewSkillRegistry config).config.IsSkillEnabled skill.Name = true) := by
  have hcons : r.Consistent := by
    rw [hr]
    exact runRegistry_consistent cs _ (NewSkillRegistry_consistent config)
  refine ⟨?_, ?_, ?_, ?_⟩
  · rintro ⟨hn, he, hg⟩
    have hl : r.skills.lookup skill.Name = none := hg
    have hreg : r.Register skill =
        ({ r with skills := r.skills ++ [(skill.Name, skill)] }, none) := by
      simp [SkillRegistry.Register, hn, he, hl]
    refine ⟨hreg, ?_⟩
    rw [hreg]
    exact lookup_append_absent r.skills skill.Name skill hl
  · intro hnot
    simp only [SkillRegistry.Register]
    by_cases hn : skill.Name = ""
    · simp [hn]
    · by_cases he : r.config.IsSkillEnabled skill.Name = false
      · simp [hn, he]
      · cases hl : r.skills.lookup skill.Name with
        | some existing => simp [hn, he, hl]
        | none => exact absurd ⟨hn, by simpa using he, hl⟩ hnot
  · intro existing hg
    have hmem := mem_of_lookup r.skills skill.Name existing hg
    obtain ⟨_, hne, hen⟩ := hcons _ hmem
    have hl : r.skills.lookup skill.Name = some existing := hg
    simp [SkillRegistry.Register, show skill.Name ≠ "" from hne,
      show r.config.IsSkillEnabled skill.Name = true from hen, hl]
  · intro hl
    simp [NewSkillRegistry, SkillConfig.IsSkillEnabled, hl]

/-- Witness of `Register_spec`: the registry holding the two built-in skills; a
second `Register` of the daily skill is refused. -/
theorem Register_spec_witness :
    builtinRegistry = runRegistry (NewSkillRegistry { Enabled := [] }) startupCalls ∧
    builtinRegistry.Get DailyConsolidateSkill.Name = some DailyConsolidateSkill ∧
    builtinRegistry.Register DailyConsolidateSkill =
      (builtinRegistry, some "skill daily-consolidate already registered") :=
  have hr : builtinRegistry = runRegistry (NewSkillRegistry { Enabled := [] }) startupCalls :=
    rfl
  ⟨hr, rfl,
    (Register_spec { Enabled := [] } startupCalls builtinRegistry hr
      DailyConsolidateSkill).2.2.1 DailyConsolidateSkill rfl⟩

/-- A call that is not a `Register` adds no entry to the map. -/
theorem apply_toggle_skills (r : SkillRegistry) (c : RegistryCall) (hc : c.isToggle = true) :
    ∀ kv ∈ (c.apply r).skills, kv ∈ r.skills := by
  cases c with
  | register skill => simp [RegistryCall.isToggle] at hc
  | enable name saved =>
    intro kv hkv
    exact hkv
  | disable name saved =>
    intro kv hkv
    have hkv2 : kv ∈ r.skills.filter fun kv => kv.1 ≠ name := hkv
    exact (List.mem_filter.mp hkv2).1

/-- A run without `Register` calls adds no entry to the map. -/
theorem runRegistry_toggle_skills (cs : List RegistryCall) (r : SkillRegistry)
    (hcs : ∀ c ∈ cs, c.isToggle = true) :
    ∀ kv ∈ (runRegistry r cs).skills, kv ∈ r.skills := by
  induction cs generalizing r with
  | nil =>
    intro kv hkv
    exact hkv
  | cons c rest ih =>
    intro kv hkv
    have h1 := ih (c.apply r) (fun c1 h1 => hcs c1 (by simp [h1])) kv hkv
    exact apply_toggle_skills r c (hcs c (by simp)) kv h1

/-- Every tool `buildDecisionTools` offers is named after a skill of the list. -/
theorem toolsLoop_names (describe : String → Option String) (skills : List Skill) :
    ∀ tool ∈ toolsLoop describe skills,
      ∃ s ∈ skills, tool.Function.Name = "skill_" ++ s.Name := by
  induction skills with
  | nil =>
    intro tool ht
    cases ht
  | cons x rest ih =>
    intro tool ht
    rw [toolsLoop] at ht
    by_cases hx : x.Name = ""
    · rw [if_pos hx] at ht
      obtain ⟨s1, hs, hn⟩ := ih tool ht
      exact ⟨s1, by simp [hs], hn⟩
    · rw [if_neg hx] at ht
      rcases List.mem_cons.mp ht with h | h
      · exact ⟨x, by simp, by rw [h]⟩
      · obtain ⟨s1, hs, hn⟩ := ih tool h
        exact ⟨s1, by simp [hs], hn⟩

/-- Every timer `Start` leaves armed was armed before or runs a skill of the
list. -/
theorem startLoop_tasks (clock : Nat → WallClock) (skills : List Skill) (k : Nat) (cron : SimpleCron) :
    ∀ timer ∈ (startLoop clock skills k cron).timers,
      timer ∈ cron.timers ∨ timer.task ∈ skills := by
  induction skills generalizing k cron with
  | nil =>
    intro timer ht
    exact Or.inl ht
  | cons x rest ih =>
    intro timer ht
    rw [startLoop] at ht
    by_cases hx : x.CronSchedule = ""
    · rw [if_pos hx] at ht
      rcases ih (k + 1) cron timer ht with h | h
      · exact Or.inl h
      · exact Or.inr (by simp [h])
    · rw [if_neg hx] at ht
      cases hp : parseDailySchedule x.CronSchedule with
      | error e =>
        simp only [hp] at ht
        rcases ih (k + 1) cron timer ht with h | h
        · exact Or.inl h
        · exact Or.inr (by simp [h])
      | ok hm =>
        obtain ⟨hour, minute⟩ := hm
        simp only [hp] at ht
        rcases ih (k + 1) _ timer ht with h | h
        · simp only [SimpleCron.AddDailyTask, List.mem_append, List.mem_singleton] at h
          rcases h with h | h
          · exact Or.inl h
          · exact Or.inr (by simp [h])
        · exact Or.inr (by simp [h])

/-- Prefixing a name with "skill_" loses nothing. -/
theorem skill_prefix_inj (a b : String) (h : "skill_" ++ a = "skill_" ++ b) : a = b := by
  have hd := congrArg String.data h
  simp only [String.data_append] at hd
  exact String.ext (List.append_cancel_left hd)

/-- In a consistent registry without an entry under `name`, no listed skill
bears the name. -/
theorem absent_names (r : SkillRegistry) (name : String) (hc : r.Consistent)
    (ha : ∀ kv ∈ r.skills, kv.1 ≠ name) : ∀ s ∈ r.ListSkills, s.Name ≠ name := by
  intro s hs
  simp only [SkillRegistry.ListSkills, List.mem_map] at hs
  obtain ⟨kv, hkv, rfl⟩ := hs
  rw [(hc kv hkv).1]
  exact ha kv hkv

/-! ## Theorems: the first delay of a daily timer -/

/-- C20 fails as stated: at 10:00:00 sharp a task asked for 10:00 is armed with a
delay of zero, for today's instant, which is no longer in the future; the delay
is not greater than zero and tomorrow's instant is not chosen. And on a day of 25
hours the delay is not bounded by 24 hours: at 00:00 a task asked for 23:59 is
armed 24 hours and 59 minutes ahead, and at 23:30 a task asked for 00:00 gets
the instant 24 hours after today's 00:00, which lies 30 minutes back. -/
theorem AddDailyTask_at_the_instant_arms_zero_delay :
    ((SimpleCron.mk []).AddDailyTask 10 0 DailyConsolidateSkill (tenOClock 0)).timers.map
      (·.delay) = [0] ∧
    (tenOClock 0).today 10 0 = (tenOClock 0).now ∧
    ¬ (0 < firstDelay 10 0 (tenOClock 0)) ∧
    ((SimpleCron.mk []).AddDailyTask 23 59 DailyConsolidateSkill fallBackMidnight).timers.map
      (·.delay) = [24 * 3600 * 1000000000 + 59 * 60 * 1000000000] ∧
    dayNanos < firstDelay 23 59 fallBackMidnight ∧
    ((SimpleCron.mk []).AddDailyTask 0 0 DailyConsolidateSkill fallBackLateEvening).timers.map
      (·.delay) = [-(30 * 60 * 1000000000)] := by
  decide

/-- In a zone without change today's instant lies less than 24 hours from now. -/
theorem fixedZone_today_near (offset now hour minute : Int) (hh : 0 ≤ hour ∧ hour ≤ 23)
    (hm : 0 ≤ minute ∧ minute ≤ 59) :
    (fixedZone offset now).now - dayNanos < (fixedZone offset now).today hour minute ∧
      (fixedZone offset now).today hour minute < (fixedZone offset now).now + dayNanos := by
  obtain ⟨hh0, hh1⟩ := hh
  obtain ⟨hm0, hm1⟩ := hm
  have hday : dayNanos = 86400000000000 := by decide
  have ht : todayAt hour minute = hour * 3600000000000 + minute * 60000000000 := by
    unfold todayAt
    ring
  simp only [fixedZone, ht, hday]
  constructor <;> omega

/-- The delay when today's instant lies less than 24 hours from now. -/
theorem firstDelay_near (hour minute : Int) (clock : WallClock)
    (h1 : clock.now - dayNanos < clock.today hour minute)
    (h2 : clock.today hour minute < clock.now + dayNanos) :
    (clock.now ≤ clock.today hour minute →
      firstDelay hour minute clock = clock.today hour minute - clock.now) ∧
    (clock.today hour minute < clock.now →
      firstDelay hour minute clock = clock.today hour minute + dayNanos - clock.now) ∧
    0 ≤ firstDelay hour minute clock ∧ firstDelay hour minute clock < dayNanos ∧
    (firstDelay hour minute clock = 0 ↔ clock.today hour minute = clock.now) := by
  have hday : dayNanos = 86400000000000 := by decide
  rw [hday] at h1 h2
  have hsat : ∀ d : Int, -86400000000000 < d → d < 86400000000000 → satDuration d = d := by
    intro d hd1 hd2
    unfold satDuration
    rw [if_neg (by omega), if_neg (by omega)]
  refine ⟨?_, ?_, ?_, ?_, ?_⟩
  · intro h
    unfold firstDelay
    rw [if_neg (not_lt.mpr h), hsat _ (by omega) (by omega)]
  · intro h
    unfold firstDelay
    rw [if_pos h, hday, hsat _ (by omega) (by omega)]
  · unfold firstDelay
    split_ifs with h
    · rw [hday, hsat _ (by omega) (by omega)]
      omega
    · rw [hsat _ (by omega) (by omega)]
      omega
  · unfold firstDelay
    split_ifs with h
    · rw [hday, hsat _ (by omega) (by omega)]
      omega
    · rw [hsat _ (by omega) (by omega), hday]
      omega
  · unfold firstDelay
    split_ifs with h
    · rw [hday, hsat _ (by omega) (by omega)]
      constructor <;> intro h3 <;> omega
    · rw [hsat _ (by omega) (by omega)]
      constructor <;> intro h3 <;> omega

/-- C20, amended: for every clock and every hour and minute, `AddDailyTask` arms
one timer whose first delay is target - now, where target is today's
hour:minute:00 (as `time.Date` places it in the local zone) when that instant is
not before `now` (it is still to come or is `now` itself) and the instant 24
hours after it otherwise. Whenever today's hour:minute:00 lies less than 24 hours
from `now`, the delay is at least 0, less than 24 hours, and 0 exactly when `now`
is the scheduled instant; and that is the case at every instant of a zone
without change, whose days are 24 hours long, for every hour in 0..23 and minute
in 0..59. -/
theorem AddDailyTask_first_delay (sc : SimpleCron) (hour minute : Int) (task : Skill)
    (clock : WallClock) :
    (sc.AddDailyTask hour minute task clock).timers =
      sc.timers ++ [{ delay := firstDelay hour minute clock, task := task }] ∧
    (clock.now ≤ clock.today hour minute →
      firstDelay hour minute clock = satDuration (clock.today hour minute - clock.now)) ∧
    (clock.today hour minute < clock.now →
      firstDelay hour minute clock =
        satDuration (clock.today hour minute + dayNanos - clock.now)) ∧
    (clock.now - dayNanos < clock.today hour minute →
      clock.today hour minute < clock.now + dayNanos →
      (clock.now ≤ clock.today hour minute →
        firstDelay hour minute clock = clock.today hour minute - clock.now) ∧
      (clock.today hour minute < clock.now →
        firstDelay hour minute clock = clock.today hour minute + dayNanos - clock.now) ∧
      0 ≤ firstDelay hour minute clock ∧ firstDelay hour minute clock < dayNanos ∧
      (firstDelay hour minute clock = 0 ↔ clock.today hour minute = clock.now)) ∧
    (∀ offset now : Int, 0 ≤ hour ∧ hour ≤ 23 → 0 ≤ minute ∧ minute ≤ 59 →
      ((fixedZone offset now).now - dayNanos < (fixedZone offset now).today hour minute ∧
        (fixedZone offset now).today hour minute < (fixedZone offset now).now + dayNanos) ∧
      0 ≤ firstDelay hour minute (fixedZone offset now) ∧
      firstDelay hour minute (fixedZone offset now) < dayNanos ∧
      (firstDelay hour minute (fixedZone offset now) = 0 ↔
        (fixedZone offset now).today hour minute = now)) := by
  refine ⟨rfl, ?_, ?_, firstDelay_near hour minute clock, ?_⟩
  · intro h
    unfold firstDelay
    rw [if_neg (not_lt.mpr h)]
  · intro h
    unfold firstDelay
    rw [if_pos h]
  · intro offset now hh hm
    have hnear := fixedZone_today_near offset now hour minute hh hm
    have hd := firstDelay_near hour minute (fixedZone offset now) hnear.1 hnear.2
    exact ⟨hnear, hd.2.2.1, hd.2.2.2.1, hd.2.2.2.2⟩

/-- Witness of `AddDailyTask_first_delay`: at 10:00 a task asked for 02:00 is
armed sixteen hours ahead, and in a zone two hours ahead of UTC, where it is
12:00 then, fourteen hours ahead. -/
theorem AddDailyTask_first_delay_witness :
    firstDelay 2 0 (tenOClock 0) = 16 * 3600 * 1000000000 ∧
    firstDelay 2 0 (fixedZone (2 * 3600 * 1000000000) (10 * 3600 * 1000000000)) =
      14 * 3600 * 1000000000 ∧
    ((fixedZone 0 (10 * 3600 * 1000000000)).now - dayNanos <
        (fixedZone 0 (10 * 3600 * 1000000000)).today 2 0 ∧
      (fixedZone 0 (10 * 3600 * 1000000000)).today 2 0 <
        (fixedZone 0 (10 * 3600 * 1000000000)).now + dayNanos) ∧
    0 ≤ firstDelay 2 0 (fixedZone 0 (10 * 3600 * 1000000000)) ∧
    firstDelay 2 0 (fixedZone 0 (10 * 3600 * 1000000000)) < dayNanos ∧
    (firstDelay 2 0 (fixedZone 0 (10 * 3600 * 1000000000)) = 0 ↔
      (fixedZone 0 (10 * 3600 * 1000000000)).today 2 0 = 10 * 3600 * 1000000000) :=
  ⟨by decide, by decide,
    (AddDailyTask_first_delay (SimpleCron.mk []) 2 0 (PeriodicSummarizeSkill none)
      (tenOClock 0)).2.2.2.2 0 (10 * 3600 * 1000000000) (by decide) (by decide)⟩

/-! ## Theorems: the schedule format -/

theorem splitOnRune_ne_nil (sep : Char) (l : List Char) : splitOnRune sep l ≠ [] := by
  induction l with
  | nil => simp [splitOnRune]
  | cons c cs ih =>
    unfold splitOnRune
    split_ifs
    · simp
    · cases h : splitOnRune sep cs <;> simp

theorem splitOnRune_absent (sep : Char) (l : List Char) (h : sep ∉ l) :
    splitOnRune sep l = [l] := by
  induction l with
  | nil => rfl
  | cons c cs ih =>
    have hc : c ≠ sep := fun e => h (by simp [e])
    have hcs : sep ∉ cs := fun e => h (by simp [e])
    rw [splitOnRune, if_neg hc, ih hcs]

theorem splitOnRune_two (sep : Char) (a b : List Char) (ha : sep ∉ a) (hb : sep ∉ b) :
    splitOnRune sep (a ++ sep :: b) = [a, b] := by
  induction a with
  | nil => simp [splitOnRune, splitOnRune_absent sep b hb]
  | cons c cs ih =>
    have hc : c ≠ sep := fun e => ha (by simp [e])
    have hcs : sep ∉ cs := fun e => ha (by simp [e])
    rw [List.cons_append, splitOnRune, if_neg hc, ih hcs]

theorem twoDigits_no_colon : ∀ n : Nat, n < 100 → ':' ∉ twoDigits n := by
  decide

theorem sscanInt_twoDigits : ∀ n : Nat, n < 100 → sscanInt (String.mk (twoDigits n)) = some (n : Int) := by
  decide

theorem parseDailySchedule_ok_inv (s : String) (h m : Int)
    (hs : parseDailySchedule s = .ok (h, m)) :
    (0 ≤ h ∧ h ≤ 23 ∧ 0 ≤ m ∧ m ≤ 59) ∧
      ∃ hourPart minutePart, splitOnRune ':' s.data = [hourPart, minutePart] ∧
        sscanInt (String.mk hourPart) = some h ∧ sscanInt (String.mk minutePart) = some m := by
  unfold parseDailySchedule at hs
  split at hs
  · rename_i hourPart minutePart hsplit
    split at hs
    · cases hs
    · rename_i h1 hh
      split at hs
      · cases hs
      · rename_i m1 hm
        split_ifs at hs with hr
        injection hs with hs
        injection hs with e1 e2
        subst e1 e2
        refine ⟨by omega, hourPart, minutePart, hsplit, hh, hm⟩
  · cases hs

theorem parseDailySchedule_fields (s : String)
    (hs : (splitOnRune ':' s.data).length ≠ 2) :
    parseDailySchedule s = .error "invalid schedule format, expected HH:MM" := by
  unfold parseDailySchedule
  split
  · rename_i hourPart minutePart hsplit
    rw [hsplit] at hs
    simp at hs
  · rfl

theorem parseDailySchedule_hhmm (hour minute : Nat) (hh : hour < 24) (hm : minute < 60) :
    parseDailySchedule (hhmm hour minute) = .ok ((hour : Int), (minute : Int)) := by
  have hsplit : splitOnRune ':' (hhmm hour minute).data = [twoDigits hour, twoDigits minute] := by
    show splitOnRune ':' (twoDigits hour ++ [':'] ++ twoDigits minute) = _
    rw [List.append_assoc]
    exact splitOnRune_two ':' _ _ (twoDigits_no_colon hour (by omega))
      (twoDigits_no_colon minute (by omega))
  unfold parseDailySchedule
  rw [hsplit]
  simp only [sscanInt_twoDigits hour (by omega), sscanInt_twoDigits minute (by omega)]
  rw [if_neg (by omega)]

/-- C21 (the code diverges): the fields are read with `fmt.Sscanf("%d")`, so
texts that are not of the form `HH:MM` are accepted as schedules: one-digit
fields, a leading space or a sign, more than two digits, and any characters
after the digits of a field ("02:00abc" gives 2:00, "1_0:00" gives 1:00). The
rest is as claimed: every text made of a two-digit hour in 00..23, a colon and a
two-digit minute in 00..59 gives that hour and minute; a success always returns
numbers in 0..23 and 0..59 read from exactly two colon-separated fields; another
number of fields, a field no number is read from, and a number out of range are
refused. -/
theorem parseDailySchedule_accepts_loose_text :
    parseDailySchedule "02:00abc" = .ok (2, 0) ∧
    parseDailySchedule "2:5" = .ok (2, 5) ∧
    parseDailySchedule " 2:+5" = .ok (2, 5) ∧
    parseDailySchedule "007:030" = .ok (7, 30) ∧
    parseDailySchedule "1_0:00" = .ok (1, 0) ∧
    parseDailySchedule "23:59 daily" = .ok (23, 59) ∧
    (∀ hour minute : Nat, hour < 24 → minute < 60 →
      parseDailySchedule (hhmm hour minute) = .ok ((hour : Int), (minute : Int))) ∧
    (∀ (s : String) (h m : Int), parseDailySchedule s = .ok (h, m) →
      (0 ≤ h ∧ h ≤ 23 ∧ 0 ≤ m ∧ m ≤ 59) ∧
        ∃ hourPart minutePart, splitOnRune ':' s.data = [hourPart, minutePart] ∧
          sscanInt (String.mk hourPart) = some h ∧ sscanInt (String.mk minutePart) = some m) ∧
    (∀ s : String, (splitOnRune ':' s.data).length ≠ 2 →
      parseDailySchedule s = .error "invalid schedule format, expected HH:MM") ∧
    (∀ (s : String) (hourPart minutePart : List Char),
      splitOnRune ':' s.data = [hourPart, minutePart] →
      (sscanInt (String.mk hourPart) = none → parseDailySchedule s = .error "invalid hour: ") ∧
      (∀ h : Int, sscanInt (String.mk hourPart) = some h →
        sscanInt (String.mk minutePart) = none →
        parseDailySchedule s = .error "invalid minute: ") ∧
      (∀ h m : Int, sscanInt (String.mk hourPart) = some h →
        sscanInt (String.mk minutePart) = some m → (h < 0 ∨ h > 23 ∨ m < 0 ∨ m > 59) →
        parseDailySchedule s = .error "hour must be 0-23, minute must be 0-59")) ∧
    parseDailySchedule "02:00:00" = .error "invalid schedule format, expected HH:MM" ∧
    parseDailySchedule "ab:00" = .error "invalid hour: " ∧
    parseDailySchedule "02:_0" = .error "invalid minute: " ∧
    parseDailySchedule "24:00" = .error "hour must be 0-23, minute must be 0-59" := by
  refine ⟨rfl, rfl, rfl, rfl, rfl, rfl, parseDailySchedule_hhmm, parseDailySchedule_ok_inv,
    parseDailySchedule_fields, ?_, rfl, rfl, rfl, rfl⟩
  intro s hourPart minutePart hsplit
  refine ⟨?_, ?_, ?_⟩
  · intro hh
    unfold parseDailySchedule
    rw [hsplit]
    simp only [hh]
  · intro h hh hm
    unfold parseDailySchedule
    rw [hsplit]
    simp only [hh, hm]
  · intro h m hh hm hr
    unfold parseDailySchedule
    rw [hsplit]
    simp only [hh, hm]
    rw [if_pos hr]

/-! ## Theorems: extraction of the plan from an oracle answer -/

theorem indexOfRune_absent (c : Char) (l : List Char) (h : c ∉ l) : indexOfRune c l = none := by
  induction l with
  | nil => rfl
  | cons x xs ih =>
    have hx : x ≠ c := fun e => h (by simp [e])
    have hxs : c ∉ xs := fun e => h (by simp [e])
    rw [indexOfRune, if_neg hx, ih hxs]
    rfl

theorem lastIndexOfRune_absent (c : Char) (l : List Char) (h : c ∉ l) :
    lastIndexOfRune c l = none := by
  induction l with
  | nil => rfl
  | cons x xs ih =>
    have hx : x ≠ c := fun e => h (by simp [e])
    have hxs : c ∉ xs := fun e => h (by simp [e])
    rw [lastIndexOfRune, ih hxs]
    simp only [if_neg hx]

theorem indexOfRune_append (c : Char) (pre rest : List Char) (h : c ∉ pre) :
    indexOfRune c (pre ++ c :: rest) = some pre.length := by
  induction pre with
  | nil => simp [indexOfRune]
  | cons x xs ih =>
    have hx : x ≠ c := fun e => h (by simp [e])
    have hxs : c ∉ xs := fun e => h (by simp [e])
    rw [List.cons_append, indexOfRune, if_neg hx, ih hxs]
    rfl

theorem lastIndexOfRune_append (c : Char) (xs post : List Char) (h : c ∉ post) :
    lastIndexOfRune c (xs ++ c :: post) = some xs.length := by
  induction xs with
  | nil =>
    rw [List.nil_append, lastIndexOfRune, lastIndexOfRune_absent c post h]
    simp
  | cons x xs ih =>
    rw [List.cons_append, lastIndexOfRune, ih]
    rfl

theorem lastIndexOfRune_mem (c : Char) (l : List Char) (h : c ∈ l) :
    ∃ j, lastIndexOfRune c l = some j := by
  induction l with
  | nil => cases h
  | cons x xs ih =>
    rw [lastIndexOfRune]
    cases hi : lastIndexOfRune c xs with
    | some k => exact ⟨k + 1, rfl⟩
    | none =>
      rcases List.mem_cons.1 h with e | e
      · exact ⟨0, by simp [e]⟩
      · obtain ⟨k, hk⟩ := ih e
        rw [hk] at hi
        cases hi

theorem indexOfRune_some (c : Char) (l : List Char) (i : Nat) (h : indexOfRune c l = some i) :
    ∃ pre rest, l = pre ++ c :: rest ∧ c ∉ pre ∧ pre.length = i := by
  induction l generalizing i with
  | nil => cases h
  | cons x xs ih =>
    rw [indexOfRune] at h
    by_cases hx : x = c
    · rw [if_pos hx] at h
      injection h with h
      exact ⟨[], xs, by simp [hx], by simp, by simpa using h⟩
    · rw [if_neg hx] at h
      cases hi : indexOfRune c xs with
      | none => rw [hi] at h; cases h
      | some k =>
        rw [hi] at h
        have h2 : k + 1 = i := by simpa using h
        obtain ⟨pre, rest, e, hn, hl⟩ := ih k hi
        refine ⟨x :: pre, rest, by rw [e]; rfl, ?_, by simp [hl]; omega⟩
        intro hm
        rcases List.mem_cons.1 hm with e1 | e1
        · exact hx e1.symm
        · exact hn e1

theorem lastIndexOfRune_some (c : Char) (l : List Char) (j : Nat)
    (h : lastIndexOfRune c l = some j) :
    ∃ xs post, l = xs ++ c :: post ∧ c ∉ post ∧ xs.length = j := by
  induction l generalizing j with
  | nil => cases h
  | cons x xs ih =>
    rw [lastIndexOfRune] at h
    cases hi : lastIndexOfRune c xs with
    | some k =>
      rw [hi] at h
      have h2 : k + 1 = j := by simpa using h
      obtain ⟨ys, post, e, hn, hl⟩ := ih k hi
      exact ⟨x :: ys, post, by rw [e]; rfl, hn, by simp [hl]; omega⟩
    | none =>
      rw [hi] at h
      by_cases hx : x = c
      · simp only [if_pos hx] at h
        injection h with h
        refine ⟨[], xs, by simp [hx], ?_, by simpa using h⟩
        intro hm
        obtain ⟨k, hk⟩ := lastIndexOfRune_mem c xs hm
        rw [hk] at hi
        cases hi
      · simp only [if_neg hx] at h
        cases h

theorem extractJSON_pair (pre mid post : List Char)
    (hpre : Char.ofNat 123 ∉ pre) (hpost : Char.ofNat 125 ∉ post) :
    extractJSON (String.mk (pre ++ Char.ofNat 123 :: (mid ++ Char.ofNat 125 :: post))) =
      String.mk (Char.ofNat 123 :: (mid ++ [Char.ofNat 125])) := by
  have hi := indexOfRune_append (Char.ofNat 123) pre (mid ++ Char.ofNat 125 :: post) hpre
  have hj := lastIndexOfRune_append (Char.ofNat 125) (pre ++ Char.ofNat 123 :: mid) post hpost
  rw [List.append_assoc, List.cons_append] at hj
  unfold extractJSON
  simp only [hi, hj]
  rw [if_pos (by simp)]
  congr 1
  rw [List.drop_left]
  have e : (pre ++ Char.ofNat 123 :: mid).length + 1 - pre.length = (mid.length + 1) + 1 := by
    simp; omega
  rw [e, List.take_succ_cons]
  congr 1
  have e2 : mid.length + 1 = (mid ++ [Char.ofNat 125]).length := by simp
  have e3 : mid ++ Char.ofNat 125 :: post = (mid ++ [Char.ofNat 125]) ++ post := by simp
  rw [e2, e3, List.take_left]

theorem extractJSON_no_pair (resp : String)
    (h : ∀ i j : Nat, indexOfRune (Char.ofNat 123) resp.data = some i →
      lastIndexOfRune (Char.ofNat 125) resp.data = some j → j ≤ i) :
    extractJSON resp = resp := by
  unfold extractJSON
  split
  · rename_i i j hi hj
    rw [if_neg (by have := h i j hi hj; omega)]
  · rfl

theorem pair_decompose (l : List Char) (i j : Nat)
    (hi : indexOfRune (Char.ofNat 123) l = some i)
    (hj : lastIndexOfRune (Char.ofNat 125) l = some j) (hij : i < j) :
    ∃ pre mid post, l = pre ++ Char.ofNat 123 :: (mid ++ Char.ofNat 125 :: post) ∧
      Char.ofNat 123 ∉ pre ∧ Char.ofNat 125 ∉ post := by
  obtain ⟨pre, rest, e1, hpre, hl1⟩ := indexOfRune_some _ l i hi
  obtain ⟨xs, post, e2, hpost, hl2⟩ := lastIndexOfRune_some _ l j hj
  obtain ⟨k, hk⟩ : ∃ k, j = i + (k + 1) := ⟨j - i - 1, by omega⟩
  refine ⟨pre, rest.take k, post, ?_, hpre, hpost⟩
  have hd : l.drop j = Char.ofNat 125 :: post := by
    rw [e2, ← hl2, List.drop_left]
  have hd2 : l.drop j = rest.drop k := by
    rw [e1, hk, ← hl1, ← List.drop_drop, List.drop_left, List.drop_succ_cons]
  rw [← hd, hd2, List.take_append_drop]
  exact e1

/-- C24: `parseActionPlan` decodes exactly the text from the first opening brace
to the last closing brace of the answer when the former precedes the latter, so
the text before and after the pair never affects the result; every answer whose
first opening brace precedes its last closing brace has that shape; any other
answer is decoded whole, and is rejected when the decoder rejects it. -/
theorem parseActionPlan_decodes_braced_text (env : DecideEnv) :
    (∀ pre mid post : List Char, Char.ofNat 123 ∉ pre → Char.ofNat 125 ∉ post →
      parseActionPlan env
          (String.mk (pre ++ Char.ofNat 123 :: (mid ++ Char.ofNat 125 :: post))) =
        env.unmarshalPlan (String.mk (Char.ofNat 123 :: (mid ++ [Char.ofNat 125])))) ∧
    (∀ pre1 post1 pre2 post2 mid : List Char,
      Char.ofNat 123 ∉ pre1 → Char.ofNat 125 ∉ post1 →
      Char.ofNat 123 ∉ pre2 → Char.ofNat 125 ∉ post2 →
      parseActionPlan env
          (String.mk (pre1 ++ Char.ofNat 123 :: (mid ++ Char.ofNat 125 :: post1))) =
        parseActionPlan env
          (String.mk (pre2 ++ Char.ofNat 123 :: (mid ++ Char.ofNat 125 :: post2)))) ∧
    (∀ (resp : String) (i j : Nat), indexOfRune (Char.ofNat 123) resp.data = some i →
      lastIndexOfRune (Char.ofNat 125) resp.data = some j → i < j →
      ∃ pre mid post, resp.data = pre ++ Char.ofNat 123 :: (mid ++ Char.ofNat 125 :: post) ∧
        Char.ofNat 123 ∉ pre ∧ Char.ofNat 125 ∉ post) ∧
    (∀ resp : String,
      (∀ i j : Nat, indexOfRune (Char.ofNat 123) resp.data = some i →
        lastIndexOfRune (Char.ofNat 125) resp.data = some j → j ≤ i) →
      parseActionPlan env resp = env.unmarshalPlan resp ∧
        ∀ err, env.unmarshalPlan resp = .error err → parseActionPlan env resp = .error err) := by
  refine ⟨?_, ?_, ?_, ?_⟩
  · intro pre mid post hpre hpost
    rw [parseActionPlan, extractJSON_pair pre mid post hpre hpost]
  · intro pre1 post1 pre2 post2 mid h1 h2 h3 h4
    rw [parseActionPlan, parseActionPlan, extractJSON_pair pre1 mid post1 h1 h2,
      extractJSON_pair pre2 mid post2 h3 h4]
  · intro resp i j hi hj hij
    exact pair_decompose resp.data i j hi hj hij
  · intro resp h
    have e : parseActionPlan env resp = env.unmarshalPlan resp := by
      rw [parseActionPlan, extractJSON_no_pair resp h]
    exact ⟨e, fun err he => by rw [e, he]⟩

/-- C24, at an answer that wraps the plan in prose and at one without braces. -/
theorem parseActionPlan_decodes_braced_text_witness :
    parseActionPlan chattyOracle
        (String.mk ("Sure: ".data ++ Char.ofNat 123 ::
          ("\"action\":\"idle\"".data ++ Char.ofNat 125 :: " done".data))) =
      chattyOracle.unmarshalPlan
        (String.mk (Char.ofNat 123 :: ("\"action\":\"idle\"".data ++ [Char.ofNat 125]))) ∧
    chattyOracle.unmarshalPlan "\x7b\"action\":\"idle\"\x7d" = .ok (planOfPriority 0) ∧
    parseActionPlan chattyOracle "Sure, idle" =
      .error "invalid character S looking for beginning of value" :=
  ⟨(parseActionPlan_decodes_braced_text chattyOracle).1 "Sure: ".data
      "\"action\":\"idle\"".data " done".data (by decide) (by decide),
    rfl,
    ((parseActionPlan_decodes_braced_text chattyOracle).2.2.2 "Sure, idle"
      (fun i j hi _ => by
        have h : indexOfRune (Char.ofNat 123) "Sure, idle".data = none := by decide
        rw [h] at hi
        cases hi)).2 _ rfl⟩

/-! ## Theorems: tools and tool calls -/

/-- Without empty names the loop of `buildDecisionTools` builds one tool per
skill, in order. -/
theorem toolsLoop_map (describe : String → Option String) (skills : List Skill)
    (h : ∀ s ∈ skills, s.Name ≠ "") : toolsLoop describe skills = skills.map (toolOf describe) := by
  induction skills with
  | nil => rfl
  | cons x rest ih =>
    rw [toolsLoop, if_neg (h x (by simp)), ih (fun s hs => h s (by simp [hs]))]
    rfl

theorem lookup_none_not_key {β : Type} (l : List (String × β)) (n : String)
    (h : List.lookup n l = none) : n ∉ l.map Prod.fst := by
  intro hm
  induction l with
  | nil => cases hm
  | cons x rest ih =>
    obtain ⟨k, w⟩ := x
    by_cases hk : n = k
    · subst hk
      simp [List.lookup_cons] at h
    · have hb : (n == k) = false := by simp [hk]
      simp only [List.lookup_cons, hb] at h
      simp only [List.map_cons, List.mem_cons] at hm
      rcases hm with e | e
      · exact hk e
      · exact ih h e

theorem lookup_of_mem_nodup {β : Type} (l : List (String × β)) (n : String) (v : β)
    (hn : (l.map Prod.fst).Nodup) (hm : (n, v) ∈ l) : List.lookup n l = some v := by
  induction l with
  | nil => cases hm
  | cons x rest ih =>
    obtain ⟨k, w⟩ := x
    simp only [List.map_cons, List.nodup_cons] at hn
    rcases List.mem_cons.1 hm with e | e
    · injection e with e1 e2
      subst e1 e2
      simp [List.lookup_cons]
    · have hk : n ≠ k := by
        intro hk
        subst hk
        exact hn.1 (List.mem_map.2 ⟨(n, v), e, rfl⟩)
      have hb : (n == k) = false := by simp [hk]
      simp only [List.lookup_cons, hb]
      exact ih hn.2 e

/-- No call on the registry makes two entries share a name. -/
theorem apply_keys_nodup (r : SkillRegistry) (c : RegistryCall)
    (hr : (r.skills.map Prod.fst).Nodup) : ((c.apply r).skills.map Prod.fst).Nodup := by
  cases c with
  | register skill =>
    simp only [RegistryCall.apply, SkillRegistry.Register]
    split_ifs
    · exact hr
    · exact hr
    · split
      · exact hr
      · rename_i hl
        simp only [List.map_append, List.map_cons, List.map_nil]
        rw [List.nodup_append]
        refine ⟨hr, by simp, ?_⟩
        intro a ha hb
        simp only [List.mem_singleton] at hb
        subst hb
        exact lookup_none_not_key _ _ hl ha
  | enable name saved => exact hr
  | disable name saved =>
    simp only [RegistryCall.apply, SkillRegistry.DisableSkill]
    exact (List.Nodup.sublist (List.Sublist.map _ (List.filter_sublist _)) hr)

theorem runRegistry_keys_nodup (cs : List RegistryCall) (r : SkillRegistry)
    (hr : (r.skills.map Prod.fst).Nodup) : ((runRegistry r cs).skills.map Prod.fst).Nodup := by
  induction cs generalizing r with
  | nil => exact hr
  | cons c rest ih => exact ih (c.apply r) (apply_keys_nodup r c hr)

/-- In a consistent registry without shared names every listed skill is the one
`Get` finds under its name. -/
theorem Get_listed (r : SkillRegistry) (hc : r.Consistent) (hn : (r.skills.map Prod.fst).Nodup)
    (s : Skill) (hs : s ∈ r.ListSkills) : r.Get s.Name = some s := by
  simp only [SkillRegistry.ListSkills, List.mem_map] at hs
  obtain ⟨kv, hkv, rfl⟩ := hs
  obtain ⟨k, v⟩ := kv
  have hk := (hc (k, v) hkv).1
  simp only at hk
  simp only [SkillRegistry.Get, hk]
  exact lookup_of_mem_nodup r.skills k v hn hkv

theorem skill_prefix_holds (n : String) : "skill_".data.isPrefixOf ("skill_" ++ n).data = true := by
  simp only [String.data_append]
  simp [List.isPrefixOf]

theorem skill_prefix_drop (n : String) : String.mk (("skill_" ++ n).data.drop 6) = n := by
  simp only [String.data_append]
  rfl

theorem runToolCalls_registered (env : DecideEnv) (r : SkillRegistry) (id n arguments : String)
    (skill : Skill) (rest : List ToolCall) (h : r.Get n = some skill) :
    runToolCalls env r (toolCall id ("skill_" ++ n) arguments :: rest) =
      (n, toolArgs env arguments, skill.Run (toolArgs env arguments)) ::
        runToolCalls env r rest := by
  rw [runToolCalls]
  simp only [toolCall]
  rw [if_pos (skill_prefix_holds n)]
  simp only [skill_prefix_drop, h]

theorem runToolCalls_unregistered (env : DecideEnv) (r : SkillRegistry) (id n arguments : String)
    (rest : List ToolCall) (h : r.Get n = none) :
    runToolCalls env r (toolCall id ("skill_" ++ n) arguments :: rest) =
      runToolCalls env r rest := by
  rw [runToolCalls]
  simp only [toolCall]
  rw [if_pos (skill_prefix_holds n)]
  simp only [skill_prefix_drop, h]

theorem runToolCalls_no_prefix (env : DecideEnv) (r : SkillRegistry) (tc : ToolCall)
    (rest : List ToolCall) (h : "skill_".data.isPrefixOf tc.Function.Name.data = false) :
    runToolCalls env r (tc :: rest) = runToolCalls env r rest := by
  rw [runToolCalls]
  simp only [h]
  rfl

/-- C25: for an engine whose registry was reached from `NewSkillRegistry`,
`buildDecisionTools` returns one tool per registered skill, in the order of
`List`, each a function tool named "skill_" + the name of the skill with the
schema without properties, and no two tools share a name. `executeToolCalls`
inverts the naming: a call named "skill_" + the name of a listed skill runs that
skill once, with the decoded arguments, and whatever `Run` returns the remaining
calls are processed after it; a call whose name lacks the prefix, or names no
registered skill, runs nothing and the remaining calls are processed. -/
theorem tools_and_tool_calls_agree (config : SkillConfig) (cs : List RegistryCall)
    (e : Engine) (env : DecideEnv) (describe : String → Option String)
    (he : e.registry = some (runRegistry (NewSkillRegistry config) cs)) :
    buildDecisionTools e describe =
        (runRegistry (NewSkillRegistry config) cs).ListSkills.map (toolOf describe) ∧
      (∀ tool ∈ buildDecisionTools e describe,
        tool.Type_ = "function" ∧ tool.Function.Parameters = emptySchema) ∧
      ((buildDecisionTools e describe).map fun tool => tool.Function.Name).Nodup ∧
      (∀ s ∈ (runRegistry (NewSkillRegistry config) cs).ListSkills,
        ∀ (id arguments : String) (rest : List ToolCall),
          executeToolCalls e env (toolCall id ("skill_" ++ s.Name) arguments :: rest) =
            (s.Name, toolArgs env arguments, s.Run (toolArgs env arguments)) ::
              executeToolCalls e env rest) ∧
      (∀ (tc : ToolCall) (rest : List ToolCall),
        "skill_".data.isPrefixOf tc.Function.Name.data = false →
          executeToolCalls e env (tc :: rest) = executeToolCalls e env rest) ∧
      (∀ (id n arguments : String) (rest : List ToolCall),
        (runRegistry (NewSkillRegistry config) cs).Get n = none →
          executeToolCalls e env (toolCall id ("skill_" ++ n) arguments :: rest) =
            executeToolCalls e env rest) := by
  have hc := runRegistry_consistent cs (NewSkillRegistry config)
    (NewSkillRegistry_consistent config)
  have hn := runRegistry_keys_nodup cs (NewSkillRegistry config) (by simp [NewSkillRegistry])
  have hnames : ∀ s ∈ (runRegistry (NewSkillRegistry config) cs).ListSkills, s.Name ≠ "" := by
    intro s hs
    simp only [SkillRegistry.ListSkills, List.mem_map] at hs
    obtain ⟨kv, hkv, rfl⟩ := hs
    rw [(hc kv hkv).1]
    exact (hc kv hkv).2.1
  have hb : buildDecisionTools e describe =
      (runRegistry (NewSkillRegistry config) cs).ListSkills.map (toolOf describe) := by
    simp only [buildDecisionTools, he]
    exact toolsLoop_map describe _ hnames
  have hkeys : (runRegistry (NewSkillRegistry config) cs).ListSkills.map (fun s => s.Name) =
      (runRegistry (NewSkillRegistry config) cs).skills.map Prod.fst := by
    simp only [SkillRegistry.ListSkills, List.map_map]
    apply List.map_congr_left
    intro kv hkv
    exact (hc kv hkv).1
  refine ⟨hb, ?_, ?_, ?_, ?_, ?_⟩
  · intro tool ht
    rw [hb, List.mem_map] at ht
    obtain ⟨s, _, rfl⟩ := ht
    exact ⟨rfl, rfl⟩
  · rw [hb, List.map_map]
    have hcomp : ((fun tool : Tool => tool.Function.Name) ∘ toolOf describe) =
        ((fun n : String => "skill_" ++ n) ∘ fun s : Skill => s.Name) := rfl
    rw [hcomp, ← List.map_map, hkeys]
    exact List.Nodup.map (fun a b h => skill_prefix_inj a b h) hn
  · intro s hs id arguments rest
    simp only [executeToolCalls, he]
    exact runToolCalls_registered env _ id s.Name arguments s rest (Get_listed _ hc hn s hs)
  · intro tc rest hp
    simp only [executeToolCalls, he]
    exact runToolCalls_no_prefix env _ tc rest hp
  · intro id n arguments rest hg
    simp only [executeToolCalls, he]
    exact runToolCalls_unregistered env _ id n arguments rest hg

/-- C25, at the two built-in skills: the failing summary is run once and the
consolidation after it still runs. -/
theorem tools_and_tool_calls_agree_witness :
    (buildDecisionTools (toolEngine failingStartupCalls) (fun _ => none)).map
        (fun tool => tool.Function.Name) =
      ["skill_periodic-summarize", "skill_daily-consolidate"] ∧
    executeToolCalls (toolEngine failingStartupCalls) failingOracle
        (toolCall "call_1" ("skill_" ++ (PeriodicSummarizeSkill (some "disk full")).Name) "" ::
          [toolCall "call_2" "daily-consolidate" "", toolCall "call_3" "skill_unknown" "",
            toolCall "call_4" "skill_daily-consolidate" ""]) =
      ((PeriodicSummarizeSkill (some "disk full")).Name, toolArgs failingOracle "",
          (PeriodicSummarizeSkill (some "disk full")).Run (toolArgs failingOracle "")) ::
        executeToolCalls (toolEngine failingStartupCalls) failingOracle
          [toolCall "call_2" "daily-consolidate" "", toolCall "call_3" "skill_unknown" "",
            toolCall "call_4" "skill_daily-consolidate" ""] ∧
    executeToolCalls (toolEngine failingStartupCalls) failingOracle
        [toolCall "call_1" "skill_periodic-summarize" "",
          toolCall "call_2" "daily-consolidate" "", toolCall "call_3" "skill_unknown" "",
          toolCall "call_4" "skill_daily-consolidate" ""] =
      [("periodic-summarize", [], some "failed to summarize and rotate: disk full"),
        ("daily-consolidate", [], none)] :=
  ⟨by
      rw [(tools_and_tool_calls_agree { Enabled := [] } failingStartupCalls
        (toolEngine failingStartupCalls) failingOracle (fun _ => none) rfl).1]
      rfl,
    (tools_and_tool_calls_agree { Enabled := [] } failingStartupCalls
      (toolEngine failingStartupCalls) failingOracle (fun _ => none) rfl).2.2.2.1
      (PeriodicSummarizeSkill (some "disk full"))
      (show PeriodicSummarizeSkill (some "disk full") ∈
          [PeriodicSummarizeSkill (some "disk full"), DailyConsolidateSkill] from
        List.mem_cons_self _ _)
      "call_1" "" _,
    by rfl⟩

/-! ## Theorems: the completion time in the metrics -/

/-- The type assertion in `Execute` never fails: `Execute` returns. -/
theorem Execute_returns (env : ExecEnv) (task : Task) :
    ∃ t result err, Execute env task = .returned t result err := by
  cases hd : dispatch env (markRunning task) with
  | none => exact ⟨_, _, _, Execute_unknown env task hd⟩
  | some hr =>
    obtain ⟨result, err⟩ := hr
    cases err with
    | some e => exact ⟨_, _, _, Execute_failed env task result e hd⟩
    | none =>
      obtain ⟨completedAt, hc⟩ := dispatch_completedAt env (markRunning task) result hd
      exact ⟨_, _, _, Execute_completed env task result completedAt hd hc⟩

/-- C28: each of the nine handlers, when it returns without error, returns a
result whose metrics hold a string under "completed_at"; so does the handler
`executeCustom` delegates to, whatever the classified action; hence whatever
`Execute` dispatches to satisfies the type assertion and `Execute` returns
instead of panicking, for every task and every answer of the collaborators. -/
theorem handlers_report_completed_at (env : ExecEnv) (task : Task) :
    (∀ h ∈ innerHandlers ++ [executeCustom],
      (h env task).2 = none →
        ∃ completedAt, (h env task).1.Metrics.lookup "completed_at" = some (.str completedAt)) ∧
    (∀ (action : String) (inner : Task), (dispatchInner env action inner).2 = none →
      ∃ completedAt,
        (dispatchInner env action inner).1.Metrics.lookup "completed_at" =
          some (.str completedAt)) ∧
    (∀ result : TaskResult, dispatch env (markRunning task) = some (result, none) →
      ∃ completedAt, result.Metrics.lookup "completed_at" = some (.str completedAt)) ∧
    (∃ t result err, Execute env task = .returned t result err) ∧
    (innerHandlers ++ [executeCustom]).length = 9 := by
  refine ⟨?_, ?_, ?_, Execute_returns env task, rfl⟩
  · intro h hh hn
    simp only [innerHandlers, List.mem_append, List.mem_cons, List.mem_singleton,
      List.not_mem_nil, or_false] at hh
    rcases hh with (rfl | rfl | rfl | rfl | rfl | rfl | rfl | rfl) | rfl
    · exact executeIntegrate_completedAt env task hn
    · exact executeSummarize_completedAt env task hn
    · exact executeConsolidate_completedAt env task hn
    · exact executeRecall_completedAt env task hn
    · exact executeLearn_completedAt env task hn
    · exact executeOptimize_completedAt env task
    · exact executeReflect_completedAt env task
    · exact executeIdle_completedAt env task
    · exact executeCustom_completedAt env task hn
  · intro action inner hn
    exact dispatchInner_completedAt env action inner hn
  · intro result hd
    exact dispatch_completedAt env (markRunning task) result hd

/-! ## Theorems: archive statistics -/

/-- A name that ends in ".md" has the extension ".md". -/
theorem Ext_md (pre : List Char) : Ext (String.mk (pre ++ ['.', 'm', 'd'])) = ".md" := by
  simp [Ext, List.takeWhile]

/-- The base of a name that ends in ".md" is never "summary". -/
theorem Base_md_ne_summary (pre : List Char) :
    Base (String.mk (pre ++ ['.', 'm', 'd'])) ≠ "summary" := by
  have hne : String.mk (pre ++ ['.', 'm', 'd']) ≠ "" := by
    intro h
    have := congrArg String.data h
    simp at this
  unfold Base
  rw [if_neg hne]
  simp only [List.reverse_append, List.reverse_cons, List.reverse_nil, List.nil_append,
    List.cons_append, List.dropWhile, List.takeWhile]
  simp
  intro h
  have := congrArg (fun s => s.data.reverse.head?) h
  simp at this

/-- The loop counts every regular file whose name ends in ".md". -/
theorem archiveLoop_md (pre : List Char) (size : Int) (rest : List DirEntry)
    (fileCount totalSize : Int) :
    archiveLoop
        ({ Name := String.mk (pre ++ ['.', 'm', 'd']), IsDir := false, Size := some size } :: rest)
        fileCount totalSize =
      archiveLoop rest (fileCount + 1) (totalSize + size) := by
  rw [archiveLoop]
  simp only [Bool.false_eq_true, if_false, Ext_md, ne_eq, not_true_eq_false,
    Base_md_ne_summary]

/-- C27 (the code diverges): the test `filepath.Base(name) == "summary"` comes
after the test that keeps only names with the extension ".md", so it never
holds; a summary file `summary-YYYY-MM.md` is counted like any other file, by
`getArchiveStats` and by `analyzeMemoryState`, and 31 summary files alone make
`ShouldSummarize` and `NeedsSummarize` true. -/
theorem summary_files_are_counted :
    (∀ (month : String) (size : Int) (rest : List DirEntry) (fileCount totalSize : Int),
      archiveLoop (summaryFile month size :: rest) fileCount totalSize =
        archiveLoop rest (fileCount + 1) (totalSize + size)) ∧
    Ext "summary-2026-01.md" = ".md" ∧ Base "summary-2026-01.md" = "summary-2026-01.md" ∧
    getArchiveStats (.ok [summaryFile "2026-01" 2048]) = .ok (1, 2048) ∧
    analyzeArchive (.ok [summaryFile "2026-01" 2048]) = .ok (1, 2048, false, "") ∧
    summaryListing.length = 31 ∧
    ShouldSummarize defaultTrigger (.ok summaryListing) =
      (true, "Archive limits exceeded: [file count (31 > 30)]") ∧
    analyzeArchive (.ok summaryListing) =
      .ok (31, 31744, true, "Archive limits exceeded: [file count (31 > 30)]") := by
  refine ⟨?_, by decide, by decide, rfl, rfl, rfl, ?_, ?_⟩
  · intro month size rest fileCount totalSize
    have e : summaryFile month size =
        { Name := String.mk (("summary-" ++ month).data ++ ['.', 'm', 'd']), IsDir := false,
          Size := some size } := by
      simp only [summaryFile]
      congr 1
    rw [e]
    exact archiveLoop_md _ size rest fileCount totalSize
  · rfl
  · rfl

/-! ## Theorems: the content cache -/

theorem evictLoop_below (fuel : Nat) (lc : LRUCache) (h : lc.Size < lc.maxSize) :
    evictLoop fuel lc = some lc := by
  unfold evictLoop
  rw [if_neg (by omega)]

theorem evictLoop_step (fuel : Nat) (lc : LRUCache) (h : lc.Size ≥ lc.maxSize) :
    evictLoop (fuel + 1) lc = evictLoop fuel lc.removeOldest := by
  rw [evictLoop, if_pos h]

theorem evictLoop_zero (lc : LRUCache) (h : lc.Size ≥ lc.maxSize) :
    evictLoop 0 lc = none := by
  rw [evictLoop, if_pos h]

theorem removeOldest_size (lc : LRUCache) :
    lc.removeOldest.Size = ((lc.entries.length - 1 : Nat) : Int) := by
  simp [LRUCache.removeOldest, LRUCache.Size, List.length_dropLast]

/-- With a capacity below 1 the loop of `Set` never ends. -/
theorem evictLoop_diverges (fuel : Nat) (lc : LRUCache) (h : lc.maxSize ≤ 0) :
    evictLoop fuel lc = none := by
  induction fuel generalizing lc with
  | zero =>
    apply evictLoop_zero
    simp only [LRUCache.Size]
    omega
  | succ n ih =>
    rw [evictLoop_step n lc (by simp only [LRUCache.Size]; omega)]
    exact ih lc.removeOldest h

/-- With a capacity of at least 1 the loop of `Set` ends within as many
iterations as the cache has entries. -/
theorem evictLoop_terminates (fuel : Nat) (lc : LRUCache) (h : 1 ≤ lc.maxSize)
    (hf : lc.entries.length ≤ fuel) : ∃ lc1, evictLoop fuel lc = some lc1 := by
  induction fuel generalizing lc with
  | zero =>
    refine ⟨lc, evictLoop_below 0 lc ?_⟩
    simp only [LRUCache.Size]
    omega
  | succ n ih =>
    by_cases hs : lc.Size ≥ lc.maxSize
    · rw [evictLoop_step n lc hs]
      apply ih lc.removeOldest h
      simp only [LRUCache.removeOldest, List.length_dropLast]
      omega
    · exact ⟨lc, evictLoop_below _ lc (by omega)⟩

/-- A full cache loses its last entry in one iteration. -/
theorem evictLoop_full (fuel : Nat) (lc : LRUCache) (h : 1 ≤ lc.maxSize)
    (hs : lc.Size = lc.maxSize) : evictLoop (fuel + 1) lc = some lc.removeOldest := by
  rw [evictLoop_step fuel lc (by omega)]
  apply evictLoop_below
  rw [removeOldest_size]
  simp only [LRUCache.Size] at hs
  simp only [LRUCache.removeOldest]
  omega

theorem filter_key_length (entries : List CacheEntry) (key : String)
    (h : entries.any (fun e => e.key = key) = true) :
    (entries.filter fun e => e.key ≠ key).length + 1 ≤ entries.length := by
  induction entries with
  | nil => simp at h
  | cons x rest ih =>
    by_cases hx : x.key = key
    · rw [List.filter_cons_of_neg (by simp [hx])]
      have := List.length_filter_le (fun e : CacheEntry => decide (e.key ≠ key)) rest
      simp only [List.length_cons]
      omega
    · rw [List.filter_cons_of_pos (by simp [hx])]
      have h2 : rest.any (fun e => e.key = key) = true := by
        simpa [List.any_cons, hx] using h
      have := ih h2
      simp only [List.length_cons]
      omega

theorem filter_keys_nodup (entries : List CacheEntry) (key : String)
    (h : (entries.map (·.key)).Nodup) :
    key ∉ (entries.filter fun e => e.key ≠ key).map (·.key) ∧
      ((entries.filter fun e => e.key ≠ key).map (·.key)).Nodup := by
  constructor
  · intro hm
    obtain ⟨e, he, hk⟩ := List.mem_map.1 hm
    have := (List.mem_filter.1 he).2
    simp at this
    exact this hk
  · exact List.Nodup.sublist (List.Sublist.map _ (List.filter_sublist _)) h

theorem Set_maxSize (fuel : Nat) (lc lc1 : LRUCache) (key value : String) (fileSize : Int)
    (h : lc.Set fuel key value fileSize = some lc1) : lc1.maxSize = lc.maxSize := by
  unfold LRUCache.Set at h
  split_ifs at h with hk
  · injection h with h
    rw [← h]
  · cases he : evictLoop fuel lc with
    | none => rw [he] at h; cases h
    | some lc2 =>
      rw [he] at h
      simp only [Option.map_some', Option.some.injEq] at h
      rw [← h]
      show lc2.maxSize = lc.maxSize
      clear h hk
      induction fuel generalizing lc with
      | zero =>
        by_cases hs : lc.Size ≥ lc.maxSize
        · rw [evictLoop_zero lc hs] at he; cases he
        · rw [evictLoop_below 0 lc (by omega)] at he
          injection he with he
          rw [he]
      | succ n ih =>
        by_cases hs : lc.Size ≥ lc.maxSize
        · rw [evictLoop_step n lc hs] at he
          exact ih lc.removeOldest he
        · rw [evictLoop_below _ lc (by omega)] at he
          injection he with he
          rw [he]

/-- A `Set` on a bounded cache of capacity at least 1 ends within one iteration
of its loop and leaves the cache bounded. -/
theorem Set_bounded (fuel : Nat) (lc : LRUCache) (key value : String) (fileSize : Int)
    (h1 : 1 ≤ lc.maxSize) (hb : lc.Bounded) (hf : 1 ≤ fuel) :
    ∃ lc1, lc.Set fuel key value fileSize = some lc1 ∧ lc1.maxSize = lc.maxSize ∧
      lc1.Bounded := by
  obtain ⟨hsize, hnodup⟩ := hb
  simp only [LRUCache.keys] at hnodup
  unfold LRUCache.Set
  by_cases hk : lc.entries.any (fun e => e.key = key) = true
  · rw [if_pos hk]
    refine ⟨_, rfl, rfl, ?_, ?_⟩
    · have := filter_key_length lc.entries key hk
      simp only [LRUCache.Size, List.length_cons] at hsize ⊢
      omega
    · have := filter_keys_nodup lc.entries key hnodup
      simp only [LRUCache.keys, List.map_cons, List.nodup_cons]
      exact this
  · rw [if_neg hk]
    have hnew : key ∉ lc.entries.map (·.key) := by
      intro hm
      obtain ⟨e, he, hek⟩ := List.mem_map.1 hm
      exact hk (List.any_eq_true.2 ⟨e, he, by simp [hek]⟩)
    obtain ⟨f, rfl⟩ : ∃ f, fuel = f + 1 := ⟨fuel - 1, by omega⟩
    by_cases hs : lc.Size = lc.maxSize
    · rw [evictLoop_full f lc h1 hs]
      refine ⟨_, rfl, rfl, ?_, ?_⟩
      · simp only [LRUCache.Size, LRUCache.removeOldest, List.length_cons,
          List.length_dropLast] at hs ⊢
        omega
      · simp only [LRUCache.keys, LRUCache.removeOldest, List.map_cons, List.nodup_cons]
        have hsub : (lc.entries.dropLast.map (·.key)).Sublist (lc.entries.map (·.key)) :=
          List.Sublist.map _ (List.dropLast_sublist _)
        exact ⟨fun hm => hnew (hsub.subset hm), List.Nodup.sublist hsub hnodup⟩
    · rw [evictLoop_below _ lc (by omega)]
      refine ⟨_, rfl, rfl, ?_, ?_⟩
      · simp only [LRUCache.Size, List.length_cons] at hsize hs ⊢
        omega
      · simp only [LRUCache.keys, List.map_cons, List.nodup_cons]
        exact ⟨hnew, hnodup⟩

theorem Get_bounded (lc : LRUCache) (key : String) (expired : Bool) (hb : lc.Bounded) :
    (lc.Get key expired).1.maxSize = lc.maxSize ∧ (lc.Get key expired).1.Bounded := by
  obtain ⟨hsize, hnodup⟩ := hb
  simp only [LRUCache.keys] at hnodup
  unfold LRUCache.Get
  cases hfind : lc.entries.find? (fun e => e.key = key) with
  | none => exact ⟨rfl, hsize, hnodup⟩
  | some entry =>
    have hmem := List.mem_of_find?_eq_some hfind
    have hkey : entry.key = key := by simpa using List.find?_some hfind
    have hany : lc.entries.any (fun e => e.key = key) = true :=
      List.any_eq_true.2 ⟨entry, hmem, by simp [hkey]⟩
    have hlen := filter_key_length lc.entries key hany
    have hnd := filter_keys_nodup lc.entries key hnodup
    cases expired with
    | true =>
      simp only [if_true]
      refine ⟨rfl, ?_, hnd.2⟩
      simp only [LRUCache.Size, LRUCache.removeElement] at hsize ⊢
      omega
    | false =>
      simp only [Bool.false_eq_true, if_false]
      refine ⟨trivial, ?_, ?_⟩
      · simp only [LRUCache.Size, List.length_cons] at hsize ⊢
        omega
      · simp only [LRUCache.keys, List.map_cons, List.nodup_cons, hkey]
        exact hnd

theorem Remove_bounded (lc : LRUCache) (key : String) (hb : lc.Bounded) :
    (lc.Remove key).maxSize = lc.maxSize ∧ (lc.Remove key).Bounded := by
  obtain ⟨hsize, hnodup⟩ := hb
  simp only [LRUCache.keys] at hnodup
  unfold LRUCache.Remove
  split_ifs with hk
  · have hlen := filter_key_length lc.entries key hk
    refine ⟨rfl, ?_, (filter_keys_nodup lc.entries key hnodup).2⟩
    simp only [LRUCache.Size, LRUCache.removeElement] at hsize ⊢
    omega
  · exact ⟨rfl, hsize, hnodup⟩

theorem runCache_bounded (fuel : Nat) (calls : List CacheCall) (lc : LRUCache)
    (h1 : 1 ≤ lc.maxSize) (hb : lc.Bounded) (hf : 1 ≤ fuel) :
    ∃ lc1, runCache fuel lc calls = some lc1 ∧ lc1.maxSize = lc.maxSize ∧ lc1.Bounded := by
  induction calls generalizing lc with
  | nil => exact ⟨lc, rfl, rfl, hb⟩
  | cons c rest ih =>
    have hstep : ∃ lc1, c.apply fuel lc = some lc1 ∧ lc1.maxSize = lc.maxSize ∧ lc1.Bounded := by
      cases c with
      | set key value fileSize => exact Set_bounded fuel lc key value fileSize h1 hb hf
      | get key expired => exact ⟨_, rfl, Get_bounded lc key expired hb⟩
      | remove key => exact ⟨_, rfl, Remove_bounded lc key hb⟩
    obtain ⟨lc1, e1, hm, hb1⟩ := hstep
    obtain ⟨lc2, e2, hm2, hb2⟩ := ih lc1 (by rw [hm]; exact h1) hb1
    refine ⟨lc2, ?_, by rw [hm2, hm], hb2⟩
    rw [runCache]
    simp only [e1]
    exact e2

/-- C30: for a cache built with a capacity of at least 1, every sequence of
`Set`, `Get` and `Remove` calls runs to its end with one iteration allowed to
the loop of each `Set`, and afterwards the cache holds at most `maxSize` entries
under distinct keys (so this holds after every call); a `Set` of a new key on a
full cache removes exactly the entry at the back of the list, the least recently
used one, and puts the new entry at the front; and from any state of such a
cache the loop of `Set` ends within as many iterations as there are entries.
With a capacity below 1 the loop never ends, already for the first `Set` on the
empty cache: no number of iterations suffices. -/
theorem cache_stays_within_maxSize (maxSize : Int) (h : 1 ≤ maxSize) :
    (∀ (fuel : Nat) (calls : List CacheCall), 1 ≤ fuel →
      ∃ lc, runCache fuel (NewLRUCache maxSize) calls = some lc ∧ lc.maxSize = maxSize ∧
        lc.Size ≤ maxSize ∧ lc.keys.Nodup) ∧
    (∀ (lc : LRUCache) (key value : String) (fileSize : Int) (fuel : Nat),
      lc.maxSize = maxSize → lc.Size = maxSize → key ∉ lc.keys →
      lc.Set (fuel + 1) key value fileSize =
        some { lc with
          entries := { key := key, value := value, fileSize := fileSize } ::
            lc.entries.dropLast }) ∧
    (∀ (lc : LRUCache) (key value : String) (fileSize : Int),
      lc.maxSize = maxSize →
      ∃ lc1, lc.Set lc.entries.length key value fileSize = some lc1) ∧
    (∀ (capacity : Int) (fuel : Nat) (key value : String) (fileSize : Int), capacity ≤ 0 →
      (NewLRUCache capacity).Set fuel key value fileSize = none) := by
  refine ⟨?_, ?_, ?_, ?_⟩
  · intro fuel calls hf
    have hb : (NewLRUCache maxSize).Bounded := by
      refine ⟨?_, by simp [LRUCache.keys, NewLRUCache]⟩
      simp only [LRUCache.Size, NewLRUCache, List.length_nil]
      omega
    obtain ⟨lc, e, hm, hs, hn⟩ := runCache_bounded fuel calls (NewLRUCache maxSize) h hb hf
    exact ⟨lc, e, hm, by rw [← (show lc.maxSize = maxSize from hm)]; exact hs, hn⟩
  · intro lc key value fileSize fuel hm hs hk
    have hany : ¬ (lc.entries.any (fun e => e.key = key) = true) := by
      intro ha
      obtain ⟨e, he, hek⟩ := List.any_eq_true.1 ha
      exact hk (List.mem_map.2 ⟨e, he, by simpa using hek⟩)
    unfold LRUCache.Set
    rw [if_neg hany, evictLoop_full fuel lc (by rw [hm]; exact h) (by rw [hs, hm])]
    rfl
  · intro lc key value fileSize hm
    unfold LRUCache.Set
    split_ifs
    · exact ⟨_, rfl⟩
    · obtain ⟨lc1, e⟩ := evictLoop_terminates lc.entries.length lc (by rw [hm]; exact h)
        (Nat.le_refl _)
      rw [e]
      exact ⟨_, rfl⟩
  · intro capacity fuel key value fileSize hc
    unfold LRUCache.Set
    rw [if_neg (by simp [NewLRUCache]), evictLoop_diverges fuel _ hc]
    rfl

/-- C30, at a cache of two entries: the third key evicts "b.md", which was read
less recently than "a.md". -/
theorem cache_stays_within_maxSize_witness :
    (∃ lc, runCache 1 (NewLRUCache 2) cacheCalls = some lc ∧ lc.maxSize = 2 ∧
      lc.Size ≤ 2 ∧ lc.keys.Nodup) ∧
    (runCache 1 (NewLRUCache 2) cacheCalls).map LRUCache.keys = some ["c.md", "a.md"] ∧
    (NewLRUCache 0).Set 1000 "a.md" "alpha" 5 = none :=
  ⟨(cache_stays_within_maxSize 2 (by decide)).1 1 cacheCalls (by decide), by decide,
    (cache_stays_within_maxSize 2 (by decide)).2.2.2 0 1000 "a.md" "alpha" 5 (by decide)⟩

/-! ## Theorems: the evolution log -/

theorem updateLast_append (f : EvolutionLogEntry → EvolutionLogEntry)
    (init : List EvolutionLogEntry) (last : EvolutionLogEntry) :
    updateLast f (init ++ [last]) = init ++ [f last] := by
  induction init with
  | nil => rfl
  | cons e rest ih =>
    cases hr : rest ++ [last] with
    | nil => simp at hr
    | cons x xs =>
      rw [List.cons_append, hr, updateLast, ← hr, ih]
      · rfl
      · simp

theorem updateLast_length (f : EvolutionLogEntry → EvolutionLogEntry)
    (entries : List EvolutionLogEntry) : (updateLast f entries).length = entries.length := by
  rcases List.eq_nil_or_concat entries with h | ⟨init, last, h⟩
  · rw [h]
    rfl
  · rw [h, List.concat_eq_append, updateLast_append]
    simp

/-- C26: with a write that succeeds, `recordDecision` leaves the existing entries
in place and appends one entry of status pending that carries the action, the
reason and the steps of the plan; `learnFromResult` and `recordFailure` rewrite
the last entry only, the former setting its task id, the status completed, the
output, the learning and the completion time, the latter its task id, the status
failed, the error text and the completion time; the earlier entries and the
number of entries are unchanged, and a log without entries stays without. -/
theorem log_updates_touch_last_entry (file : LogFile) (now : String) :
    (∀ plan : ActionPlan,
      (recordDecision file plan now .ok).1.entries =
        file.entries ++
          [{ Timestamp := now, TaskID := "", Action := plan.Action, Decision := plan.Reason,
             Status := "pending", Result := "", Learning := "", CompletedAt := "",
             NextSteps := plan.Steps }] ∧
      (recordDecision file plan now .ok).2 = false) ∧
    (∀ (task : Task) (result : TaskResult),
      (learnFromResult file task result now .ok).1.entries.length = file.entries.length ∧
      (file.entries = [] → (learnFromResult file task result now .ok).1.entries = []) ∧
      ∀ (init : List EvolutionLogEntry) (last : EvolutionLogEntry),
        file.entries = init ++ [last] →
        (learnFromResult file task result now .ok).1.entries =
          init ++
            [{ last with
               TaskID := task.ID, Status := "completed", Result := result.Output,
               Learning := result.Learning, CompletedAt := now }]) ∧
    (∀ (task : Task) (err : String),
      (recordFailure file task err now .ok).entries.length = file.entries.length ∧
      (file.entries = [] → (recordFailure file task err now .ok).entries = []) ∧
      ∀ (init : List EvolutionLogEntry) (last : EvolutionLogEntry),
        file.entries = init ++ [last] →
        (recordFailure file task err now .ok).entries =
          init ++
            [{ last with
               TaskID := task.ID, Status := "failed", Result := err, CompletedAt := now }]) := by
  refine ⟨fun plan => ⟨rfl, rfl⟩, ?_, ?_⟩
  · intro task result
    refine ⟨?_, ?_, ?_⟩
    · simp only [learnFromResult, writeLog, updateLast_length]
    · intro h
      simp only [learnFromResult, writeLog, h, updateLast]
    · intro init last h
      simp only [learnFromResult, writeLog, h, updateLast_append]
  · intro task err
    refine ⟨?_, ?_, ?_⟩
    · simp only [recordFailure, writeLog, updateLast_length]
    · intro h
      simp only [recordFailure, writeLog, h, updateLast]
    · intro init last h
      simp only [recordFailure, writeLog, h, updateLast_append]

/-! ## Theorems: manual and queued tasks in the evolution log -/

/-- The two ways `Execute` returns: a result without error, or an error; the
task it leaves carries the id it was given. -/
theorem Execute_cases (env : ExecEnv) (task : Task) :
    ∃ t,
      ((∃ r, Execute env task = .returned t (some r) none) ∨
        (∃ r e, Execute env task = .returned t r (some e))) ∧ t.ID = task.ID := by
  cases hd : dispatch env (markRunning task) with
  | none => exact ⟨_, Or.inr ⟨_, _, Execute_unknown env task hd⟩, rfl⟩
  | some hr =>
    obtain ⟨result, err⟩ := hr
    cases err with
    | some e => exact ⟨_, Or.inr ⟨_, _, Execute_failed env task result e hd⟩, rfl⟩
    | none =>
      obtain ⟨completedAt, hc⟩ := dispatch_completedAt env (markRunning task) result hd
      exact ⟨_, Or.inl ⟨_, Execute_completed env task result completedAt hd hc⟩, rfl⟩

/-- Method `ExecuteTask` when the executor returns a result. -/
theorem ExecuteTask_completed (env : ExecEnv) (file : LogFile) (plan : ActionPlan)
    (id now logNow : String) (w : WriteOutcome) (t : Task) (r : TaskResult)
    (h : Execute env (NewTask plan id now) = .returned t (some r) none) :
    ExecuteTask env file plan id now logNow w =
      some (some r, none, (learnFromResult file t r logNow w).1) := by
  simp only [ExecuteTask, h]

/-- Method `ExecuteTask` when the executor returns an error. -/
theorem ExecuteTask_failed (env : ExecEnv) (file : LogFile) (plan : ActionPlan)
    (id now logNow : String) (w : WriteOutcome) (t : Task) (r0 : Option TaskResult) (e : String)
    (h : Execute env (NewTask plan id now) = .returned t r0 (some e)) :
    ExecuteTask env file plan id now logNow w =
      some (none, some e, recordFailure file t e logNow w) := by
  simp only [ExecuteTask, h]

/-- Method `processTaskQueue` when the executor returns a result for the
dequeued task. -/
theorem processTaskQueue_completed (env : ExecEnv) (s : QState) (file : LogFile)
    (dequeueNow : String) (w1 : WriteOutcome) (arrivals : List EnqueueInput)
    (updateNow : String) (w2 : WriteOutcome)
    (logNow : String) (w3 : WriteOutcome) (q1 : TaskQueue) (d1 : Disk)
    (queuedTask : QueuedTask) (plan : ActionPlan) (t : Task) (r : TaskResult)
    (hd : Dequeue s.q s.d dequeueNow w1 = (q1, d1, some queuedTask))
    (hp : queuedTask.ActionPlan = some plan)
    (h : Execute env (taskOfQueued queuedTask plan) = .returned t (some r) none) :
    processTaskQueue env s file dequeueNow w1 arrivals updateNow w2 logNow w3 =
      some ({ q := (UpdateTask (afterArrivals { q := q1, d := d1 } arrivals).q
                (afterArrivals { q := q1, d := d1 } arrivals).d queuedTask.ID "completed"
                (some r) updateNow w2).1,
              d := (UpdateTask (afterArrivals { q := q1, d := d1 } arrivals).q
                (afterArrivals { q := q1, d := d1 } arrivals).d queuedTask.ID "completed"
                (some r) updateNow w2).2.1 },
        (learnFromResult file t r logNow w3).1) := by
  simp only [processTaskQueue, hd, hp, h]

/-- Method `processTaskQueue` when the executor returns an error for the
dequeued task. -/
theorem processTaskQueue_failed (env : ExecEnv) (s : QState) (file : LogFile)
    (dequeueNow : String) (w1 : WriteOutcome) (arrivals : List EnqueueInput)
    (updateNow : String) (w2 : WriteOutcome)
    (logNow : String) (w3 : WriteOutcome) (q1 : TaskQueue) (d1 : Disk)
    (queuedTask : QueuedTask) (plan : ActionPlan) (t : Task) (r0 : Option TaskResult)
    (e : String)
    (hd : Dequeue s.q s.d dequeueNow w1 = (q1, d1, some queuedTask))
    (hp : queuedTask.ActionPlan = some plan)
    (h : Execute env (taskOfQueued queuedTask plan) = .returned t r0 (some e)) :
    processTaskQueue env s file dequeueNow w1 arrivals updateNow w2 logNow w3 =
      some ({ q := (UpdateTask (afterArrivals { q := q1, d := d1 } arrivals).q
                (afterArrivals { q := q1, d := d1 } arrivals).d queuedTask.ID "failed"
                (some { TaskResult.zero with Success := false, Error := e }) updateNow w2).1,
              d := (UpdateTask (afterArrivals { q := q1, d := d1 } arrivals).q
                (afterArrivals { q := q1, d := d1 } arrivals).d queuedTask.ID "failed"
                (some { TaskResult.zero with Success := false, Error := e }) updateNow w2).2.1 },
        recordFailure file t e logNow w3) := by
  simp only [processTaskQueue, hd, hp, h]

/-- Method `processTaskQueue` when there is nothing to dequeue. -/
theorem processTaskQueue_idle (env : ExecEnv) (s : QState) (file : LogFile)
    (dequeueNow : String) (w1 : WriteOutcome) (arrivals : List EnqueueInput)
    (updateNow : String) (w2 : WriteOutcome)
    (logNow : String) (w3 : WriteOutcome) (q1 : TaskQueue) (d1 : Disk)
    (hd : Dequeue s.q s.d dequeueNow w1 = (q1, d1, none)) :
    processTaskQueue env s file dequeueNow w1 arrivals updateNow w2 logNow w3 =
      some ({ q := q1, d := d1 }, file) := by
  simp only [processTaskQueue, hd]

/-- C29: `ExecuteTask` and `processTaskQueue` return (they never panic on a task
with a plan), the former with what `Execute` returned for the task it created,
the latter after reporting what `Execute` returned for the dequeued task to
`UpdateTask`, on the queue as the `Enqueue` calls served in the meantime left
it. Neither appends to the log: with a log write that succeeds the log
has as many entries as before, and when it is not empty its last entry is
rewritten, whatever status it had: its task id becomes the id of the manual or
queued task, its completion time the clock of the update, and, when `Execute`
returned a result, its status becomes completed and its result and learning the
output and learning of that result, while when `Execute` returned an error its
status becomes failed and its result the text of that error. The entries before
the last are unchanged, and a `processTaskQueue` that finds nothing to dequeue
leaves the log as it is. -/
theorem manual_and_queued_tasks_rewrite_last_entry (env : ExecEnv) (file : LogFile)
    (logNow : String) :
    (∀ (plan : ActionPlan) (id now : String),
      ∃ result err file1,
        ExecuteTask env file plan id now logNow .ok = some (result, err, file1) ∧
        file1.entries.length = file.entries.length ∧
        ((∃ t r, Execute env (NewTask plan id now) = .returned t (some r) none ∧
            result = some r ∧ err = none ∧
            ∀ (init : List EvolutionLogEntry) (last : EvolutionLogEntry),
              file.entries = init ++ [last] →
              file1.entries =
                init ++
                  [{ last with
                     TaskID := id, Status := "completed", Result := r.Output,
                     Learning := r.Learning, CompletedAt := logNow }]) ∨
          (∃ t r0 e, Execute env (NewTask plan id now) = .returned t r0 (some e) ∧
            result = none ∧ err = some e ∧
            ∀ (init : List EvolutionLogEntry) (last : EvolutionLogEntry),
              file.entries = init ++ [last] →
              file1.entries =
                init ++
                  [{ last with
                     TaskID := id, Status := "failed", Result := e, CompletedAt := logNow }]))) ∧
    (∀ (s : QState) (dequeueNow updateNow : String) (w1 w2 : WriteOutcome)
      (arrivals : List EnqueueInput)
      (q1 : TaskQueue) (d1 : Disk) (queuedTask : QueuedTask) (plan : ActionPlan),
      Dequeue s.q s.d dequeueNow w1 = (q1, d1, some queuedTask) →
      queuedTask.ActionPlan = some plan →
      ∃ s1 file1,
        processTaskQueue env s file dequeueNow w1 arrivals updateNow w2 logNow .ok =
          some (s1, file1) ∧
        file1.entries.length = file.entries.length ∧
        ((∃ t r, Execute env (taskOfQueued queuedTask plan) = .returned t (some r) none ∧
            s1 =
              { q := (UpdateTask (afterArrivals { q := q1, d := d1 } arrivals).q
                    (afterArrivals { q := q1, d := d1 } arrivals).d queuedTask.ID "completed"
                    (some r) updateNow w2).1,
                d := (UpdateTask (afterArrivals { q := q1, d := d1 } arrivals).q
                    (afterArrivals { q := q1, d := d1 } arrivals).d queuedTask.ID "completed"
                    (some r) updateNow w2).2.1 } ∧
            ∀ (init : List EvolutionLogEntry) (last : EvolutionLogEntry),
              file.entries = init ++ [last] →
              file1.entries =
                init ++
                  [{ last with
                     TaskID := queuedTask.ID, Status := "completed", Result := r.Output,
                     Learning := r.Learning, CompletedAt := logNow }]) ∨
          (∃ t r0 e, Execute env (taskOfQueued queuedTask plan) = .returned t r0 (some e) ∧
            s1 =
              { q := (UpdateTask (afterArrivals { q := q1, d := d1 } arrivals).q
                    (afterArrivals { q := q1, d := d1 } arrivals).d queuedTask.ID "failed"
                    (some { TaskResult.zero with Success := false, Error := e }) updateNow w2).1,
                d := (UpdateTask (afterArrivals { q := q1, d := d1 } arrivals).q
                    (afterArrivals { q := q1, d := d1 } arrivals).d queuedTask.ID "failed"
                    (some { TaskResult.zero with Success := false, Error := e })
                    updateNow w2).2.1 } ∧
            ∀ (init : List EvolutionLogEntry) (last : EvolutionLogEntry),
              file.entries = init ++ [last] →
              file1.entries =
                init ++
                  [{ last with
                     TaskID := queuedTask.ID, Status := "failed", Result := e,
                     CompletedAt := logNow }]))) ∧
    (∀ (s : QState) (dequeueNow updateNow : String) (w1 w2 w3 : WriteOutcome)
      (arrivals : List EnqueueInput) (q1 : TaskQueue) (d1 : Disk),
      Dequeue s.q s.d dequeueNow w1 = (q1, d1, none) →
      processTaskQueue env s file dequeueNow w1 arrivals updateNow w2 logNow w3 =
        some ({ q := q1, d := d1 }, file)) := by
  refine ⟨?_, ?_, ?_⟩
  · intro plan id now
    obtain ⟨t, h | h, hid⟩ := Execute_cases env (NewTask plan id now)
    · obtain ⟨r, hr⟩ := h
      refine ⟨_, _, _, ExecuteTask_completed env file plan id now logNow .ok t r hr, ?_,
        Or.inl ⟨t, r, hr, rfl, rfl, ?_⟩⟩
      · simp only [learnFromResult, writeLog, updateLast_length]
      · intro init last hf
        have hid2 : t.ID = id := hid
        simp only [learnFromResult, writeLog, hf, updateLast_append, hid2]
    · obtain ⟨r0, e, hr⟩ := h
      refine ⟨_, _, _, ExecuteTask_failed env file plan id now logNow .ok t r0 e hr, ?_,
        Or.inr ⟨t, r0, e, hr, rfl, rfl, ?_⟩⟩
      · simp only [recordFailure, writeLog, updateLast_length]
      · intro init last hf
        have hid2 : t.ID = id := hid
        simp only [recordFailure, writeLog, hf, updateLast_append, hid2]
  · intro s dequeueNow updateNow w1 w2 arrivals q1 d1 queuedTask plan hd hp
    obtain ⟨t, h | h, hid⟩ := Execute_cases env (taskOfQueued queuedTask plan)
    · obtain ⟨r, hr⟩ := h
      refine ⟨_, _, processTaskQueue_completed env s file dequeueNow w1 arrivals updateNow w2
        logNow .ok q1 d1 queuedTask plan t r hd hp hr, ?_, Or.inl ⟨t, r, hr, rfl, ?_⟩⟩
      · simp only [learnFromResult, writeLog, updateLast_length]
      · intro init last hf
        have hid2 : t.ID = queuedTask.ID := hid
        simp only [learnFromResult, writeLog, hf, updateLast_append, hid2]
    · obtain ⟨r0, e, hr⟩ := h
      refine ⟨_, _, processTaskQueue_failed env s file dequeueNow w1 arrivals updateNow w2
        logNow .ok q1 d1 queuedTask plan t r0 e hd hp hr, ?_, Or.inr ⟨t, r0, e, hr, rfl, ?_⟩⟩
      · simp only [recordFailure, writeLog, updateLast_length]
      · intro init last hf
        have hid2 : t.ID = queuedTask.ID := hid
        simp only [recordFailure, writeLog, hf, updateLast_append, hid2]
  · intro s dequeueNow updateNow w1 w2 w3 arrivals q1 d1 hd
    exact processTaskQueue_idle env s file dequeueNow w1 arrivals updateNow w2 logNow w3 q1 d1 hd

/-- C29, at a log whose last entry records a completed decision to summarize: a
manual recall task, and then a queued one during whose execution another task
arrives, take the entry over. -/
theorem manual_and_queued_tasks_rewrite_last_entry_witness :
    (∃ result err file1,
      ExecuteTask sampleEnv sampleLog (recallPlan "go") "task-20260101-090000-aaaaa1"
          "2026-01-01T09:00:00Z" "2026-01-01T09:00:01Z" .ok = some (result, err, file1) ∧
      file1.entries.length = sampleLog.entries.length ∧
      ((∃ t r,
          Execute sampleEnv
              (NewTask (recallPlan "go") "task-20260101-090000-aaaaa1"
                "2026-01-01T09:00:00Z") =
            .returned t (some r) none ∧
          result = some r ∧ err = none ∧
          ∀ (init : List EvolutionLogEntry) (last : EvolutionLogEntry),
            sampleLog.entries = init ++ [last] →
            file1.entries =
              init ++
                [{ last with
                   TaskID := "task-20260101-090000-aaaaa1", Status := "completed",
                   Result := r.Output, Learning := r.Learning,
                   CompletedAt := "2026-01-01T09:00:01Z" }]) ∨
        (∃ t r0 e,
          Execute sampleEnv
              (NewTask (recallPlan "go") "task-20260101-090000-aaaaa1"
                "2026-01-01T09:00:00Z") =
            .returned t r0 (some e) ∧
          result = none ∧ err = some e ∧
          ∀ (init : List EvolutionLogEntry) (last : EvolutionLogEntry),
            sampleLog.entries = init ++ [last] →
            file1.entries =
              init ++
                [{ last with
                   TaskID := "task-20260101-090000-aaaaa1", Status := "failed", Result := e,
                   CompletedAt := "2026-01-01T09:00:01Z" }]))) ∧
    (ExecuteTask sampleEnv sampleLog (recallPlan "go") "task-20260101-090000-aaaaa1"
        "2026-01-01T09:00:00Z" "2026-01-01T09:00:01Z" .ok).map (fun r => r.2.2.entries) =
      some
        [{ Timestamp := "2026-01-01T07:00:00Z", TaskID := "", Action := "idle", Decision := "",
           Status := "pending", Result := "", Learning := "", CompletedAt := "",
           NextSteps := [] },
          { decidedEntry with
            TaskID := "task-20260101-090000-aaaaa1", Status := "completed",
            Result := "Found 3 results for query: go", Learning := "检索到 3 条相关记忆",
            CompletedAt := "2026-01-01T09:00:01Z" }] ∧
    (processTaskQueue sampleEnv (enqueueRecall.apply emptyState) sampleLog
        "2026-01-01T09:00:30Z" .ok [recallAtNine 2] "2026-01-01T09:00:31Z" .ok
        "2026-01-01T09:00:32Z" .ok).map
      (fun r => (statuses r.1, r.2.entries)) =
      some (["completed", "pending"],
        [{ Timestamp := "2026-01-01T07:00:00Z", TaskID := "", Action := "idle", Decision := "",
           Status := "pending", Result := "", Learning := "", CompletedAt := "",
           NextSteps := [] },
          { decidedEntry with
            TaskID := "task-20260101-090000-aaaaa1", Status := "completed",
            Result := "Found 3 results for query: go", Learning := "检索到 3 条相关记忆",
            CompletedAt := "2026-01-01T09:00:32Z" }]) :=
  ⟨(manual_and_queued_tasks_rewrite_last_entry sampleEnv sampleLog "2026-01-01T09:00:01Z").1
      (recallPlan "go") "task-20260101-090000-aaaaa1" "2026-01-01T09:00:00Z",
    by decide, by decide⟩

/-! ## Theorems: the lifecycle of a task under the engine -/

/-- What `Dequeue` has done when it returns a task. -/
theorem Dequeue_some (q : TaskQueue) (d : Disk) (now : String) (w : WriteOutcome)
    (q1 : TaskQueue) (d1 : Disk) (qt : QueuedTask)
    (h : Dequeue q d now w = (q1, d1, some qt)) :
    ∃ i t, q.tasks[i]? = some t ∧ qt = { t with Status := "running", StartedAt := now } ∧
      q1.tasks = q.tasks.set i qt := by
  unfold Dequeue at h
  cases hb : scanBest q.tasks 0 none (-1) with
  | none => simp [hb] at h
  | some i =>
    simp only [hb] at h
    cases ht : q.tasks[i]? with
    | none => simp [ht] at h
    | some t =>
      simp only [ht, Prod.mk.injEq, Option.some.injEq] at h
      obtain ⟨h1, _, h3⟩ := h
      refine ⟨i, t, ht, h3.symm, ?_⟩
      rw [← h1, h3]

/-- What `Dequeue` has done when it returns nil: nothing. -/
theorem Dequeue_none (q : TaskQueue) (d : Disk) (now : String) (w : WriteOutcome)
    (q1 : TaskQueue) (d1 : Disk) (h : Dequeue q d now w = (q1, d1, none)) : q1 = q := by
  unfold Dequeue at h
  cases hb : scanBest q.tasks 0 none (-1) with
  | none =>
    simp only [hb, Prod.mk.injEq] at h
    exact h.1.symm
  | some i =>
    simp only [hb] at h
    cases ht : q.tasks[i]? with
    | none =>
      simp only [ht, Prod.mk.injEq] at h
      exact h.1.symm
    | some t => simp [ht] at h

/-- Replacing a task by one of the same id and plan keeps the ids and the plans
of the queue. -/
theorem set_keeps (ts : List QueuedTask) (i : Nat) (t u : QueuedTask) (ht : ts[i]? = some t)
    (hid : u.ID = t.ID) (hplan : u.ActionPlan = t.ActionPlan) :
    (ts.set i u).map (·.ID) = ts.map (·.ID) ∧
      (ts.set i u).map (·.ActionPlan) = ts.map (·.ActionPlan) := by
  induction ts generalizing i with
  | nil => simp
  | cons x rest ih =>
    cases i with
    | zero =>
      simp only [List.getElem?_cons_zero, Option.some.injEq] at ht
      subst ht
      simp [hid, hplan]
    | succ k =>
      simp only [List.getElem?_cons_succ] at ht
      obtain ⟨h1, h2⟩ := ih k ht
      simp only [List.set_cons_succ, List.map_cons, h1, h2, and_self]

/-- `UpdateTask` keeps the ids and the plans of the queue. -/
theorem updateFirst_keeps (taskID status : String) (result : Option TaskResult) (now : String)
    (ts ts1 : List QueuedTask) (h : updateFirst taskID status result now ts = some ts1) :
    ts1.map (·.ID) = ts.map (·.ID) ∧ ts1.map (·.ActionPlan) = ts.map (·.ActionPlan) := by
  induction ts generalizing ts1 with
  | nil => simp [updateFirst] at h
  | cons x rest ih =>
    rw [updateFirst] at h
    by_cases hx : x.ID = taskID
    · rw [if_pos hx] at h
      injection h with h
      subst h
      constructor <;> simp only [List.map_cons] <;> congr 1 <;> split_ifs <;> rfl
    · rw [if_neg hx] at h
      cases hr : updateFirst taskID status result now rest with
      | none => simp [hr] at h
      | some rest1 =>
        simp [hr] at h
        subst h
        obtain ⟨h1, h2⟩ := ih rest1 hr
        simp only [List.map_cons, h1, h2, and_self]

/-- In a queue without shared ids the first task that carries the id of a task
is that task. -/
theorem find_of_nodup (ts : List QueuedTask) (i : Nat) (t : QueuedTask)
    (hn : (ts.map (·.ID)).Nodup) (ht : ts[i]? = some t) :
    ts.find? (fun task => decide (task.ID = t.ID)) = some t := by
  induction ts generalizing i with
  | nil => simp at ht
  | cons x rest ih =>
    simp only [List.map_cons, List.nodup_cons] at hn
    cases i with
    | zero =>
      simp only [List.getElem?_cons_zero, Option.some.injEq] at ht
      subst ht
      simp [List.find?]
    | succ k =>
      simp only [List.getElem?_cons_succ] at ht
      have hne : x.ID ≠ t.ID := by
        intro e
        apply hn.1
        rw [e]
        exact List.mem_map.2 ⟨t, List.getElem?_mem ht, rfl⟩
      simp only [List.find?, hne, decide_False]
      exact ih k hn.2 ht

/-- The `Enqueue` calls served in the meantime append their tasks, each with a
plan, and leave the tasks before them as they are. -/
theorem afterArrivals_tasks (arrivals : List EnqueueInput) (s : QState) :
    ∃ new, (afterArrivals s arrivals).q.tasks = s.q.tasks ++ new ∧
      new.map (·.ID) = arrivalIDs arrivals ∧ ∀ t ∈ new, t.ActionPlan ≠ none := by
  induction arrivals generalizing s with
  | nil => exact ⟨[], by simp [afterArrivals, runCalls], rfl, by simp⟩
  | cons e rest ih =>
    obtain ⟨new, h1, h2, h3⟩ := ih (e.call.apply s)
    have hstep : afterArrivals s (e :: rest) = afterArrivals (e.call.apply s) rest := by
      simp only [afterArrivals, runCalls, List.map_cons, List.foldl_cons]
    rw [hstep, h1]
    refine ⟨(Enqueue s.q s.d e.plan e.createdBy (generateTaskID e.clock e.draw) e.now
      e.write).2.2.1 :: new, ?_, ?_, ?_⟩
    · simp [EnqueueInput.call, QueueCall.apply, Enqueue]
    · simp only [List.map_cons, h2, arrivalIDs]
      rfl
    · intro t ht
      rcases List.mem_cons.1 ht with h | h
      · rw [h]
        simp [Enqueue]
      · exact h3 t h

/-- One `processTaskQueue` on a queue whose tasks, those that arrive in the
meantime included, carry different ids and have a plan: it returns, appends the
arrivals, and moves every status along the lifecycle. -/
theorem processTaskQueue_status (env : ExecEnv) (s : QState) (file : LogFile)
    (dequeueNow : String) (w1 : WriteOutcome) (arrivals : List EnqueueInput)
    (updateNow : String) (w2 : WriteOutcome) (logNow : String) (w3 : WriteOutcome)
    (hn : (taskIDs s ++ arrivalIDs arrivals).Nodup)
    (hp : ∀ t ∈ s.q.tasks, t.ActionPlan ≠ none) :
    ∃ s1 file1,
      processTaskQueue env s file dequeueNow w1 arrivals updateNow w2 logNow w3 =
        some (s1, file1) ∧
      (taskIDs s1 = taskIDs s ∨ taskIDs s1 = taskIDs s ++ arrivalIDs arrivals) ∧
      (∀ t ∈ s1.q.tasks, t.ActionPlan ≠ none) ∧
      ∀ (i : Nat) (t : QueuedTask), s.q.tasks[i]? = some t →
        ∃ t1, s1.q.tasks[i]? = some t1 ∧ StatusPath t.Status t1.Status := by
  have hn0 : (s.q.tasks.map (·.ID)).Nodup :=
    List.Nodup.sublist (List.sublist_append_left _ _) hn
  rcases hq : Dequeue s.q s.d dequeueNow w1 with ⟨q1, d1, o⟩
  have hdq : ∀ (i : Nat) (t : QueuedTask), s.q.tasks[i]? = some t →
      ∃ t1, q1.tasks[i]? = some t1 ∧ StatusPath t.Status t1.Status := by
    have h := apply_status s (.dequeue dequeueNow w1) trivial
    simp only [QueueCall.apply, hq] at h
    exact h
  cases o with
  | none =>
    have hq1 := Dequeue_none s.q s.d dequeueNow w1 q1 d1 hq
    refine ⟨_, _, processTaskQueue_idle env s file dequeueNow w1 arrivals updateNow w2 logNow w3
      q1 d1 hq, Or.inl ?_, ?_, hdq⟩
    · simp only [taskIDs, hq1]
    · simp only [hq1]
      exact hp
  | some qt =>
    obtain ⟨i, t0, ht0, hqt, hset⟩ := Dequeue_some s.q s.d dequeueNow w1 q1 d1 qt hq
    have hkeep := set_keeps s.q.tasks i t0 qt ht0 (by rw [hqt]) (by rw [hqt])
    rw [← hset] at hkeep
    have hlt : i < s.q.tasks.length := by
      rcases Nat.lt_or_ge i s.q.tasks.length with h | h
      · exact h
      · rw [List.getElem?_eq_none h] at ht0
        cases ht0
    have hlen1 : q1.tasks.length = s.q.tasks.length := by
      rw [hset, List.length_set]
    have hqi : q1.tasks[i]? = some qt := by
      rw [hset, List.getElem?_set_eq_of_lt _ hlt]
    obtain ⟨new, hnew, hnewids, hnewplans⟩ := afterArrivals_tasks arrivals { q := q1, d := d1 }
    have hids2 : (afterArrivals { q := q1, d := d1 } arrivals).q.tasks.map (·.ID) =
        taskIDs s ++ arrivalIDs arrivals := by
      rw [hnew, List.map_append, hnewids]
      show q1.tasks.map (·.ID) ++ _ = _
      rw [hkeep.1]
      rfl
    have hn2 : ((afterArrivals { q := q1, d := d1 } arrivals).q.tasks.map (·.ID)).Nodup := by
      rw [hids2]
      exact hn
    have hat : ∀ (j : Nat) (u : QueuedTask), q1.tasks[j]? = some u →
        (afterArrivals { q := q1, d := d1 } arrivals).q.tasks[j]? = some u := by
      intro j u hj
      have hjl : j < q1.tasks.length := by
        rcases Nat.lt_or_ge j q1.tasks.length with h | h
        · exact h
        · rw [List.getElem?_eq_none h] at hj
          cases hj
      rw [hnew]
      show (q1.tasks ++ new)[j]? = some u
      rw [List.getElem?_append_left hjl]
      exact hj
    have hfind := find_of_nodup _ i qt hn2 (hat i qt hqi)
    have hrunning : qt.Status = "running" := by rw [hqt]
    have hplans2 : ∀ t ∈ (afterArrivals { q := q1, d := d1 } arrivals).q.tasks,
        t.ActionPlan ≠ none := by
      intro t ht
      rw [hnew] at ht
      rcases List.mem_append.1 ht with h | h
      · have hm : t.ActionPlan ∈ q1.tasks.map (·.ActionPlan) := List.mem_map.2 ⟨t, h, rfl⟩
        rw [hkeep.2] at hm
        obtain ⟨u, hu, hue⟩ := List.mem_map.1 hm
        rw [← hue]
        exact hp u hu
      · exact hnewplans t h
    have hplan : ∃ plan, qt.ActionPlan = some plan := by
      have h1 : qt.ActionPlan = t0.ActionPlan := by rw [hqt]
      have h2 := hp t0 (List.getElem?_mem ht0)
      rw [h1]
      cases hpl : t0.ActionPlan with
      | none => exact absurd hpl h2
      | some plan => exact ⟨plan, rfl⟩
    obtain ⟨plan, hplan⟩ := hplan
    have hupd : ∀ (status : String) (result : Option TaskResult),
        status = "completed" ∨ status = "failed" →
        (UpdateTask (afterArrivals { q := q1, d := d1 } arrivals).q
            (afterArrivals { q := q1, d := d1 } arrivals).d qt.ID status result updateNow
            w2).1.tasks.map (·.ID) = taskIDs s ++ arrivalIDs arrivals ∧
          (∀ t ∈ (UpdateTask (afterArrivals { q := q1, d := d1 } arrivals).q
            (afterArrivals { q := q1, d := d1 } arrivals).d qt.ID status result updateNow
            w2).1.tasks, t.ActionPlan ≠ none) ∧
          ∀ (j : Nat) (t : QueuedTask), s.q.tasks[j]? = some t →
            ∃ t1, (UpdateTask (afterArrivals { q := q1, d := d1 } arrivals).q
              (afterArrivals { q := q1, d := d1 } arrivals).d qt.ID status result updateNow
              w2).1.tasks[j]? = some t1 ∧ StatusPath t.Status t1.Status := by
      intro status result hst
      have hresp : (QueueCall.update qt.ID status result updateNow w2).respectsLifecycle
          (afterArrivals { q := q1, d := d1 } arrivals) := by
        refine ⟨hst, ?_⟩
        intro t ht
        simp only [GetTask] at ht
        rw [hfind] at ht
        injection ht with ht
        rw [← ht]
        exact hrunning
      have hst2 := apply_status (afterArrivals { q := q1, d := d1 } arrivals)
        (.update qt.ID status result updateNow w2) hresp
      simp only [QueueCall.apply] at hst2
      have hk : (UpdateTask (afterArrivals { q := q1, d := d1 } arrivals).q
            (afterArrivals { q := q1, d := d1 } arrivals).d qt.ID status result updateNow
            w2).1.tasks.map (·.ID) =
            (afterArrivals { q := q1, d := d1 } arrivals).q.tasks.map (·.ID) ∧
          (UpdateTask (afterArrivals { q := q1, d := d1 } arrivals).q
            (afterArrivals { q := q1, d := d1 } arrivals).d qt.ID status result updateNow
            w2).1.tasks.map (·.ActionPlan) =
            (afterArrivals { q := q1, d := d1 } arrivals).q.tasks.map (·.ActionPlan) := by
        simp only [UpdateTask]
        cases hu : updateFirst qt.ID status result updateNow
            (afterArrivals { q := q1, d := d1 } arrivals).q.tasks with
        | none => exact ⟨rfl, rfl⟩
        | some ts1 => exact updateFirst_keeps _ _ _ _ _ _ hu
      refine ⟨?_, ?_, ?_⟩
      · rw [hk.1, hids2]
      · intro t ht
        have hm : t.ActionPlan ∈ (UpdateTask (afterArrivals { q := q1, d := d1 } arrivals).q
            (afterArrivals { q := q1, d := d1 } arrivals).d qt.ID status result updateNow
            w2).1.tasks.map (·.ActionPlan) := List.mem_map.2 ⟨t, ht, rfl⟩
        rw [hk.2] at hm
        obtain ⟨u, hu, hue⟩ := List.mem_map.1 hm
        rw [← hue]
        exact hplans2 u hu
      · intro j t hj
        obtain ⟨t1, h1, p1⟩ := hdq j t hj
        obtain ⟨t2, h2, p2⟩ := hst2 j t1 (hat j t1 h1)
        exact ⟨t2, h2, p1.trans p2⟩
    obtain ⟨t, h | h, _⟩ := Execute_cases env (taskOfQueued qt plan)
    · obtain ⟨r, hr⟩ := h
      obtain ⟨hu1, hu2, hu3⟩ := hupd "completed" (some r) (Or.inl rfl)
      exact ⟨_, _, processTaskQueue_completed env s file dequeueNow w1 arrivals updateNow w2
        logNow w3 q1 d1 qt plan t r hq hplan hr, Or.inr hu1, hu2, hu3⟩
    · obtain ⟨r0, e, hr⟩ := h
      obtain ⟨hu1, hu2, hu3⟩ := hupd "failed"
        (some { TaskResult.zero with Success := false, Error := e }) (Or.inr rfl)
      exact ⟨_, _, processTaskQueue_failed env s file dequeueNow w1 arrivals updateNow w2
        logNow w3 q1 d1 qt plan t r0 e hq hplan hr, Or.inr hu1, hu2, hu3⟩

/-- A run of the engine whose tasks all carry different ids and have a plan
returns, keeps every task in the queue, and moves every status along the
lifecycle. -/
theorem runEngine_status (calls : List EngineCall) (s : QState) (file : LogFile)
    (hids : (taskIDs s ++ enqueuedIDs calls).Nodup)
    (hplans : ∀ t ∈ s.q.tasks, t.ActionPlan ≠ none) :
    ∃ s1 file1, runEngine (s, file) calls = some (s1, file1) ∧
      (∃ more, taskIDs s1 = taskIDs s ++ more ∧ List.Sublist more (enqueuedIDs calls)) ∧
      ∀ (i : Nat) (t : QueuedTask), s.q.tasks[i]? = some t →
        ∃ t1, s1.q.tasks[i]? = some t1 ∧ StatusPath t.Status t1.Status := by
  induction calls generalizing s file with
  | nil =>
    exact ⟨s, file, rfl, ⟨[], by simp, List.Sublist.refl _⟩,
      fun i t hi => ⟨t, hi, Or.inl rfl⟩⟩
  | cons c rest ih =>
    cases c with
    | enqueue e =>
      have htasks : taskIDs (e.call.apply s) = taskIDs s ++ [generateTaskID e.clock e.draw] := by
        simp [taskIDs, EnqueueInput.call, QueueCall.apply, Enqueue]
      have hids1 : (taskIDs (e.call.apply s) ++ enqueuedIDs rest).Nodup := by
        rw [htasks, List.append_assoc]
        simpa only [enqueuedIDs] using hids
      have hplans1 : ∀ t ∈ (e.call.apply s).q.tasks, t.ActionPlan ≠ none := by
        intro t ht
        simp only [EnqueueInput.call, QueueCall.apply, Enqueue, List.mem_append,
          List.mem_singleton] at ht
        rcases ht with h | h
        · exact hplans t h
        · rw [h]
          simp
      obtain ⟨s1, file1, hrun, ⟨more, hid1, hsub⟩, hst⟩ := ih (e.call.apply s) file hids1 hplans1
      refine ⟨s1, file1, ?_, ⟨generateTaskID e.clock e.draw :: more, ?_, ?_⟩, ?_⟩
      · simp only [runEngine, EngineCall.apply]
        exact hrun
      · rw [hid1, htasks, List.append_assoc]
        rfl
      · simp only [enqueuedIDs]
        exact List.Sublist.cons₂ _ hsub
      · intro i t hi
        obtain ⟨t1, h1, p1⟩ := apply_status s e.call trivial i t hi
        obtain ⟨t2, h2, p2⟩ := hst i t1 h1
        exact ⟨t2, h2, p1.trans p2⟩
    | process env dequeueNow w1 arrivals updateNow w2 logNow w3 =>
      have hids0 : (taskIDs s ++ arrivalIDs arrivals ++ enqueuedIDs rest).Nodup := by
        rw [List.append_assoc]
        simpa only [enqueuedIDs] using hids
      have hn : (taskIDs s ++ arrivalIDs arrivals).Nodup :=
        List.Nodup.sublist (List.sublist_append_left _ _) hids0
      obtain ⟨s0, file0, hproc, hid0, hplan0, hst0⟩ :=
        processTaskQueue_status env s file dequeueNow w1 arrivals updateNow w2 logNow w3 hn
          hplans
      have hids1 : (taskIDs s0 ++ enqueuedIDs rest).Nodup := by
        rcases hid0 with h | h
        · rw [h]
          exact List.Nodup.sublist
            (List.Sublist.append (List.sublist_append_left _ _) (List.Sublist.refl _)) hids0
        · rw [h]
          exact hids0
      obtain ⟨s1, file1, hrun, ⟨more, hid1, hsub⟩, hst⟩ := ih s0 file0 hids1 hplan0
      refine ⟨s1, file1, ?_, ?_, ?_⟩
      · simp only [runEngine, EngineCall.apply, hproc]
        exact hrun
      · rcases hid0 with h | h
        · refine ⟨more, by rw [hid1, h], ?_⟩
          simp only [enqueuedIDs]
          exact List.Sublist.trans hsub (List.sublist_append_right _ _)
        · refine ⟨arrivalIDs arrivals ++ more, by rw [hid1, h, List.append_assoc], ?_⟩
          simp only [enqueuedIDs]
          exact List.Sublist.append (List.Sublist.refl _) hsub
      · intro i t hi
        obtain ⟨t1, h1, p1⟩ := hst0 i t hi
        obtain ⟨t2, h2, p2⟩ := hst i t1 h1
        exact ⟨t2, h2, p1.trans p2⟩

/-- C2 fails as stated: a task that was enqueued, dequeued and reported
completed is returned to pending by `UpdateTask(id, "pending", nil)`. And the
engine itself reverses a status when two tasks share an id: with two recall
tasks enqueued under one id, the first is processed and completed, and when the
second is processed and fails, `processTaskQueue` reports the failure to the
first task with that id, which goes from completed to failed, while the second
stays running. -/
theorem update_returns_completed_to_pending :
    statuses (runCalls emptyState lifecycleCalls) = ["completed"] ∧
    statuses (runCalls emptyState (lifecycleCalls ++
      [.update "task-20260101-090000-aaaaa1" "pending" none "2026-01-01T09:10:00Z" .ok])) =
      ["pending"] ∧
    statusTrace sharedIdCalls =
      [some [], some ["pending"], some ["pending", "pending"], some ["completed", "pending"],
        some ["failed", "running"]] := by
  decide

/-- C2, amended: along every run of the program on the queue, in which clients
have tasks enqueued, also while a task is being executed, and the engine runs
`processTaskQueue`, the run returns, every task stays in the queue at its place
and its status only moves along pending, running, then completed or failed,
provided no two tasks of the run carry the same id (and the tasks the run starts
from have a plan, as every enqueued task has). The same holds along every run of
`Enqueue`, `Dequeue` and `UpdateTask` calls in which each `UpdateTask` passes
completed or failed for an id whose first task is running; and `Execute` on a
pending or running task leaves it running, completed or failed. -/
theorem status_moves_along_lifecycle (s : QState) (file : LogFile) (calls : List EngineCall)
    (hids : (taskIDs s ++ enqueuedIDs calls).Nodup)
    (hplans : ∀ t ∈ s.q.tasks, t.ActionPlan ≠ none)
    (cs : List QueueCall) (hcs : runRespectsLifecycle s cs) (env : ExecEnv) (task : Task)
    (htask : task.Status = "pending" ∨ task.Status = "running") :
    (∃ s1 file1, runEngine (s, file) calls = some (s1, file1) ∧
      (∃ more, taskIDs s1 = taskIDs s ++ more ∧ List.Sublist more (enqueuedIDs calls)) ∧
      ∀ (i : Nat) (t : QueuedTask), s.q.tasks[i]? = some t →
        ∃ t1, s1.q.tasks[i]? = some t1 ∧ StatusPath t.Status t1.Status) ∧
    (∀ (i : Nat) (t : QueuedTask), s.q.tasks[i]? = some t →
      ∃ t1, (runCalls s cs).q.tasks[i]? = some t1 ∧ StatusPath t.Status t1.Status) ∧
    StatusPath task.Status (Execute env task).task.Status := by
  refine ⟨runEngine_status calls s file hids hplans, runCalls_status cs s hcs, ?_⟩
  unfold StatusPath
  rcases htask with h | h <;> rcases Execute_status env task with h1 | h1 | h1 <;>
    rw [h, h1] <;> simp

/-- Witness of `status_moves_along_lifecycle`: with a recall task in the queue,
the engine processes it while a second one arrives under another id, a third is
enqueued, and the second fails when processed; and a fresh recall task is
executed. -/
theorem status_moves_along_lifecycle_witness :
    (taskIDs (enqueueRecall.apply emptyState) ++ enqueuedIDs distinctIdCalls.tail).Nodup ∧
    runRespectsLifecycle (enqueueRecall.apply emptyState) processCalls ∧
    statusTrace distinctIdCalls =
      [some [], some ["pending"], some ["completed", "pending"],
        some ["completed", "pending", "pending"], some ["completed", "failed", "pending"]] ∧
    ((∃ s1 file1,
        runEngine (enqueueRecall.apply emptyState, { entries := [], writes := 0 })
          distinctIdCalls.tail = some (s1, file1) ∧
        (∃ more, taskIDs s1 = taskIDs (enqueueRecall.apply emptyState) ++ more ∧
          List.Sublist more (enqueuedIDs distinctIdCalls.tail)) ∧
        ∀ (i : Nat) (t : QueuedTask), (enqueueRecall.apply emptyState).q.tasks[i]? = some t →
          ∃ t1, s1.q.tasks[i]? = some t1 ∧ StatusPath t.Status t1.Status) ∧
      (∀ (i : Nat) (t : QueuedTask), (enqueueRecall.apply emptyState).q.tasks[i]? = some t →
        ∃ t1, (runCalls (enqueueRecall.apply emptyState) processCalls).q.tasks[i]? = some t1 ∧
          StatusPath t.Status t1.Status) ∧
      StatusPath
        (NewTask (recallPlan "go") "task-20260101-090000-aaaaa1" "2026-01-01T09:00:00Z").Status
        (Execute sampleEnv
          (NewTask (recallPlan "go") "task-20260101-090000-aaaaa1"
            "2026-01-01T09:00:00Z")).task.Status) :=
  have hids : (taskIDs (enqueueRecall.apply emptyState) ++
      enqueuedIDs distinctIdCalls.tail).Nodup := by decide
  have hplans : ∀ t ∈ (enqueueRecall.apply emptyState).q.tasks, t.ActionPlan ≠ none := by
    intro t ht
    have h : (enqueueRecall.apply emptyState).q.tasks =
        [{ ID := "task-20260101-090000-aaaaa1", Type_ := "recall",
           ActionPlan := some (recallPlan "go"), Params := [], Priority := 5,
           Status := "pending", CreatedAt := "2026-01-01T09:00:00Z", CreatedBy := "user",
           StartedAt := "", CompletedAt := "", Result := none }] := rfl
    rw [h, List.mem_singleton] at ht
    rw [ht]
    simp
  have hrun : runRespectsLifecycle (enqueueRecall.apply emptyState) processCalls := by
    refine ⟨trivial, ⟨Or.inl rfl, ?_⟩, trivial⟩
    intro t ht
    have h : GetTask ((QueueCall.dequeue "2026-01-01T09:00:30Z" .ok).apply
        (enqueueRecall.apply emptyState)).q "task-20260101-090000-aaaaa1" =
        some { ID := "task-20260101-090000-aaaaa1", Type_ := "recall",
               ActionPlan := some (recallPlan "go"), Params := [], Priority := 5,
               Status := "running", CreatedAt := "2026-01-01T09:00:00Z", CreatedBy := "user",
               StartedAt := "2026-01-01T09:00:30Z", CompletedAt := "", Result := none } := by
      rfl
    rw [h] at ht
    injection ht with ht
    subst ht
    rfl
  ⟨hids, hrun, by decide,
    status_moves_along_lifecycle (enqueueRecall.apply emptyState) { entries := [], writes := 0 }
      distinctIdCalls.tail hids hplans processCalls hrun sampleEnv
      (NewTask (recallPlan "go") "task-20260101-090000-aaaaa1" "2026-01-01T09:00:00Z")
      (Or.inl rfl)⟩

/-! ## Theorems: task creation over the control protocol -/

/-- The loop over the arguments keeps the arguments other than "--async", in
order, and reports whether "--async" occurs. -/
theorem splitAsync_spec (args rest : List String) (async : Bool) :
    splitAsync args rest async =
      (rest ++ args.filter (fun a => a ≠ "--async"), async || decide ("--async" ∈ args)) := by
  induction args generalizing rest async with
  | nil => simp [splitAsync]
  | cons a as ih =>
    rw [splitAsync]
    by_cases ha : a = "--async"
    · rw [if_pos ha, ih, List.filter_cons_of_neg (by simp [ha])]
      simp [ha]
    · rw [if_neg ha, ih, List.filter_cons_of_pos (by simp [ha])]
      have hne : ¬ ("--async" = a) := fun e => ha e.symm
      simp [hne]

theorem typeAndSteps_some (rest : List String) (h : rest ≠ []) :
    ∃ ts, typeAndSteps rest = some ts := by
  cases rest with
  | nil => exact absurd rfl h
  | cons first others =>
    simp only [typeAndSteps]
    split_ifs
    · exact ⟨_, rfl⟩
    · exact ⟨_, rfl⟩

/-- C22 (as claimed, refuted): the argument list that holds "--async" alone is
answered with a usage text; no task is enqueued and the server is unchanged. -/
theorem handleTaskCreate_async_alone_is_refused :
    "--async" ∈ ["--async"] ∧
    (handleTaskCreate sampleEnv freshServer ["--async"] "task-20260101-090000-aaaaa1"
        "2026-01-01T09:00:00Z" "2026-01-01T09:00:01Z" .ok).map
      (fun r => (r.1.Success, r.1.Message, r.1.Data,
        r.2.evolution.map fun e => e.queue.q.tasks.length)) =
      some (false, "Usage: task create \"<需求描述>\" or task create <type> [steps...]", none,
        some 0) := by
  refine ⟨by decide, ?_⟩
  rfl

/-- C22 (amended): when the engine is available and the arguments hold "--async"
and at least one other token, `handleTaskCreate` does not execute the task
(its answer and the server afterwards do not depend on the executor, and the log
is untouched): it appends exactly one task to the queue, pending, created by
"user", of priority 5 and carrying the drawn id, and answers success with that id
in the message and under "task_id" in the data. -/
theorem handleTaskCreate_async_enqueues (env : ExecEnv) (srv : TaskServer)
    (engine : EvolutionEngine) (args : List String) (id now logNow : String) (w : WriteOutcome)
    (hengine : srv.evolution = some engine) (hasync : "--async" ∈ args)
    (hother : ∃ a ∈ args, a ≠ "--async") :
    ∃ (task : QueuedTask) (d : Disk),
      handleTaskCreate env srv args id now logNow w =
        some ({ Success := true, Message := "Task queued successfully: " ++ id,
                Data := some (marshalData (queuedData task)) },
          { evolution := some
              { queue := { q := { tasks := engine.queue.q.tasks ++ [task] }, d := d },
                log := engine.log } }) ∧
      task.ID = id ∧ task.Status = "pending" ∧ task.CreatedBy = "user" ∧ task.Priority = 5 ∧
      task.Result = none ∧ createdPlan args = task.ActionPlan ∧ task.ActionPlan ≠ none ∧
      (queuedData task).lookup "task_id" = some (.str id) ∧
      ∀ env2 : ExecEnv,
        handleTaskCreate env2 srv args id now logNow w =
          handleTaskCreate env srv args id now logNow w := by
  obtain ⟨a, ha, hne⟩ := hother
  have hlen : ¬ args.length < 1 := by
    cases args with
    | nil => cases ha
    | cons x xs => simp
  have hrest : args.filter (fun a => a ≠ "--async") ≠ [] := by
    intro h
    have : a ∈ args.filter (fun a => a ≠ "--async") := List.mem_filter.2 ⟨ha, by simp [hne]⟩
    rw [h] at this
    cases this
  obtain ⟨ts, hts⟩ := typeAndSteps_some _ hrest
  obtain ⟨taskType, steps⟩ := ts
  have hsplit : splitAsync args [] false =
      (args.filter (fun a => a ≠ "--async"), true) := by
    rw [splitAsync_spec]
    simp [hasync]
  have hform : ∀ env1 : ExecEnv, handleTaskCreate env1 srv args id now logNow w =
      some ({ Success := true, Message := "Task queued successfully: " ++ id,
              Data := some (marshalData (queuedData
                (Enqueue engine.queue.q engine.queue.d (createPlan taskType steps) "user" id now
                  w).2.2.1)) },
        { evolution := some
            { queue :=
                { q := { tasks := engine.queue.q.tasks ++
                    [(Enqueue engine.queue.q engine.queue.d (createPlan taskType steps) "user" id
                      now w).2.2.1] },
                  d := (Enqueue engine.queue.q engine.queue.d (createPlan taskType steps) "user"
                    id now w).2.1 },
              log := engine.log } }) := by
    intro env1
    unfold handleTaskCreate
    simp only [hengine, if_neg hlen, hsplit, hts, if_true]
    rfl
  refine ⟨_, _, hform env, rfl, rfl, rfl, rfl, rfl, ?_, ?_, rfl, ?_⟩
  · simp only [createdPlan, hsplit, hts]
    rfl
  · simp [Enqueue]
  · intro env2
    rw [hform env2, hform env]

/-- C22 (amended), at a recall request sent with "--async" to a fresh server. -/
theorem handleTaskCreate_async_enqueues_witness :
    ∃ (task : QueuedTask) (d : Disk),
      handleTaskCreate sampleEnv freshServer ["recall", "--async", "go"]
          "task-20260101-090000-aaaaa1" "2026-01-01T09:00:00Z" "2026-01-01T09:00:01Z" .ok =
        some ({ Success := true,
                Message := "Task queued successfully: " ++ "task-20260101-090000-aaaaa1",
                Data := some (marshalData (queuedData task)) },
          { evolution := some
              { queue := { q := { tasks := emptyState.q.tasks ++ [task] }, d := d },
                log := { entries := [], writes := 0 } } }) ∧
      task.ID = "task-20260101-090000-aaaaa1" ∧ task.Status = "pending" ∧
      task.CreatedBy = "user" ∧ task.Priority = 5 ∧ task.Result = none ∧
      createdPlan ["recall", "--async", "go"] = task.ActionPlan ∧ task.ActionPlan ≠ none ∧
      (queuedData task).lookup "task_id" = some (.str "task-20260101-090000-aaaaa1") ∧
      ∀ env2 : ExecEnv,
        handleTaskCreate env2 freshServer ["recall", "--async", "go"]
            "task-20260101-090000-aaaaa1" "2026-01-01T09:00:00Z" "2026-01-01T09:00:01Z" .ok =
          handleTaskCreate sampleEnv freshServer ["recall", "--async", "go"]
            "task-20260101-090000-aaaaa1" "2026-01-01T09:00:00Z" "2026-01-01T09:00:01Z" .ok :=
  handleTaskCreate_async_enqueues sampleEnv freshServer
    { queue := emptyState, log := { entries := [], writes := 0 } } ["recall", "--async", "go"]
    "task-20260101-090000-aaaaa1" "2026-01-01T09:00:00Z" "2026-01-01T09:00:01Z" .ok rfl
    (by decide) ⟨"recall", by decide, by decide⟩

/-- C23 (the code diverges): "custom" is among the types the usage text of
`handleTaskCreate` documents but not in its map `knownTypes`, so a first token
"custom" is not taken off the steps: the plan has the action custom, and its
single step (and its reason) is the whole argument text, the word "custom"
included. For the eight types of the map the plan has the type as its action and
the remaining tokens other than "--async", in order, as its steps; for any other
first token the plan is a custom one whose single step is the tokens other than
"--async" joined by single spaces. -/
theorem handleTaskCreate_custom_type_stays_in_the_step :
    "custom" ∈ documentedTypes ∧ "custom" ∉ createKnownTypes ∧
    createdPlan ["custom", "整理", "记忆"] =
      some { Action := "custom", Reason := "custom 整理 记忆", Steps := ["custom 整理 记忆"],
             ExpectedOutcome := "Execute custom task successfully", Priority := 5 } ∧
    createdPlan ["recall", "整理", "记忆"] =
      some { Action := "recall", Reason := "Task created via catacli: recall",
             Steps := ["整理", "记忆"],
             ExpectedOutcome := "Execute recall task successfully", Priority := 5 } ∧
    (handleTaskCreate sampleEnv freshServer ["custom", "--async", "整理", "记忆"]
        "task-20260101-090000-aaaaa1" "2026-01-01T09:00:00Z" "2026-01-01T09:00:01Z" .ok).map
      (fun r => r.2.evolution.map fun e => e.queue.q.tasks.map fun t => t.ActionPlan) =
      some (some [some
        { Action := "custom", Reason := "custom 整理 记忆", Steps := ["custom 整理 记忆"],
          ExpectedOutcome := "Execute custom task successfully", Priority := 5 }]) ∧
    (∀ (args others : List String) (first : String),
      args.filter (fun a => a ≠ "--async") = first :: others →
      (first ∈ createKnownTypes →
        ∃ plan, createdPlan args = some plan ∧ plan.Action = first ∧ plan.Steps = others) ∧
      (first ∉ createKnownTypes →
        ∃ plan, createdPlan args = some plan ∧ plan.Action = "custom" ∧
          plan.Steps = [Join (first :: others) " "])) := by
  refine ⟨by decide, by decide, by decide, by decide, by decide, ?_⟩
  intro args others first hf
  have hsplit : (splitAsync args [] false).1 = first :: others := by
    rw [splitAsync_spec, List.nil_append, hf]
  constructor
  · intro hk
    refine ⟨createPlan first others, ?_, rfl, rfl⟩
    simp only [createdPlan, hsplit, typeAndSteps, if_pos hk, Option.map_some']
  · intro hk
    refine ⟨createPlan "custom" [Join (first :: others) " "], ?_, rfl, rfl⟩
    simp only [createdPlan, hsplit, typeAndSteps, if_neg hk, Option.map_some']

/-! ## Theorems: a disabled skill -/

/-- The loop of `Start` keeps the timers armed before it. -/
theorem startLoop_keeps (clock : Nat → WallClock) (skills : List Skill) (k : Nat)
    (cron : SimpleCron) : ∀ timer ∈ cron.timers, timer ∈ (startLoop clock skills k cron).timers := by
  induction skills generalizing k cron with
  | nil =>
    intro timer ht
    exact ht
  | cons x rest ih =>
    intro timer ht
    rw [startLoop]
    by_cases hx : x.CronSchedule = ""
    · rw [if_pos hx]
      exact ih (k + 1) cron timer ht
    · rw [if_neg hx]
      cases hp : parseDailySchedule x.CronSchedule with
      | error e =>
        simp only [hp]
        exact ih (k + 1) cron timer ht
      | ok hm =>
        obtain ⟨hour, minute⟩ := hm
        simp only [hp]
        apply ih (k + 1) _ timer
        simp only [SimpleCron.AddDailyTask, List.mem_append]
        exact Or.inl ht

/-- The loop of `Start` arms a timer for every skill it visits that has a
schedule `parseDailySchedule` accepts. -/
theorem startLoop_arms (clock : Nat → WallClock) (skills : List Skill) (k : Nat)
    (cron : SimpleCron) (skill : Skill) (hs : skill ∈ skills)
    (hv : hasValidSchedule skill = true) :
    ∃ timer ∈ (startLoop clock skills k cron).timers, timer.task = skill := by
  induction skills generalizing k cron with
  | nil => cases hs
  | cons x rest ih =>
    rw [startLoop]
    rcases List.mem_cons.1 hs with e | e
    · subst e
      simp only [hasValidSchedule, Bool.and_eq_true, decide_eq_true_eq] at hv
      obtain ⟨hne, hok⟩ := hv
      rw [if_neg hne]
      cases hp : parseDailySchedule skill.CronSchedule with
      | error e => simp [hp] at hok
      | ok hm =>
        obtain ⟨hour, minute⟩ := hm
        simp only [hp]
        refine ⟨{ delay := firstDelay hour minute (clock k), task := skill },
          startLoop_keeps clock rest (k + 1) _ _ ?_, rfl⟩
        simp only [SimpleCron.AddDailyTask, List.mem_append, List.mem_singleton]
        exact Or.inr rfl
    · by_cases hx : x.CronSchedule = ""
      · rw [if_pos hx]
        exact ih (k + 1) cron e
      · rw [if_neg hx]
        cases hp : parseDailySchedule x.CronSchedule with
        | error err =>
          simp only [hp]
          exact ih (k + 1) cron e
        | ok hm =>
          obtain ⟨hour, minute⟩ := hm
          simp only [hp]
          exact ih (k + 1) _ e

/-- A registered skill is among the skills `GetAllWithCron` returns when it has
a schedule. -/
theorem GetAllWithCron_registered (r : SkillRegistry) (name : String) (skill : Skill)
    (hg : r.Get name = some skill) (hne : skill.CronSchedule ≠ "") :
    skill ∈ r.GetAllWithCron := by
  have hm := mem_of_lookup r.skills name skill hg
  simp only [SkillRegistry.GetAllWithCron, List.mem_filter, List.mem_map]
  exact ⟨⟨(name, skill), hm, rfl⟩, by simp [hne]⟩

/-- C19 fails as stated: the scheduler is started with the two built-in skills
registered, then "periodic-summarize" is disabled. `Get` no longer finds the
skill, but the timer `Start` armed for it is still there, and when it fires it
runs the skill (here the run fails on a full disk, which is logged). -/
theorem disabled_skill_timer_keeps_firing :
    ((NewScheduler (runRegistry (NewSkillRegistry { Enabled := [] }) failingStartupCalls)).Start
        tenOClock).cron.timers.map (fun timer => timer.task.Name) =
      ["periodic-summarize", "daily-consolidate"] ∧
    (((NewScheduler (runRegistry (NewSkillRegistry { Enabled := [] }) failingStartupCalls)).Start
        tenOClock).afterRegistry (.disable "periodic-summarize" none)).registry.Get
      "periodic-summarize" = none ∧
    (((NewScheduler (runRegistry (NewSkillRegistry { Enabled := [] }) failingStartupCalls)).Start
        tenOClock).afterRegistry (.disable "periodic-summarize" none)).cron.timers.map
      (fun timer => timer.task.Name) = ["periodic-summarize", "daily-consolidate"] ∧
    (((NewScheduler (runRegistry (NewSkillRegistry { Enabled := [] }) failingStartupCalls)).Start
        tenOClock).afterRegistry (.disable "periodic-summarize" none)).cron.timers.map
      DailyTimer.fire = [some "failed to summarize and rotate: disk full", none] := by
  refine ⟨by decide, rfl, by decide, by decide⟩

/-- C19, amended: in every registry reached from `NewSkillRegistry`, after
`DisableSkill(name)` the lookup `Get(name)` finds nothing, `List` and
`GetAllWithCron` return no skill of that name, and the configuration flag of the
name is false. A later `EnableSkill(name)` sets the flag to true and leaves the
map of skills as it is; so after it, and after any further `EnableSkill` and
`DisableSkill` calls, `Get(name)` still finds nothing, `List` and
`GetAllWithCron` still omit the skill, the tool list built for the oracle has no
tool "skill_<name>", a tool call "skill_<name>" runs nothing, and a `Start` made
from then on arms no timer for it. The timers armed before are out of reach of
these calls: a `Start` made while the skill was registered with a schedule armed
a timer for it, and that timer is still armed, with the same skill to run, after
the skill has been disabled. -/
theorem disabled_skill_stays_invisible (config : SkillConfig) (cs later : List RegistryCall)
    (r : SkillRegistry) (hr : r = runRegistry (NewSkillRegistry config) cs)
    (hlater : ∀ c ∈ later, c.isToggle = true)
    (name : String) (saved1 saved2 : Option String)
    (describe : String → Option String) (history : List Message) (clock : Nat → WallClock) :
    ((r.DisableSkill name saved1).1.Get name = none ∧
      (∀ s ∈ (r.DisableSkill name saved1).1.ListSkills, s.Name ≠ name) ∧
      (∀ s ∈ (r.DisableSkill name saved1).1.GetAllWithCron, s.Name ≠ name) ∧
      (r.DisableSkill name saved1).1.config.IsSkillEnabled name = false) ∧
    (((r.DisableSkill name saved1).1.EnableSkill name saved2).1.config.IsSkillEnabled name
        = true ∧
      ((r.DisableSkill name saved1).1.EnableSkill name saved2).1.skills =
        (r.DisableSkill name saved1).1.skills) ∧
    ((runRegistry ((r.DisableSkill name saved1).1.EnableSkill name saved2).1 later).Get name
        = none ∧
      (∀ s ∈ (runRegistry ((r.DisableSkill name saved1).1.EnableSkill name saved2).1
          later).ListSkills, s.Name ≠ name) ∧
      (∀ s ∈ (runRegistry ((r.DisableSkill name saved1).1.EnableSkill name saved2).1
          later).GetAllWithCron, s.Name ≠ name) ∧
      (∀ tool ∈ buildDecisionTools
          { hasLLMClient := true,
            registry := some (runRegistry
              ((r.DisableSkill name saved1).1.EnableSkill name saved2).1 later),
            decisionHistory := history } describe,
        tool.Function.Name ≠ "skill_" ++ name) ∧
      (∀ (env : DecideEnv) (id arguments : String) (rest : List ToolCall),
        executeToolCalls
            { hasLLMClient := true,
              registry := some (runRegistry
                ((r.DisableSkill name saved1).1.EnableSkill name saved2).1 later),
              decisionHistory := history } env
            (toolCall id ("skill_" ++ name) arguments :: rest) =
          executeToolCalls
            { hasLLMClient := true,
              registry := some (runRegistry
                ((r.DisableSkill name saved1).1.EnableSkill name saved2).1 later),
              decisionHistory := history } env rest) ∧
      (∀ (cron : SimpleCron), ∀ timer ∈ (Scheduler.Start
          { registry := runRegistry
              ((r.DisableSkill name saved1).1.EnableSkill name saved2).1 later,
            cron := cron } clock).cron.timers,
        timer ∈ cron.timers ∨ timer.task.Name ≠ name)) ∧
    (∀ (cron : SimpleCron) (skill : Skill),
      r.Get name = some skill → hasValidSchedule skill = true →
      ∃ timer ∈ (Scheduler.Start { registry := r, cron := cron } clock).cron.timers,
        timer.task = skill ∧ timer.fire = skill.Run [] ∧
        timer ∈ ((Scheduler.Start { registry := r, cron := cron } clock).afterRegistry
          (.disable name saved1)).cron.timers ∧
        ((Scheduler.Start { registry := r, cron := cron } clock).afterRegistry
          (.disable name saved1)).registry.Get name = none) := by
  have hcons : r.Consistent := by
    rw [hr]
    exact runRegistry_consistent cs _ (NewSkillRegistry_consistent config)
  have hc1 : (r.DisableSkill name saved1).1.Consistent :=
    apply_consistent r (.disable name saved1) hcons
  have ha1 : ∀ kv ∈ (r.DisableSkill name saved1).1.skills, kv.1 ≠ name := by
    intro kv hkv
    have hkv2 : kv ∈ r.skills.filter fun kv => kv.1 ≠ name := hkv
    simpa using (List.mem_filter.mp hkv2).2
  have hc2 : ((r.DisableSkill name saved1).1.EnableSkill name saved2).1.Consistent :=
    apply_consistent _ (.enable name saved2) hc1
  have hc3 : (runRegistry ((r.DisableSkill name saved1).1.EnableSkill name saved2).1
      later).Consistent := runRegistry_consistent later _ hc2
  have ha3 : ∀ kv ∈ (runRegistry ((r.DisableSkill name saved1).1.EnableSkill name saved2).1
      later).skills, kv.1 ≠ name := by
    intro kv hkv
    exact ha1 kv (runRegistry_toggle_skills later
      ((r.DisableSkill name saved1).1.EnableSkill name saved2).1 hlater kv hkv)
  have hl1 := absent_names _ name hc1 ha1
  have hl3 := absent_names _ name hc3 ha3
  refine ⟨⟨lookup_none_of_absent _ name ha1, hl1, ?_, ?_⟩, ⟨?_, rfl⟩,
    ⟨lookup_none_of_absent _ name ha3, hl3, ?_, ?_, ?_, ?_⟩, ?_⟩
  · intro s hs
    exact hl1 s (List.mem_filter.mp hs).1
  · show (r.config.SetSkillEnabled name false).IsSkillEnabled name = false
    rw [IsSkillEnabled_set, if_pos rfl]
  · show (((r.DisableSkill name saved1).1.config).SetSkillEnabled name true).IsSkillEnabled name
      = true
    rw [IsSkillEnabled_set, if_pos rfl]
  · intro s hs
    exact hl3 s (List.mem_filter.mp hs).1
  · intro tool ht hname
    obtain ⟨s1, hs, hn⟩ := toolsLoop_names describe _ tool ht
    rw [hn] at hname
    exact hl3 s1 hs (skill_prefix_inj _ _ hname)
  · intro env id arguments rest
    simp only [executeToolCalls]
    exact runToolCalls_unregistered env _ id name arguments rest
      (lookup_none_of_absent _ name ha3)
  · intro cron timer ht
    rcases startLoop_tasks clock _ 0 cron timer ht with h | h
    · exact Or.inl h
    · exact Or.inr (hl3 timer.task (List.mem_filter.mp h).1)
  · intro cron skill hg hv
    have hne : skill.CronSchedule ≠ "" := by
      simp only [hasValidSchedule, Bool.and_eq_true, decide_eq_true_eq] at hv
      exact hv.1
    obtain ⟨timer, ht, htask⟩ := startLoop_arms clock r.GetAllWithCron 0 cron skill
      (GetAllWithCron_registered r name skill hg hne) hv
    refine ⟨timer, ht, htask, ?_, ht, lookup_none_of_absent _ name ha1⟩
    simp only [DailyTimer.fire, htask]

/-- Witness of `disabled_skill_stays_invisible`: the daily skill of the built-in
registry is disabled, enabled again and disabled once more; the timer armed for
it at the start stays armed. -/
theorem disabled_skill_stays_invisible_witness :
    builtinRegistry = runRegistry (NewSkillRegistry { Enabled := [] }) startupCalls ∧
    (∀ c ∈ [RegistryCall.disable "daily-consolidate" none], c.isToggle = true) ∧
    builtinRegistry.Get "daily-consolidate" = some DailyConsolidateSkill ∧
    (runRegistry
      ((builtinRegistry.DisableSkill "daily-consolidate" none).1.EnableSkill
        "daily-consolidate" none).1
      [RegistryCall.disable "daily-consolidate" none]).Get "daily-consolidate" = none ∧
    (∃ timer ∈ (Scheduler.Start { registry := builtinRegistry, cron := SimpleCron.mk [] }
        tenOClock).cron.timers,
      timer.task = DailyConsolidateSkill ∧ timer.fire = DailyConsolidateSkill.Run [] ∧
      timer ∈ ((Scheduler.Start { registry := builtinRegistry, cron := SimpleCron.mk [] }
        tenOClock).afterRegistry (.disable "daily-consolidate" none)).cron.timers ∧
      ((Scheduler.Start { registry := builtinRegistry, cron := SimpleCron.mk [] }
        tenOClock).afterRegistry (.disable "daily-consolidate" none)).registry.Get
          "daily-consolidate" = none) :=
  have hr : builtinRegistry = runRegistry (NewSkillRegistry { Enabled := [] }) startupCalls :=
    rfl
  have hlater : ∀ c ∈ [RegistryCall.disable "daily-consolidate" none], c.isToggle = true := by
    intro c hc
    rw [List.mem_singleton.mp hc]
    rfl
  ⟨hr, hlater, rfl,
    (disabled_skill_stays_invisible { Enabled := [] } startupCalls
      [RegistryCall.disable "daily-consolidate" none] builtinRegistry hr hlater
      "daily-consolidate" none none (fun _ => none) [] tenOClock).2.2.1.1,
    (disabled_skill_stays_invisible { Enabled := [] } startupCalls
      [RegistryCall.disable "daily-consolidate" none] builtinRegistry hr hlater
      "daily-consolidate" none none (fun _ => none) [] tenOClock).2.2.2 (SimpleCron.mk [])
      DailyConsolidateSkill rfl (by decide)⟩

end Mybot
